import Mathlib

/-!
# A shallow embedding of the eszip V2 codec (Go implementation)

This file embeds the V2 reader (`ParseV2` / `parseV2WithVersion` /
`parseOptionsHeader` / `readSection` / `parseModulesHeader` / `loadSources` /
`loadSection`), the V2 writer (`EszipV2.IntoBytes`), and the top-level
dispatcher (`Parse`) of the eszip Go library into Lean, and proves the
specified behaviours of those functions.

Bytes are modelled as natural numbers (every byte produced by the embedded
writer and consumed by the embedded reader is below 256); byte strings are
`List Nat`.  Go's `io.Reader` is modelled by threading the remaining input
list through each reading function.  Go's mutable archive (slots updated in
place by the completion task) is modelled by explicit state passing: the
completion functions take the archive value and return the updated one.
-/

namespace Eszip

/-- The maximum allowed size for any section (256 MB), `maxSectionSize` in Go. -/
def maxSectionSize : Nat := 268435456

/-- `math.MaxUint32`, the writer's limit for string/section lengths. -/
def maxUint32 : Nat := 4294967295

/-- Big-endian 4-byte encoding of a `uint32` value (`binary.BigEndian.PutUint32`). -/
def u32Bytes (n : Nat) : List Nat :=
  [n / 16777216 % 256, n / 65536 % 256, n / 256 % 256, n % 256]

/-- Big-endian decoding of four bytes (`binary.BigEndian.Uint32`). -/
def readU32 (b0 b1 b2 b3 : Nat) : Nat :=
  ((b0 * 256 + b1) * 256 + b2) * 256 + b3

/-- Decode the `uint32` stored big-endian at index `i` of `content`. -/
def getU32 (content : List Nat) (i : Nat) : Nat :=
  readU32 (content.getD i 0) (content.getD (i+1) 0)
    (content.getD (i+2) 0) (content.getD (i+3) 0)

/-- Split off the first `n` bytes of the input, or fail as `io.ReadFull` does
when the reader is exhausted. -/
def takeExact (n : Nat) (l : List Nat) : Option (List Nat × List Nat) :=
  if n ≤ l.length then some (l.take n, l.drop n) else none

/-- The error taxonomy (`ParseError.Type` in Go).  Error message strings are
carried where the Go errors carry formatted messages; formatted arguments
that do not affect control flow are left out of the message text. -/
inductive ParseErr where
  | ioErr
  | invalidV2
  | invalidV2HeaderHash
  | invalidV2Header (msg : String)
  | invalidV22OptionsHeader (msg : String)
  | invalidV22OptionsHeaderHash
  | invalidV2EntryKind (b off : Nat)
  | invalidV2ModuleKind (b off : Nat)
  | invalidV2SourceOffset (off : Nat)
  | invalidV2SourceHash (specifier : List Nat)
  | canceled
  | other (msg : String)
  deriving DecidableEq, Repr

/-- `ChecksumType`: None=0, Sha256=1, Xxh3=2. -/
inductive ChecksumType where
  | none
  | sha256
  | xxh3
  deriving DecidableEq, Repr

/-- `DigestSize`: 0, 32 or 8 bytes. -/
def ChecksumType.DigestSize : ChecksumType → Nat
  | .none => 0
  | .sha256 => 32
  | .xxh3 => 8

/-- The byte tag of a checksum type. -/
def ChecksumType.toByte : ChecksumType → Nat
  | .none => 0
  | .sha256 => 1
  | .xxh3 => 2

/-- `ChecksumFromU8` recognizes 0..=2 only. -/
def ChecksumFromU8 (b : Nat) : Option ChecksumType :=
  match b with
  | 0 => some .none
  | 1 => some .sha256
  | 2 => some .xxh3
  | _ => Option.none

/-- Modelled from the spec: the repository's checksum providers (`checksum.go`
is not among the sources).  SHA-256 and XXH3 are external hash functions;
they are modelled as deterministic digests of the stated sizes (32 and 8
bytes) computed from the input bytes.  Only determinism, the digest sizes,
and `verify = recompute-and-compare` matter to the embedded code. -/
def hashBytes (size : Nat) (data : List Nat) : List Nat :=
  (List.range size).map
    (fun i => data.foldl (fun a b => (a * 31 + b + i) % 256) ((i + size) % 256))

/-- `Hash`: None returns no digest (nil); Sha256/Xxh3 return fixed-size digests. -/
def ChecksumType.Hash : ChecksumType → List Nat → List Nat
  | .none, _ => []
  | .sha256, data => hashBytes 32 data
  | .xxh3, data => hashBytes 8 data

/-- `Verify`: None always true; others recompute the digest and compare. -/
def ChecksumType.Verify (c : ChecksumType) (data digest : List Nat) : Bool :=
  match c with
  | .none => true
  | _ => decide (c.Hash data = digest)

/-- `Options`: checksum algorithm and explicit digest size (a `u8`). -/
structure Options where
  Checksum : ChecksumType
  ChecksumSize : Nat
  deriving DecidableEq, Repr

/-- `GetChecksumSize`: the explicit size if set, else the algorithm's digest
size (behaviour fixed by `TestOptionsGetChecksumSize`). -/
def Options.GetChecksumSize (o : Options) : Nat :=
  if o.ChecksumSize ≠ 0 then o.ChecksumSize else o.Checksum.DigestSize

/-- The archive format versions V2.0 .. V2.3. -/
inductive EszipVersion where
  | v2
  | v2_1
  | v2_2
  | v2_3
  deriving DecidableEq, Repr

/-- `SupportsNpm` = version ≥ V2.1. -/
def EszipVersion.SupportsNpm : EszipVersion → Bool
  | .v2 => false
  | _ => true

/-- `SupportsOptions` = version ≥ V2.2. -/
def EszipVersion.SupportsOptions : EszipVersion → Bool
  | .v2_2 => true
  | .v2_3 => true
  | _ => false

/-- Modelled from the spec: the four 8-byte magic strings (the version/magic
source file is not among the sources).  They are implementation-defined
distinct 8-byte constants mapping 1:1 to the versions. -/
def EszipVersion.ToMagic : EszipVersion → List Nat
  | .v2 => [69, 83, 90, 73, 80, 50, 46, 48]
  | .v2_1 => [69, 83, 90, 73, 80, 50, 46, 49]
  | .v2_2 => [69, 83, 90, 73, 80, 50, 46, 50]
  | .v2_3 => [69, 83, 90, 73, 80, 50, 46, 51]

/-- `VersionFromMagic`: inverse of `ToMagic` on the four known magics. -/
def VersionFromMagic (m : List Nat) : Option EszipVersion :=
  if m = EszipVersion.v2.ToMagic then some .v2
  else if m = EszipVersion.v2_1.ToMagic then some .v2_1
  else if m = EszipVersion.v2_2.ToMagic then some .v2_2
  else if m = EszipVersion.v2_3.ToMagic then some .v2_3
  else Option.none

/-- `LatestVersion` (used by `NewV2`). -/
def LatestVersion : EszipVersion := .v2_3

/-- `DefaultOptionsForVersion`: V2.0/V2.1 default to SHA-256; V2.2+ to None
(behaviour fixed by `TestDefaultOptionsForVersion`). -/
def DefaultOptionsForVersion (v : EszipVersion) : Options :=
  match v with
  | .v2 => ⟨.sha256, 0⟩
  | .v2_1 => ⟨.sha256, 0⟩
  | _ => ⟨.none, 0⟩

/-- The observable state of a source slot. -/
inductive SourceSlotState where
  | pending
  | ready
  | taken
  deriving DecidableEq, Repr

/-- Modelled from the spec: `SourceSlot` (its source file is not among the
sources).  A one-shot cell with states Pending(offset,len) / Ready(bytes) /
Taken; `Ready Option.none` models Go's `Ready(nil)` (the empty slot). -/
inductive SourceSlot where
  | pending (offset length : Nat)
  | ready (data : Option (List Nat))
  | taken
  deriving DecidableEq, Repr

/-- `NewEmptySourceSlot`: a slot that is already resolved with no bytes. -/
def NewEmptySourceSlot : SourceSlot := .ready Option.none

/-- `NewReadySourceSlot`. -/
def NewReadySourceSlot (b : List Nat) : SourceSlot := .ready (some b)

/-- `NewPendingSourceSlot`. -/
def NewPendingSourceSlot (offset length : Nat) : SourceSlot := .pending offset length

/-- `State()` observer. -/
def SourceSlot.state : SourceSlot → SourceSlotState
  | .pending _ _ => .pending
  | .ready _ => .ready
  | .taken => .taken

/-- `Offset()` observer (meaningful on Pending). -/
def SourceSlot.offset : SourceSlot → Nat
  | .pending o _ => o
  | _ => 0

/-- `Length()` observer (meaningful on Pending). -/
def SourceSlot.length : SourceSlot → Nat
  | .pending _ l => l
  | .ready (some d) => d.length
  | _ => 0

/-- `SetReady`: transitions Pending to Ready; a second call is ignored. -/
def SourceSlot.setReady (s : SourceSlot) (d : Option (List Nat)) : SourceSlot :=
  match s with
  | .pending _ _ => .ready d
  | _ => s

/-- `Get` without blocking: Ready returns its bytes (possibly nil), Taken
returns nil.  In Go a `Get` on a Pending slot blocks until `SetReady` or
cancellation; the writer only reaches that case on archives with pending
slots, which is modelled as the absence of a value. -/
def SourceSlot.getNow : SourceSlot → Option (Option (List Nat))
  | .ready d => some d
  | .taken => some Option.none
  | .pending _ _ => Option.none

/-- Module kinds: JavaScript=0, Json=1, Jsonc=2, OpaqueData=3, Wasm=4. -/
inductive ModuleKind where
  | javaScript
  | json
  | jsonc
  | opaqueData
  | wasm
  deriving DecidableEq, Repr

/-- The byte tag of a module kind. -/
def ModuleKind.toByte : ModuleKind → Nat
  | .javaScript => 0
  | .json => 1
  | .jsonc => 2
  | .opaqueData => 3
  | .wasm => 4

/-- Decode a module kind byte; bytes outside 0..=4 are not module kinds. -/
def ModuleKind.fromByte (b : Nat) : Option ModuleKind :=
  match b with
  | 0 => some .javaScript
  | 1 => some .json
  | 2 => some .jsonc
  | 3 => some .opaqueData
  | 4 => some .wasm
  | _ => Option.none

/-- `ModuleData`: kind plus the two payload slots. -/
structure ModuleData where
  Kind : ModuleKind
  Source : SourceSlot
  SourceMap : SourceSlot
  deriving DecidableEq, Repr

/-- `ModuleRedirect`. -/
structure ModuleRedirect where
  Target : List Nat
  deriving DecidableEq, Repr

/-- `NpmSpecifierEntry`. -/
structure NpmSpecifierEntry where
  PackageID : Nat
  deriving DecidableEq, Repr

/-- The tagged union stored in the module map. -/
inductive MapEntry where
  | data (d : ModuleData)
  | redirect (r : ModuleRedirect)
  | npm (n : NpmSpecifierEntry)
  deriving DecidableEq, Repr

/-- The header frame discriminators: Module=0, Redirect=1, NpmSpecifier=2. -/
def HeaderFrameModule : Nat := 0

/-- Redirect frame tag. -/
def HeaderFrameRedirect : Nat := 1

/-- Npm-specifier frame tag. -/
def HeaderFrameNpmSpecifier : Nat := 2

/-- Modelled from the spec: `ModuleMap` (its source file is not among the
sources).  An insertion-ordered mapping from specifier to entry, modelled as
an association list in iteration order; keys are unique by construction
(`Insert` replaces in place, `InsertFront` unlinks and prepends). -/
abbrev ModuleMap := List (List Nat × MapEntry)

/-- `NewModuleMap`. -/
def NewModuleMap : ModuleMap := []

/-- `Get`. -/
def ModuleMap.Get (m : ModuleMap) (k : List Nat) : Option MapEntry :=
  (List.find? (fun p => decide (p.1 = k)) m).map Prod.snd

/-- `Insert`: preserves position if the key exists (overwriting the value),
else appends. -/
def ModuleMap.Insert (m : ModuleMap) (k : List Nat) (v : MapEntry) : ModuleMap :=
  if m.any (fun p => decide (p.1 = k)) then
    m.map (fun p => if p.1 = k then (k, v) else p)
  else m ++ [(k, v)]

/-- `InsertFront`: moves the key to the front (or prepends a new entry). -/
def ModuleMap.InsertFront (m : ModuleMap) (k : List Nat) (v : MapEntry) : ModuleMap :=
  (k, v) :: m.filter (fun p => decide (p.1 ≠ k))

/-- `Keys` (iteration order). -/
def ModuleMap.Keys (m : ModuleMap) : List (List Nat) := m.map Prod.fst

/-- `NpmPackageID`: name and version byte strings. -/
structure NpmPackageID where
  Name : List Nat
  Version : List Nat
  deriving DecidableEq, Repr

/-- `NpmPackageID.String()`: `name@version` ('@' is byte 64). -/
def NpmPackageID.idString (i : NpmPackageID) : List Nat :=
  i.Name ++ 64 :: i.Version

/-- `NpmPackage`: identity plus the dependency map.  The Go `Dependencies`
field is a Go map; it is modelled as an association list whose order stands
for the map's (arbitrary) iteration order. -/
structure NpmPackage where
  ID : NpmPackageID
  Dependencies : List (List Nat × NpmPackageID)
  deriving DecidableEq, Repr

/-- `NpmResolutionSnapshot`.  `RootPackages` is a Go map, modelled like
`Dependencies`. -/
structure NpmResolutionSnapshot where
  Packages : List NpmPackage
  RootPackages : List (List Nat × NpmPackageID)
  deriving DecidableEq, Repr

/-- The V2 archive state (`EszipV2`). -/
structure EszipV2 where
  modules : ModuleMap
  npmSnapshot : Option NpmResolutionSnapshot
  options : Options
  version : EszipVersion

/-- `NewV2`: a fresh archive at the latest version with default options. -/
def NewV2 : EszipV2 :=
  { modules := NewModuleMap
    npmSnapshot := Option.none
    options := DefaultOptionsForVersion LatestVersion
    version := LatestVersion }

/-- Lexicographic byte-string comparison (Go's `<` on strings). -/
def bytesLt : List Nat → List Nat → Bool
  | [], [] => false
  | [], _ :: _ => true
  | _ :: _, [] => false
  | a :: as, b :: bs => decide (a < b) || (decide (a = b) && bytesLt as bs)

/-- Insert an element into a list sorted by `key` (ascending). -/
def insertSorted {α : Type} (key : α → List Nat) (a : α) : List α → List α
  | [] => [a]
  | b :: bs => if bytesLt (key a) (key b) then a :: b :: bs else b :: insertSorted key a bs

/-- Sort a list ascending by `key` (the result of Go's `sort.Slice` with the
comparison `key i < key j`: the unique key-sorted arrangement when keys are
distinct). -/
def sortOn {α : Type} (key : α → List Nat) (l : List α) : List α :=
  l.foldr (insertSorted key) []

/-- The bytes a slot yields to the writer (`nil` reads as no bytes). -/
def optBytes : Option (List Nat) → List Nat
  | some b => b
  | Option.none => []

/-- One source/source-map block of the writer's module loop: reject oversized
payloads, write `(0,0)` offsets for empty ones, else append
`bytes ++ digest` to the payload buffer and the `(offset, length)` pair to
the header.  (The two Go blocks differ only in their error message texts.) -/
def appendPayload (checksum : ChecksumType) (hdr buf b : List Nat) :
    Except String (List Nat × List Nat) :=
  if b.length > maxUint32 then .error "payload too large"
  else if b.length > 0 then
    if buf.length > maxUint32 then .error "section offset overflow"
    else .ok (hdr ++ u32Bytes buf.length ++ u32Bytes b.length, buf ++ b ++ checksum.Hash b)
  else .ok (hdr ++ u32Bytes 0 ++ u32Bytes 0, buf)

/-- The writer's loop over the module map (the `for _, specifier := range keys`
body of `IntoBytes`), building the modules-header, sources and source-maps
buffers.  The Go loop iterates `Keys()` and looks each key up; since the
map's keys are unique this is iteration over the entry pairs. -/
def buildModulePart (checksum : ChecksumType) :
    List (List Nat × MapEntry) → List Nat → List Nat → List Nat →
    Except String (List Nat × List Nat × List Nat)
  | [], hdr, srcs, maps => .ok (hdr, srcs, maps)
  | (k, v) :: rest, hdr, srcs, maps =>
    if k.length > maxUint32 then .error "string too large"
    else
      let hdr := hdr ++ u32Bytes k.length ++ k
      match v with
      | .data d =>
        let hdr := hdr ++ [HeaderFrameModule]
        match d.Source.getNow with
        | Option.none => .error "blocked on a pending source slot"
        | some sd =>
          match appendPayload checksum hdr srcs (optBytes sd) with
          | .error e => .error e
          | .ok (hdr, srcs) =>
            match d.SourceMap.getNow with
            | Option.none => .error "blocked on a pending source slot"
            | some md =>
              match appendPayload checksum hdr maps (optBytes md) with
              | .error e => .error e
              | .ok (hdr, maps) =>
                buildModulePart checksum rest (hdr ++ [d.Kind.toByte]) srcs maps
      | .redirect r =>
        if r.Target.length > maxUint32 then .error "string too large"
        else
          buildModulePart checksum rest
            (hdr ++ [HeaderFrameRedirect] ++ u32Bytes r.Target.length ++ r.Target) srcs maps
      | .npm n =>
        buildModulePart checksum rest
          (hdr ++ [HeaderFrameNpmSpecifier] ++ u32Bytes n.PackageID) srcs maps

/-- `idToIndex` of the writer's npm block: a Go map built by iterating the
sorted package array, so a later package with the same id string wins. -/
def idIndexLookup (packages : List NpmPackage) (id : List Nat) : Option Nat :=
  packages.enum.foldl
    (fun acc p => if p.2.ID.idString = id then some p.1 else acc) Option.none

/-- The root-package frames the writer appends to the modules header:
`(requirement, entry_kind=2, index)` for each root, roots sorted by
requirement string. -/
def buildRootFrames (idx : List Nat → Option Nat) :
    List (List Nat × List Nat) → Except String (List Nat)
  | [] => .ok []
  | (req, id) :: rest =>
    match idx id with
    | Option.none => .error "npm root references unknown package ID"
    | some i =>
      if req.length > maxUint32 then .error "string too large"
      else
        match buildRootFrames idx rest with
        | .error e => .error e
        | .ok t =>
          .ok (u32Bytes req.length ++ req ++ [HeaderFrameNpmSpecifier] ++ u32Bytes i ++ t)

/-- The dependency records of one npm package, dependencies sorted by
requirement string. -/
def buildDepBytes (idx : List Nat → Option Nat) :
    List (List Nat × List Nat) → Except String (List Nat)
  | [] => .ok []
  | (req, id) :: rest =>
    match idx id with
    | Option.none => .error "npm dependency references unknown package ID"
    | some i =>
      if req.length > maxUint32 then .error "string too large"
      else
        match buildDepBytes idx rest with
        | .error e => .error e
        | .ok t => .ok (u32Bytes req.length ++ req ++ u32Bytes i ++ t)

/-- The npm-section body: each package as
`(id_string, dep_count, (req, index)*)`, packages in sorted order. -/
def buildPkgBytes (idx : List Nat → Option Nat) :
    List NpmPackage → Except String (List Nat)
  | [] => .ok []
  | pkg :: rest =>
    if pkg.ID.idString.length > maxUint32 then .error "string too large"
    else
      match buildDepBytes idx
        (sortOn Prod.fst (pkg.Dependencies.map (fun p => (p.1, p.2.idString)))) with
      | .error e => .error e
      | .ok db =>
        match buildPkgBytes idx rest with
        | .error e => .error e
        | .ok t =>
          .ok (u32Bytes pkg.ID.idString.length ++ pkg.ID.idString ++
            u32Bytes pkg.Dependencies.length ++ db ++ t)

/-- The writer's npm block: sort packages by `name@version`, sort roots by
requirement, emit root frames (for the modules header) and the npm body.
(The Go nil-pointer validation loop has no counterpart here: package IDs
are not nullable in this model.) -/
def buildNpmPart (snap : NpmResolutionSnapshot) : Except String (List Nat × List Nat) :=
  let packages := sortOn (fun p => p.ID.idString) snap.Packages
  let idx := idIndexLookup packages
  let rootPkgs := sortOn Prod.fst (snap.RootPackages.map (fun p => (p.1, p.2.idString)))
  match buildRootFrames idx rootPkgs with
  | .error e => .error e
  | .ok rf =>
    match buildPkgBytes idx packages with
    | .error e => .error e
    | .ok pb => .ok (rf, pb)

/-- `EszipV2.IntoBytes`: serialize the archive.  The Go method snapshots
`options`, `version` and `npmSnapshot` under the archive mutex; with value
semantics the snapshot is the plain field read.  A `Get` on a pending slot,
which blocks in Go until the completion task fills the slot, is modelled as
an error (no archive in the proved statements has pending slots at
serialization time). -/
def EszipV2.IntoBytes (e : EszipV2) : Except String (List Nat) :=
  let options := e.options
  let version := e.version
  let npmSnapshot := e.npmSnapshot
  let checksum := options.Checksum
  let checksumSize := options.GetChecksumSize
  let magic := version.ToMagic
  let optHeader : List Nat :=
    if version.SupportsOptions then
      let c := [0, checksum.toByte, 1, checksumSize % 256]
      u32Bytes c.length ++ c ++ checksum.Hash c
    else []
  match buildModulePart checksum e.modules [] [] [] with
  | .error err => .error err
  | .ok (hdr0, sources, sourceMaps) =>
    let npmPart : Except String (List Nat × List Nat) :=
      match npmSnapshot with
      | some snap =>
        if version.SupportsNpm then
          match buildNpmPart snap with
          | .error e => .error e
          | .ok (rf, pb) => .ok (hdr0 ++ rf, pb)
        else .ok (hdr0, [])
      | Option.none => .ok (hdr0, [])
    match npmPart with
    | .error err => .error err
    | .ok (hdr, npmBytes) =>
      if hdr.length > maxUint32 then .error "modules header too large"
      else if version.SupportsNpm ∧ npmBytes.length > maxUint32 then
        .error "npm section too large"
      else if sources.length > maxUint32 then .error "sources section too large"
      else if sourceMaps.length > maxUint32 then .error "source maps section too large"
      else
        .ok (magic ++ optHeader ++
          u32Bytes hdr.length ++ hdr ++ checksum.Hash hdr ++
          (if version.SupportsNpm then
            u32Bytes npmBytes.length ++ npmBytes ++ checksum.Hash npmBytes
          else []) ++
          u32Bytes sources.length ++ sources ++
          u32Bytes sourceMaps.length ++ sourceMaps)

/-- Modelled from the spec: `AddModule` (the mutators' source file is not
among the sources; behaviour fixed by spec §8 scenario 4 and the repository
tests): insert a module whose slots are already Ready, a nil source map
giving the empty slot. -/
def EszipV2.AddModule (e : EszipV2) (specifier : List Nat) (kind : ModuleKind)
    (source : List Nat) (sourceMap : Option (List Nat)) : EszipV2 :=
  { e with modules := e.modules.Insert specifier (.data
      { Kind := kind
        Source := NewReadySourceSlot source
        SourceMap := match sourceMap with
          | some m => NewReadySourceSlot m
          | Option.none => NewEmptySourceSlot }) }

/-- Modelled from the spec: `AddRedirect`. -/
def EszipV2.AddRedirect (e : EszipV2) (specifier target : List Nat) : EszipV2 :=
  { e with modules := e.modules.Insert specifier (.redirect ⟨target⟩) }

/-- Modelled from the spec: `AddImportMap` inserts at the front of the module
map (behaviour fixed by `TestAddImportMap`). -/
def EszipV2.AddImportMap (e : EszipV2) (kind : ModuleKind)
    (specifier source : List Nat) : EszipV2 :=
  { e with modules := e.modules.InsertFront specifier (.data
      { Kind := kind
        Source := NewReadySourceSlot source
        SourceMap := NewEmptySourceSlot }) }

/-- Modelled from the spec: `AddOpaqueData` adds a module of kind OpaqueData
(behaviour fixed by `TestAddOpaqueData`). -/
def EszipV2.AddOpaqueData (e : EszipV2) (specifier data : List Nat) : EszipV2 :=
  e.AddModule specifier .opaqueData data Option.none

/-- Modelled from the spec: `SetChecksum` selects the checksum algorithm. -/
def EszipV2.SetChecksum (e : EszipV2) (c : ChecksumType) : EszipV2 :=
  { e with options := { e.options with Checksum := c } }

/-- One invocation of a public mutator. -/
inductive BuildOp where
  | addModule (specifier : List Nat) (kind : ModuleKind)
      (source : List Nat) (sourceMap : Option (List Nat))
  | addRedirect (specifier target : List Nat)
  | addImportMap (kind : ModuleKind) (specifier source : List Nat)
  | addOpaqueData (specifier data : List Nat)
  | setChecksum (c : ChecksumType)
  deriving DecidableEq, Repr

/-- Apply one mutator. -/
def applyOp (e : EszipV2) : BuildOp → EszipV2
  | .addModule s k src m => e.AddModule s k src m
  | .addRedirect s t => e.AddRedirect s t
  | .addImportMap k s src => e.AddImportMap k s src
  | .addOpaqueData s d => e.AddOpaqueData s d
  | .setChecksum c => e.SetChecksum c

/-- An archive constructed from `NewV2` via a sequence of public mutators. -/
def buildArchive (ops : List BuildOp) : EszipV2 :=
  ops.foldl applyOp NewV2

/-- `Section`: content, trailing digest, and the checksum in force. -/
structure Section where
  content : List Nat
  hash : List Nat
  checksum : ChecksumType
  deriving DecidableEq, Repr

/-- `ContentLen`. -/
def Section.ContentLen (s : Section) : Nat := s.content.length

/-- `TotalLen`: content plus digest length. -/
def Section.TotalLen (s : Section) : Nat := s.content.length + s.hash.length

/-- `IsChecksumValid` (behaviour fixed by `TestSectionMethods`:
`ChecksumNone` is always valid). -/
def Section.IsChecksumValid (s : Section) : Bool :=
  s.checksum.Verify s.content s.hash

/-- `readSection`: `| len: u32 BE | content[len] | digest |`, rejecting
lengths over 256 MiB; the digest is read only when the effective digest
size is nonzero. -/
def readSection (input : List Nat) (options : Options) :
    Except ParseErr (Section × List Nat) :=
  match takeExact 4 input with
  | Option.none => .error .ioErr
  | some (lenBytes, r1) =>
    let length := getU32 lenBytes 0
    if length > maxSectionSize then .error (.invalidV2Header "section too large")
    else
      match takeExact length r1 with
      | Option.none => .error .ioErr
      | some (content, r2) =>
        match takeExact options.GetChecksumSize r2 with
        | Option.none => .error .ioErr
        | some (hash, r3) => .ok (⟨content, hash, options.Checksum⟩, r3)

/-- `readSectionWithSize`: like `readSection` but the content length is
dictated by metadata instead of a length prefix. -/
def readSectionWithSize (input : List Nat) (options : Options) (contentLen : Nat) :
    Except ParseErr (Section × List Nat) :=
  if contentLen > maxSectionSize then .error (.invalidV2Header "section too large")
  else
    match takeExact contentLen input with
    | Option.none => .error .ioErr
    | some (content, r1) =>
      match takeExact options.GetChecksumSize r1 with
      | Option.none => .error .ioErr
      | some (hash, r2) => .ok (⟨content, hash, options.Checksum⟩, r2)

/-- The option-applying loop of `parseOptionsHeader`: recognized options are
`0 = checksum type` (only bytes 0..=2 change it) and `1 = checksum size`;
unknown options are ignored for forward compatibility. -/
def applyOptions : Options → List Nat → Options
  | opts, o :: v :: rest =>
    let opts :=
      match o with
      | 0 =>
        match ChecksumFromU8 v with
        | some c => { opts with Checksum := c }
        | Option.none => opts
      | 1 => { opts with ChecksumSize := v }
      | _ => opts
    applyOptions opts rest
  | opts, _ => opts

/-- `parseOptionsHeader` (V2.2+): read the options section without a digest,
require an even-length tuple list, apply the recognized options, require a
known digest size for non-None checksums, then read and verify the
trailing digest when one is in force. -/
def parseOptionsHeader (input : List Nat) (defaults : Options) :
    Except ParseErr (Options × List Nat) :=
  let preOpts : Options := { Checksum := .none, ChecksumSize := 0 }
  match readSection input preOpts with
  | .error e => .error e
  | .ok (sec, rest) =>
    if sec.ContentLen % 2 ≠ 0 then
      .error (.invalidV22OptionsHeader "options are expected to be byte tuples")
    else
      let options := applyOptions defaults sec.content
      if options.GetChecksumSize = 0 ∧ options.Checksum ≠ .none then
        .error (.invalidV22OptionsHeader "checksum size must be known")
      else if options.GetChecksumSize > 0 then
        match takeExact options.GetChecksumSize rest with
        | Option.none => .error .ioErr
        | some (hash, r2) =>
          if options.Checksum.Verify sec.content hash then .ok (options, r2)
          else .error .invalidV22OptionsHeaderHash
      else .ok (options, rest)

/-- The parser's side table for npm specifiers (a Go map; insertion with
overwrite, modelled as an association list). -/
def npmSpecInsert (l : List (List Nat × Nat)) (k : List Nat) (v : Nat) :
    List (List Nat × Nat) :=
  if l.any (fun p => decide (p.1 = k)) then
    l.map (fun p => if p.1 = k then (k, v) else p)
  else l ++ [(k, v)]

/-- `pending_or_empty`: offsets `(0,0)` mean an absent payload. -/
def pendingOrEmpty (offset length : Nat) : SourceSlot :=
  if offset = 0 ∧ length = 0 then NewEmptySourceSlot
  else NewPendingSourceSlot offset length

/-- The frame-parsing loop of `parseModulesHeader`, at read position `read`
of `content`.  Entry kinds: 0 Module (four offsets then a kind byte),
1 Redirect (target string), 2 NpmSpecifier (package id, only if the version
supports npm); anything else is `InvalidV2EntryKind`.  Offsets reported in
errors are the Go `read` values at the point of the error (already past the
bytes consumed so far). -/
def parseModulesLoop (content : List Nat) (supportsNpm : Bool) :
    Nat → Nat → ModuleMap → List (List Nat × Nat) →
    Except ParseErr (ModuleMap × List (List Nat × Nat))
  | fuel, read, modules, npmSpecifiers =>
  if read < content.length then
   match fuel with
   | 0 => .error (.other "loop fuel exhausted")
   | fuel + 1 =>
    if read + 4 > content.length then .error (.invalidV2Header "specifier len")
    else
      let specifierLen := getU32 content read
      if specifierLen > content.length - (read + 4) then
        .error (.invalidV2Header "specifier")
      else
        let specifier := (content.drop (read + 4)).take specifierLen
        if read + 4 + specifierLen + 1 > content.length then
          .error (.invalidV2Header "entry kind")
        else
          let entryKind := content.getD (read + 4 + specifierLen) 0
          let r := read + 4 + specifierLen + 1
          if entryKind = 0 then
            if r + 17 > content.length then .error (.invalidV2Header "module data")
            else
              let sourceOffset := getU32 content r
              let sourceLen := getU32 content (r + 4)
              let sourceMapOffset := getU32 content (r + 8)
              let sourceMapLen := getU32 content (r + 12)
              let kindByte := content.getD (r + 16) 0
              match ModuleKind.fromByte kindByte with
              | Option.none => .error (.invalidV2ModuleKind kindByte (r + 17))
              | some kind =>
                parseModulesLoop content supportsNpm fuel (r + 17)
                  (modules.Insert specifier (.data
                    { Kind := kind
                      Source := pendingOrEmpty sourceOffset sourceLen
                      SourceMap := pendingOrEmpty sourceMapOffset sourceMapLen }))
                  npmSpecifiers
          else if entryKind = 1 then
            if r + 4 > content.length then .error (.invalidV2Header "target len")
            else
              let targetLen := getU32 content r
              if targetLen > content.length - (r + 4) then
                .error (.invalidV2Header "target")
              else
                let target := (content.drop (r + 4)).take targetLen
                parseModulesLoop content supportsNpm fuel (r + 4 + targetLen)
                  (modules.Insert specifier (.redirect ⟨target⟩)) npmSpecifiers
          else if entryKind = 2 then
            if ¬ supportsNpm then .error (.invalidV2EntryKind entryKind r)
            else if r + 4 > content.length then
              .error (.invalidV2Header "npm package id")
            else
              parseModulesLoop content supportsNpm fuel (r + 4) modules
                (npmSpecInsert npmSpecifiers specifier (getU32 content r))
          else .error (.invalidV2EntryKind entryKind r)
  else .ok (modules, npmSpecifiers)

/-- `parseModulesHeader`: parse the modules-header content as a sequence of
frames. -/
def parseModulesHeader (content : List Nat) (supportsNpm : Bool) :
    Except ParseErr (ModuleMap × List (List Nat × Nat)) :=
  parseModulesLoop content supportsNpm (content.length + 1) 0 NewModuleMap []

/-- The value stored in the source-offset index. -/
structure sourceOffsetEntry where
  length : Nat
  specifier : List Nat
  deriving DecidableEq, Repr

/-- The "build source offset maps" loop of `parseV2WithVersion`: every
ModuleData whose source (respectively source map) is Pending with length
> 0 is indexed by offset; out-of-range offsets/lengths and duplicate
offsets are fatal header errors. -/
def buildOffsets : List (List Nat × MapEntry) →
    List (Nat × sourceOffsetEntry) → List (Nat × sourceOffsetEntry) →
    Except ParseErr (List (Nat × sourceOffsetEntry) × List (Nat × sourceOffsetEntry))
  | [], so, smo => .ok (so, smo)
  | (k, v) :: rest, so, smo =>
    match v with
    | .data d =>
      match (if d.Source.state = .pending ∧ d.Source.length > 0 then
          if d.Source.offset > maxSectionSize ∨ d.Source.length > maxSectionSize then
            Except.error (ParseErr.invalidV2Header "source offset/length out of range")
          else if so.any (fun p => decide (p.1 = d.Source.offset)) then
            Except.error (ParseErr.invalidV2Header "duplicate source offset")
          else Except.ok (so ++ [(d.Source.offset, ⟨d.Source.length, k⟩)])
        else Except.ok so) with
      | .error e => .error e
      | .ok so2 =>
        match (if d.SourceMap.state = .pending ∧ d.SourceMap.length > 0 then
            if d.SourceMap.offset > maxSectionSize ∨ d.SourceMap.length > maxSectionSize then
              Except.error (ParseErr.invalidV2Header "source map offset/length out of range")
            else if smo.any (fun p => decide (p.1 = d.SourceMap.offset)) then
              Except.error (ParseErr.invalidV2Header "duplicate source map offset")
            else Except.ok (smo ++ [(d.SourceMap.offset, ⟨d.SourceMap.length, k⟩)])
          else Except.ok smo) with
        | .error e => .error e
        | .ok smo2 => buildOffsets rest so2 smo2
    | _ => buildOffsets rest so smo

/-- Split a `name@version` id string at its last `@` (byte 64). -/
def lastAtSplit : List Nat → Option (List Nat × List Nat)
  | [] => Option.none
  | a :: rest =>
    match lastAtSplit rest with
    | some (n, v) => some (a :: n, v)
    | Option.none => if a = 64 then some ([], rest) else Option.none

/-- `ParseNpmPackageID`: split at the last `@`; a missing `@` or an empty
name is an error (behaviour fixed by `TestParseNpmPackageID`). -/
def parseNpmPackageID (s : List Nat) : Option NpmPackageID :=
  match lastAtSplit s with
  | some (n, v) => if n = [] then Option.none else some ⟨n, v⟩
  | Option.none => Option.none

/-- Parse `depCount` dependency records `(req_string, pkg_index)`. -/
def parseNpmDeps : Nat → List Nat → Option (List (List Nat × Nat) × List Nat)
  | 0, bytes => some ([], bytes)
  | n + 1, bytes =>
    match takeExact 4 bytes with
    | Option.none => Option.none
    | some (lb, r1) =>
      match takeExact (getU32 lb 0) r1 with
      | Option.none => Option.none
      | some (req, r2) =>
        match takeExact 4 r2 with
        | Option.none => Option.none
        | some (ib, r3) =>
          match parseNpmDeps n r3 with
          | Option.none => Option.none
          | some (ds, r) => some ((req, getU32 ib 0) :: ds, r)

/-- Parse the npm-section body as repeated
`(id_string, dep_count, deps*)` records until the content is consumed.
Each record consumes at least 8 bytes, so `content length + 1` fuel always
suffices. -/
def parseNpmRecords : Nat → List Nat → Option (List (List Nat × List (List Nat × Nat)))
  | _, [] => some []
  | 0, _ :: _ => Option.none
  | fuel + 1, bytes =>
    match takeExact 4 bytes with
    | Option.none => Option.none
    | some (lb, r1) =>
      match takeExact (getU32 lb 0) r1 with
      | Option.none => Option.none
      | some (id, r2) =>
        match takeExact 4 r2 with
        | Option.none => Option.none
        | some (cb, r3) =>
          match parseNpmDeps (getU32 cb 0) r3 with
          | Option.none => Option.none
          | some (ds, r4) =>
            match parseNpmRecords fuel r4 with
            | Option.none => Option.none
            | some rs => some ((id, ds) :: rs)

/-- Modelled from the spec: the snapshot-reconstruction step of
`parseNpmSection` (that function is not among the sources; spec §4.4 step 5
and §4.8): package ids are parsed from their `name@version` strings,
dependency and root package indices resolve into the parsed package array
(out-of-bounds indices are fatal), and an archive with no packages and no
npm specifiers carries no snapshot. -/
def resolveNpmSnapshot (raws : List (List Nat × List (List Nat × Nat)))
    (npmSpecifiers : List (List Nat × Nat)) :
    Except ParseErr (Option NpmResolutionSnapshot) :=
  if raws = [] ∧ npmSpecifiers = [] then .ok Option.none
  else
    match raws.mapM (fun r => parseNpmPackageID r.1) with
    | Option.none => .error (.invalidV2Header "npm package id")
    | some ids =>
      match (raws.mapM (fun r =>
          (r.2.mapM (fun d =>
            (ids.get? d.2).map (fun i => (d.1, i)))))) with
      | Option.none => .error (.invalidV2Header "npm package index")
      | some depLists =>
        match npmSpecifiers.mapM (fun p =>
            (ids.get? p.2).map (fun i => (p.1, i))) with
        | Option.none => .error (.invalidV2Header "npm package index")
        | some roots =>
          .ok (some
            { Packages := (ids.zip depLists).map (fun p => ⟨p.1, p.2⟩)
              RootPackages := roots })

/-- Modelled from the spec: `parseNpmSection` (not among the sources; spec
§4.4 step 5): read a section under the effective options, verify its
digest, parse the package records and join them with the npm-specifier
side table. -/
def parseNpmSection (input : List Nat) (options : Options)
    (npmSpecifiers : List (List Nat × Nat)) :
    Except ParseErr (Option NpmResolutionSnapshot × List Nat) :=
  match readSection input options with
  | .error e => .error e
  | .ok (sec, rest) =>
    if ¬ sec.IsChecksumValid then .error (.invalidV2Header "npm section hash")
    else
      match parseNpmRecords (sec.content.length + 1) sec.content with
      | Option.none => .error (.invalidV2Header "npm section")
      | some raws =>
        match resolveNpmSnapshot raws npmSpecifiers with
        | .error e => .error e
        | .ok snap => .ok (snap, rest)

/-- `parseV2WithVersion`: options header (V2.2+), modules header (digest
checked), npm section (V2.1+), offset maps; returns the metadata-complete
archive together with the state captured by the Go completion closure
(the remaining reader, effective options and offset maps). -/
def parseV2WithVersion (version : EszipVersion) (input : List Nat) :
    Except ParseErr (EszipV2 × Options × List (Nat × sourceOffsetEntry) ×
      List (Nat × sourceOffsetEntry) × List Nat) :=
  let supportsNpm := version.SupportsNpm
  let supportsOptions := version.SupportsOptions
  let defaults := DefaultOptionsForVersion version
  match (if supportsOptions then parseOptionsHeader input defaults
    else .ok (defaults, input)) with
  | .error e => .error e
  | .ok (options, rest) =>
    match readSection rest options with
    | .error e => .error e
    | .ok (modulesHeader, rest2) =>
      if ¬ modulesHeader.IsChecksumValid then .error .invalidV2HeaderHash
      else
        match parseModulesHeader modulesHeader.content supportsNpm with
        | .error e => .error e
        | .ok (modules, npmSpecifiers) =>
          match (if supportsNpm then parseNpmSection rest2 options npmSpecifiers
            else .ok (Option.none, rest2)) with
          | .error e => .error e
          | .ok (npmSnapshot, rest3) =>
            match buildOffsets modules [] [] with
            | .error e => .error e
            | .ok (so, smo) =>
              .ok ({ modules := modules, npmSnapshot := npmSnapshot,
                     options := options, version := version },
                   options, so, smo, rest3)

/-- `ParseV2`: check the 8 magic bytes, then parse at the detected version. -/
def parseV2 (input : List Nat) :
    Except ParseErr (EszipV2 × Options × List (Nat × sourceOffsetEntry) ×
      List (Nat × sourceOffsetEntry) × List Nat) :=
  match takeExact 8 input with
  | Option.none => .error .ioErr
  | some (magic, rest) =>
    match VersionFromMagic magic with
    | Option.none => .error .invalidV2
    | some version => parseV2WithVersion version rest

/-- Update one slot of one module: `slotFor` followed by `SetReady` in
`loadSources` (specifiers not naming a ModuleData are skipped). -/
def setSlotInEntry (isMap : Bool) (d : Option (List Nat)) : MapEntry → MapEntry
  | .data md =>
    if isMap then .data { md with SourceMap := md.SourceMap.setReady d }
    else .data { md with Source := md.Source.setReady d }
  | v => v

/-- `SetReady` on the slot of the named module (keys are unique in every
map the parser builds, so updating every matching entry coincides with
Go's lookup of the single entry). -/
def EszipV2.setSlotReady (e : EszipV2) (specifier : List Nat) (isMap : Bool)
    (d : Option (List Nat)) : EszipV2 :=
  let f := fun (p : List Nat × MapEntry) =>
    if p.1 = specifier then (p.1, setSlotInEntry isMap d p.2) else p
  { e with modules := e.modules.map f }

/-- `resolvePendingSlots` on one entry: `SetReady(nil)` on each slot that is
still Pending (`setReady` is the identity on non-Pending slots). -/
def resolveEntry : MapEntry → MapEntry
  | .data d => .data { d with
      Source := d.Source.setReady Option.none
      SourceMap := d.SourceMap.setReady Option.none }
  | v => v

/-- `resolvePendingSlots`: unblock every still-Pending slot with nil data. -/
def EszipV2.resolvePendingSlots (e : EszipV2) : EszipV2 :=
  { e with modules := e.modules.map (fun p => (p.1, resolveEntry p.2)) }

/-- The payload walk of `loadSection`.  `ctx read` models `ctx.Err()` at the
iteration whose read position is `read` (`Option.none` = not cancelled).
Each iteration advances `read` by the entry's content length plus digest
size; `totalLen + 1` fuel suffices whenever every indexed entry is nonempty
(as all parser-built index entries are).  Exhausted fuel models the Go
loop's divergence on a zero-length index entry. -/
def loadSectionLoop (ctx : Nat → Option ParseErr) (options : Options)
    (offsets : List (Nat × sourceOffsetEntry)) (isMap : Bool) :
    Nat → List Nat → Nat → Nat → EszipV2 → EszipV2 × List Nat × Option ParseErr
  | 0, input, _, _, e => (e, input, some (.other "loop did not terminate"))
  | fuel + 1, input, read, totalLen, e =>
    if read < totalLen then
      match ctx read with
      | some err => (e, input, some err)
      | Option.none =>
        match offsets.find? (fun p => decide (p.1 = read)) with
        | Option.none => (e, input, some (.invalidV2SourceOffset read))
        | some (_, entry) =>
          match readSectionWithSize input options entry.length with
          | .error err => (e, input, some err)
          | .ok (sec, rest) =>
            if sec.IsChecksumValid then
              loadSectionLoop ctx options offsets isMap fuel rest
                (read + sec.TotalLen) totalLen
                (e.setSlotReady entry.specifier isMap (some sec.content))
            else (e, input, some (.invalidV2SourceHash entry.specifier))
    else (e, input, Option.none)

/-- `loadSection`: read the section length (bounded by 256 MiB), then walk
the payload, resolving each entry against the offset index. -/
def loadSection (ctx : Nat → Option ParseErr) (input : List Nat)
    (options : Options) (offsets : List (Nat × sourceOffsetEntry))
    (isMap : Bool) (e : EszipV2) : EszipV2 × List Nat × Option ParseErr :=
  match takeExact 4 input with
  | Option.none => (e, input, some .ioErr)
  | some (lenBytes, rest) =>
    let totalLen := getU32 lenBytes 0
    if totalLen > maxSectionSize then
      (e, rest, some (.invalidV2Header "source section too large"))
    else loadSectionLoop ctx options offsets isMap (totalLen + 1) rest 0 totalLen e

/-- `loadSources` (the completion task): load the sources section, then the
source-maps section; on success and on every failure, resolve all
still-Pending slots to Ready(nil) before returning. -/
def loadSources (ctx : Nat → Option ParseErr) (input : List Nat) (e : EszipV2)
    (options : Options)
    (sourceOffsets sourceMapOffsets : List (Nat × sourceOffsetEntry)) :
    EszipV2 × List Nat × Option ParseErr :=
  match loadSection ctx input options sourceOffsets false e with
  | (e1, rest1, some err) => (e1.resolvePendingSlots, rest1, some err)
  | (e1, rest1, Option.none) =>
    match loadSection ctx rest1 options sourceMapOffsets true e1 with
    | (e2, rest2, some err) => (e2.resolvePendingSlots, rest2, some err)
    | (e2, rest2, Option.none) => (e2.resolvePendingSlots, rest2, Option.none)

/-- The never-cancelled context. -/
def noCancel : Nat → Option ParseErr := fun _ => Option.none

/-- `ParseV2Sync` under a never-cancelled context: parse the metadata, run
the completion task, and return the completed archive. -/
def parseV2SyncNoCancel (input : List Nat) : Except ParseErr EszipV2 :=
  match parseV2 input with
  | .error e => .error e
  | .ok (e, options, so, smo, rest) =>
    match loadSources noCancel rest e options so smo with
    | (_, _, some err) => .error err
    | (e2, _, Option.none) => .ok e2

/-- The result of the top-level `Parse`: a V1 archive, or a V2 archive
together with the state captured by its completion closure. -/
inductive EszipUnionM (α : Type) where
  | v1 (a : α)
  | v2 (e : EszipV2) (options : Options)
      (so smo : List (Nat × sourceOffsetEntry)) (rest : List Nat)

/-- The top-level `Parse`: read 8 magic bytes; V2 magics dispatch to the V2
parser (whose errors propagate as-is); anything else re-feeds the magic
bytes plus the remainder to the V1 JSON parser.  The V1 parser itself is
an external collaborator here and is taken as a parameter. -/
def ParseTop {α : Type} (parseV1Fn : List Nat → Except ParseErr α)
    (input : List Nat) : Except ParseErr (EszipUnionM α) :=
  match takeExact 8 input with
  | Option.none => .error .ioErr
  | some (magic, rest) =>
    match VersionFromMagic magic with
    | some version =>
      match parseV2WithVersion version rest with
      | .error err => .error err
      | .ok (e, options, so, smo, r) => .ok (.v2 e options so smo r)
    | Option.none =>
      match parseV1Fn (magic ++ rest) with
      | .error err => .error err
      | .ok a => .ok (.v1 a)

/-- The observable payload bytes of a slot: Ready bytes, else none
(`Ready(nil)`, Pending and Taken all read as no bytes). -/
def slotBytes : SourceSlot → List Nat
  | .ready (some b) => b
  | _ => []

/-- Equivalence of two map entries with respect to kind, source bytes,
source-map bytes, redirect target and npm package id. -/
def entryEquivB : MapEntry → MapEntry → Bool
  | .data a, .data b =>
    decide (a.Kind = b.Kind) && decide (slotBytes a.Source = slotBytes b.Source) &&
      decide (slotBytes a.SourceMap = slotBytes b.SourceMap)
  | .redirect a, .redirect b => decide (a.Target = b.Target)
  | .npm a, .npm b => decide (a.PackageID = b.PackageID)
  | _, _ => false

/-- Archive equivalence with respect to specifiers (in order), each entry's
kind / source bytes / source-map bytes / redirect target, and the npm
snapshot. -/
def archiveEquivB (a b : EszipV2) : Bool :=
  decide (a.modules.length = b.modules.length) &&
  (a.modules.zip b.modules).all
    (fun pq => decide (pq.1.1 = pq.2.1) && entryEquivB pq.1.2 pq.2.2) &&
  decide (a.npmSnapshot = b.npmSnapshot)

/-- The slot-free part of a map entry. -/
inductive EntrySkel where
  | data (kind : ModuleKind)
  | redirect (target : List Nat)
  | npm (packageID : Nat)
  deriving DecidableEq, Repr

/-- Forget the slots of an entry. -/
def MapEntry.skel : MapEntry → EntrySkel
  | .data d => .data d.Kind
  | .redirect r => .redirect r.Target
  | .npm n => .npm n.PackageID

/-- Everything about an archive except its slots: the specifier list with
each entry's kind / redirect target / package id, the npm snapshot, the
options and the version. -/
def archiveSkel (e : EszipV2) :
    List (List Nat × EntrySkel) × Option NpmResolutionSnapshot × Options × EszipVersion :=
  (e.modules.map (fun p => (p.1, p.2.skel)), e.npmSnapshot, e.options, e.version)

/-- No slot of the archive is still Pending. -/
def noPendingB (e : EszipV2) : Bool :=
  e.modules.all (fun p =>
    match p.2 with
    | .data d =>
      decide (d.Source.state ≠ .pending) && decide (d.SourceMap.state ≠ .pending)
    | _ => true)

/-- A slot either is unchanged or has moved from Pending to Ready. -/
def slotAdvanceB (a b : SourceSlot) : Bool :=
  decide (b = a) || (decide (a.state = .pending) && decide (b.state = .ready))

/-- Entry-wise frame condition: everything except the slots is unchanged,
and each slot at most advances from Pending to Ready. -/
def entryAdvanceB : MapEntry → MapEntry → Bool
  | .data a, .data b =>
    decide (a.Kind = b.Kind) && slotAdvanceB a.Source b.Source &&
      slotAdvanceB a.SourceMap b.SourceMap
  | a, b => decide (a = b)

/-- Archive-wise frame condition for the completion task. -/
def archiveAdvanceB (a b : EszipV2) : Bool :=
  decide (a.modules.length = b.modules.length) &&
  (a.modules.zip b.modules).all
    (fun pq => decide (pq.1.1 = pq.2.1) && entryAdvanceB pq.1.2 pq.2.2) &&
  decide (a.npmSnapshot = b.npmSnapshot) && decide (a.options = b.options) &&
  decide (a.version = b.version)

/-- No npm-specifier entries in the module map (public mutators never add
any). -/
def noNpmEntriesB (m : ModuleMap) : Bool :=
  m.all (fun p => match p.2 with | .npm _ => false | _ => true)

/-- No pending slots in the module map (every slot a mutator installs is
already Ready). -/
def noPendingSlotsB (m : ModuleMap) : Bool :=
  m.all (fun p =>
    match p.2 with
    | .data d =>
      decide (d.Source.state ≠ .pending) && decide (d.SourceMap.state ≠ .pending)
    | _ => true)

/-- Unique keys of an association list. -/
def NodupKeysB {β : Type} (l : List (List Nat × β)) : Bool :=
  decide (l.map Prod.fst).Nodup

/-- The module map the V2 parser reconstructs from a writer-built modules
header: empty payloads give Empty slots; nonempty payloads give Pending
slots at the running offsets of the payload buffers (which grow by content
plus digest); npm-specifier frames go to the side table, not the map. -/
def parsedEntries (cs : ChecksumType) :
    Nat → Nat → List (List Nat × MapEntry) → List (List Nat × MapEntry)
  | _, _, [] => []
  | sOff, mOff, (k, .data d) :: rest =>
    let b := slotBytes d.Source
    let mb := slotBytes d.SourceMap
    (k, .data
      { Kind := d.Kind
        Source := if b.length = 0 then NewEmptySourceSlot
          else NewPendingSourceSlot sOff b.length
        SourceMap := if mb.length = 0 then NewEmptySourceSlot
          else NewPendingSourceSlot mOff mb.length }) ::
      parsedEntries cs
        (sOff + (if b.length = 0 then 0 else b.length + (cs.Hash b).length))
        (mOff + (if mb.length = 0 then 0 else mb.length + (cs.Hash mb).length)) rest
  | sOff, mOff, (k, .redirect r) :: rest => (k, .redirect r) :: parsedEntries cs sOff mOff rest
  | sOff, mOff, (_, .npm _) :: rest => parsedEntries cs sOff mOff rest

/-- The nonempty source payloads of a module list, in first-seen order. -/
def srcChunks : List (List Nat × MapEntry) → List (List Nat × List Nat)
  | [] => []
  | (k, .data d) :: rest =>
    if (slotBytes d.Source).length = 0 then srcChunks rest
    else (k, slotBytes d.Source) :: srcChunks rest
  | _ :: rest => srcChunks rest

/-- The nonempty source-map payloads of a module list, in first-seen order. -/
def mapChunks : List (List Nat × MapEntry) → List (List Nat × List Nat)
  | [] => []
  | (k, .data d) :: rest =>
    if (slotBytes d.SourceMap).length = 0 then mapChunks rest
    else (k, slotBytes d.SourceMap) :: mapChunks rest
  | _ :: rest => mapChunks rest

/-- A payload section body: each entry's content followed by its digest. -/
def payloadOf (cs : ChecksumType) : List (List Nat × List Nat) → List Nat
  | [] => []
  | (_, b) :: rest => b ++ cs.Hash b ++ payloadOf cs rest

/-- The offset index corresponding to a payload section body laid out from
position `start`. -/
def offsetsOf (cs : ChecksumType) (start : Nat) :
    List (List Nat × List Nat) → List (Nat × sourceOffsetEntry)
  | [] => []
  | (k, b) :: rest =>
    (start, ⟨b.length, k⟩) :: offsetsOf cs (start + b.length + (cs.Hash b).length) rest

/-- The read position after walking the given entries from `start`. -/
def endRead (csSize : Nat) : Nat → List (List Nat × List Nat) → Nat
  | start, [] => start
  | start, (_, b) :: rest => endRead csSize (start + b.length + csSize) rest

/-- The payload walk's per-step conditions along a prefix of entries: each
visited read position is inside the section, is a key of the offset index
(with the entry's length and specifier), and the content length is within
the section limit. -/
def walkPrefixOk (offsets : List (Nat × sourceOffsetEntry)) (csSize totalLen : Nat) :
    Nat → List (List Nat × List Nat) → Bool
  | _, [] => true
  | start, (spec, b) :: rest =>
    decide (start < totalLen) && decide (b.length ≤ maxSectionSize) &&
    decide (offsets.find? (fun p => decide (p.1 = start)) = some (start, ⟨b.length, spec⟩)) &&
    walkPrefixOk offsets csSize totalLen (start + b.length + csSize) rest

/-- The archive after the walk has set every listed slot Ready with its
content. -/
def applyChunks (isMap : Bool) (chunks : List (List Nat × List Nat)) (e : EszipV2) : EszipV2 :=
  chunks.foldl (fun a c => a.setSlotReady c.1 isMap (some c.2)) e

/-- Serialize, then parse the produced bytes to completion (a serialization
failure is surfaced as a distinct error kind). -/
def serializeThenParse (A : EszipV2) : Except ParseErr EszipV2 :=
  match A.IntoBytes with
  | .ok bs => parseV2SyncNoCancel bs
  | .error s => .error (.other s)

/-- Round-trip success: parsing the serialized bytes succeeds and the result
is equivalent to the original archive. -/
def parseMatches (bs : List Nat) (A : EszipV2) : Bool :=
  match parseV2SyncNoCancel bs with
  | .ok e2 => archiveEquivB e2 A
  | .error _ => false

/-- Pointwise equivalence of npm packages as state: same identity, and the
dependency maps are equal as maps (the association lists are permutations
of one another). -/
def pkgEquiv (p q : NpmPackage) : Prop :=
  p.ID = q.ID ∧ p.Dependencies.Perm q.Dependencies

/-- Equivalence of snapshots as state: the package array is the same array
(up to dependency-map representation) and the root map is the same map. -/
def snapEquiv (s t : NpmResolutionSnapshot) : Prop :=
  List.Forall₂ pkgEquiv s.Packages t.Packages ∧ s.RootPackages.Perm t.RootPackages

/-- Lift snapshot-state equivalence over the optional snapshot. -/
def optSnapEquiv : Option NpmResolutionSnapshot → Option NpmResolutionSnapshot → Prop
  | Option.none, Option.none => True
  | some s, some t => snapEquiv s t
  | _, _ => False

/-- Two values of the archive state that denote the same abstract state:
identical module map, options and version, and the same npm snapshot up to
the (arbitrary) iteration order of its Go maps. -/
def archiveStateEquiv (a b : EszipV2) : Prop :=
  a.modules = b.modules ∧ a.options = b.options ∧ a.version = b.version ∧
    optSnapEquiv a.npmSnapshot b.npmSnapshot

/-- The Go-map well-formedness of a snapshot: distinct requirement strings
among the roots and among each package's dependencies. -/
def snapNodupB (s : NpmResolutionSnapshot) : Bool :=
  NodupKeysB s.RootPackages && s.Packages.all (fun p => NodupKeysB p.Dependencies)

/-- A slot is unchanged, or has advanced from Pending to Ready. -/
def SlotAdv (a b : SourceSlot) : Prop :=
  b = a ∨ (a.state = .pending ∧ ∃ d, b = .ready d)

/-- An entry is unchanged except that its slots may have advanced from
Pending to Ready. -/
def EntryAdv : MapEntry → MapEntry → Prop
  | .data a, .data b =>
    a.Kind = b.Kind ∧ SlotAdv a.Source b.Source ∧ SlotAdv a.SourceMap b.SourceMap
  | a, b => a = b

/-- The frame relation on module maps: same specifiers in the same order,
entries related by `EntryAdv`. -/
def ModsAdv : ModuleMap → ModuleMap → Prop :=
  List.Forall₂ (fun p q => p.1 = q.1 ∧ EntryAdv p.2 q.2)

/-- The source slot of the module at `spec`, when that specifier names a
ModuleData. -/
def sourceOf (m : ModuleMap) (spec : List Nat) : Option SourceSlot :=
  match m.Get spec with
  | some (.data d) => some d.Source
  | _ => Option.none

/-- The selected slot of the module at `spec`, when that specifier names a
ModuleData: `sel = false` picks the source slot, `sel = true` the
source-map slot. -/
def slotOf (sel : Bool) (m : ModuleMap) (spec : List Nat) : Option SourceSlot :=
  match m.Get spec with
  | some (.data d) => some (if sel then d.SourceMap else d.Source)
  | _ => Option.none

/-- The bytes of a Module frame in the modules header. -/
def moduleFrame (k : List Nat) (srcOff srcLen mapOff mapLen : Nat)
    (kind : ModuleKind) : List Nat :=
  u32Bytes k.length ++ k ++ [0] ++ u32Bytes srcOff ++ u32Bytes srcLen ++
    u32Bytes mapOff ++ u32Bytes mapLen ++ [kind.toByte]

/-- The bytes of a Redirect frame in the modules header. -/
def redirectFrame (k t : List Nat) : List Nat :=
  u32Bytes k.length ++ k ++ [1] ++ u32Bytes t.length ++ t

/-- The bytes of an NpmSpecifier frame in the modules header. -/
def npmFrame (k : List Nat) (id : Nat) : List Nat :=
  u32Bytes k.length ++ k ++ [2] ++ u32Bytes id

/-- The modules-header bytes the writer produces for an entry list, carrying
the running offsets of the two payload buffers (empty payloads write
`(0,0)`). -/
def framesOf (cs : ChecksumType) : Nat → Nat → List (List Nat × MapEntry) → List Nat
  | _, _, [] => []
  | sOff, mOff, (k, .data d) :: rest =>
    let b := slotBytes d.Source
    let mb := slotBytes d.SourceMap
    moduleFrame k (if b.length = 0 then 0 else sOff) b.length
        (if mb.length = 0 then 0 else mOff) mb.length d.Kind ++
      framesOf cs (sOff + (if b.length = 0 then 0 else b.length + (cs.Hash b).length))
        (mOff + (if mb.length = 0 then 0 else mb.length + (cs.Hash mb).length)) rest
  | sOff, mOff, (k, .redirect r) :: rest =>
    redirectFrame k r.Target ++ framesOf cs sOff mOff rest
  | sOff, mOff, (k, .npm n) :: rest =>
    npmFrame k n.PackageID ++ framesOf cs sOff mOff rest

/-- The entry-level effect of the payload walk: each chunk whose specifier
matches sets the slot Ready with the chunk's bytes. -/
def applyEntryChunks (isMap : Bool) (chunks : List (List Nat × List Nat))
    (k : List Nat) (v : MapEntry) : MapEntry :=
  chunks.foldl
    (fun v c => if c.1 = k then setSlotInEntry isMap (some c.2) v else v) v

/-- The operations of the round-trip witness archive. -/
def c1WitnessOps : List BuildOp :=
  [ .setChecksum .xxh3
  , .addModule [97, 46, 106, 115] .javaScript [1, 2, 3] (some [4, 5])
  , .addRedirect [98, 46, 106, 115] [97, 46, 106, 115]
  , .addImportMap .json [105, 109] [123, 125]
  , .addOpaqueData [100, 97, 116] [9, 9, 9]
  , .addModule [101] .wasm [] Option.none ]

/-- The serialized bytes of the round-trip witness archive. -/
def c1WitnessBytes : List Nat :=
  match (buildArchive c1WitnessOps).IntoBytes with
  | .ok bs => bs
  | .error _ => []

/-- A mutator-built archive whose single module source is one byte larger
than the 256 MiB section limit: the writer accepts it (its limit is
`u32`), the parser rejects it. -/
def c1CexOps : List BuildOp :=
  [.addModule [97] .javaScript (List.replicate 268435457 0) Option.none]

theorem takeExact_append (a b : List Nat) : takeExact a.length (a ++ b) = some (a, b) := by
  simp [takeExact, List.take_left, List.drop_left]

theorem takeExact_append_of_eq {n : Nat} (a b : List Nat) (h : a.length = n) :
    takeExact n (a ++ b) = some (a, b) := by
  subst h; exact takeExact_append a b

theorem u32Bytes_length (n : Nat) : (u32Bytes n).length = 4 := rfl

theorem readU32_u32 (n : Nat) (h : n < 4294967296) :
    readU32 (n / 16777216 % 256) (n / 65536 % 256) (n / 256 % 256) (n % 256) = n := by
  unfold readU32; omega

theorem getD_append_left {l l' : List Nat} {i d : Nat} (h : i < l.length) :
    (l ++ l').getD i d = l.getD i d := by
  simp [List.getD, List.getElem?_append_left h]

theorem getD_append_right {l l' : List Nat} {i d : Nat} (h : l.length ≤ i) :
    (l ++ l').getD i d = l'.getD (i - l.length) d := by
  simp [List.getD, List.getElem?_append_right h]

theorem getD_concat_at (pre mid post : List Nat) (i d : Nat) (h : i < mid.length) :
    (pre ++ (mid ++ post)).getD (pre.length + i) d = mid.getD i d := by
  rw [show pre ++ (mid ++ post) = (pre ++ mid) ++ post by simp]
  rw [getD_append_left (by simp; omega)]
  rw [getD_append_right (by omega)]
  congr 1
  omega

theorem getU32_appendAt (pre post : List Nat) (n : Nat) (h : n < 4294967296) :
    getU32 (pre ++ (u32Bytes n ++ post)) pre.length = n := by
  have g0 := getD_concat_at pre (u32Bytes n) post 0 0 (by simp [u32Bytes])
  have g1 := getD_concat_at pre (u32Bytes n) post 1 0 (by simp [u32Bytes])
  have g2 := getD_concat_at pre (u32Bytes n) post 2 0 (by simp [u32Bytes])
  have g3 := getD_concat_at pre (u32Bytes n) post 3 0 (by simp [u32Bytes])
  simp only [Nat.add_zero] at g0
  unfold getU32
  rw [g0, g1, g2, g3]
  simp only [u32Bytes, List.getD, List.getElem?_cons_zero, List.getElem?_cons_succ,
    Option.getD_some]
  exact readU32_u32 n h

/-- C8: for every input of at least 8 bytes, `Parse` dispatches on the first
8 bytes alone: a V2 magic routes the remainder to the V2 parser, whose
failure is reported as-is (no V1 fallback); any other 8 bytes make the
whole input (those bytes plus the remainder) go to the V1 JSON parser. -/
theorem parseTop_dispatch {α : Type} (parseV1Fn : List Nat → Except ParseErr α)
    (input : List Nat) (h8 : 8 ≤ input.length) :
    (∀ v, VersionFromMagic (input.take 8) = some v →
      ParseTop parseV1Fn input =
        match parseV2WithVersion v (input.drop 8) with
        | .error err => .error err
        | .ok (e, options, so, smo, r) => .ok (.v2 e options so smo r)) ∧
    (VersionFromMagic (input.take 8) = Option.none →
      ParseTop parseV1Fn input = (parseV1Fn input).map EszipUnionM.v1) := by
  have htake : takeExact 8 input = some (input.take 8, input.drop 8) := by
    simp [takeExact, h8]
  constructor
  · intro v hv
    simp only [ParseTop, htake, hv]
  · intro hv
    simp only [ParseTop, htake, hv, List.take_append_drop]
    cases parseV1Fn input <;> rfl

/-- Witness for C8 at a concrete non-magic 8-byte input ("NOTMAGIC"): the
whole input is handed to the V1 parser. -/
theorem parseTop_dispatch_witness :
    ParseTop (fun l => (Except.ok l.length : Except ParseErr Nat))
        [78, 79, 84, 77, 65, 71, 73, 67] =
      ((fun (l : List Nat) => (Except.ok l.length : Except ParseErr Nat))
          [78, 79, 84, 77, 65, 71, 73, 67]).map EszipUnionM.v1 :=
  (parseTop_dispatch (fun l => (Except.ok l.length : Except ParseErr Nat))
    [78, 79, 84, 77, 65, 71, 73, 67] (by decide)).2 (by decide)

theorem getU32_u32Bytes (n : Nat) (h : n < 4294967296) : getU32 (u32Bytes n) 0 = n := by
  have := getU32_appendAt [] [] n h
  simpa using this

theorem verify_hash_self (c : ChecksumType) (data : List Nat) :
    c.Verify data (c.Hash data) = true := by
  cases c <;> simp [ChecksumType.Verify, ChecksumType.Hash]

theorem hash_length (c : ChecksumType) (data : List Nat) :
    (c.Hash data).length = c.DigestSize := by
  cases c <;> simp [ChecksumType.Hash, hashBytes, ChecksumType.DigestSize]

theorem maxSectionSize_lt : maxSectionSize < 4294967296 := by decide

theorem readSection_frame (content : List Nat) (options : Options)
    (digest rest : List Nat) (hd : digest.length = options.GetChecksumSize)
    (hlen : content.length ≤ maxSectionSize) :
    readSection (u32Bytes content.length ++ (content ++ (digest ++ rest))) options =
      .ok (⟨content, digest, options.Checksum⟩, rest) := by
  have hn : content.length < 4294967296 := by
    have := maxSectionSize_lt; omega
  unfold readSection
  rw [takeExact_append_of_eq (u32Bytes content.length) (content ++ (digest ++ rest)) (u32Bytes_length _)]
  simp only
  rw [getU32_u32Bytes content.length hn]
  rw [if_neg (by omega)]
  rw [takeExact_append content (digest ++ rest)]
  simp only
  rw [takeExact_append_of_eq digest rest hd]

/-- C6: the options-header contract: an odd-length content is rejected as
`InvalidV22OptionsHeader`; option pairs with an unrecognized option byte,
and checksum-type pairs with a value byte outside 0..=2, are ignored and
never cause a failure (the parse outcome depends only on the recognized
pairs); a non-None resolved checksum with effective digest size zero is
rejected as `InvalidV22OptionsHeader`; otherwise the header parses
successfully (reading and verifying a trailing digest when one is in
force). -/
theorem parseOptionsHeader_spec (defaults : Options) (content rest : List Nat)
    (hlen : content.length ≤ maxSectionSize) :
    (content.length % 2 ≠ 0 →
      parseOptionsHeader (u32Bytes content.length ++ content ++ rest) defaults =
        .error (.invalidV22OptionsHeader "options are expected to be byte tuples")) ∧
    (∀ opts o v tail, o ≠ 0 → o ≠ 1 →
      applyOptions opts (o :: v :: tail) = applyOptions opts tail) ∧
    (∀ opts v tail, ChecksumFromU8 v = Option.none →
      applyOptions opts (0 :: v :: tail) = applyOptions opts tail) ∧
    (content.length % 2 = 0 →
      (applyOptions defaults content).GetChecksumSize = 0 →
      (applyOptions defaults content).Checksum ≠ .none →
      parseOptionsHeader (u32Bytes content.length ++ content ++ rest) defaults =
        .error (.invalidV22OptionsHeader "checksum size must be known")) ∧
    (content.length % 2 = 0 →
      (applyOptions defaults content).GetChecksumSize = 0 →
      (applyOptions defaults content).Checksum = .none →
      parseOptionsHeader (u32Bytes content.length ++ content ++ rest) defaults =
        .ok (applyOptions defaults content, rest)) ∧
    (content.length % 2 = 0 →
      0 < (applyOptions defaults content).GetChecksumSize →
      (applyOptions defaults content).GetChecksumSize =
        (applyOptions defaults content).Checksum.DigestSize →
      parseOptionsHeader (u32Bytes content.length ++ content ++
          ((applyOptions defaults content).Checksum.Hash content ++ rest)) defaults =
        .ok (applyOptions defaults content, rest)) := by
  have hfr : ∀ r : List Nat,
      readSection (u32Bytes content.length ++ content ++ r) ⟨.none, 0⟩ =
        .ok (⟨content, [], .none⟩, r) := by
    intro r
    have := readSection_frame content ⟨.none, 0⟩ [] r
      (by simp [Options.GetChecksumSize, ChecksumType.DigestSize]) hlen
    simpa using this
  refine ⟨?_, ?_, ?_, ?_, ?_, ?_⟩
  · intro hodd
    simp only [parseOptionsHeader, hfr rest, Section.ContentLen]
    rw [if_pos hodd]
  · intro opts o v tail h0 h1
    match o, h0, h1 with
    | 0, h, _ => exact absurd rfl h
    | 1, _, h => exact absurd rfl h
    | n + 2, _, _ => rfl
  · intro opts v tail hv
    show applyOptions (match ChecksumFromU8 v with
      | some c => { opts with Checksum := c }
      | Option.none => opts) tail = applyOptions opts tail
    rw [hv]
  · intro heven hsz hcs
    simp only [parseOptionsHeader, hfr rest, Section.ContentLen]
    rw [if_neg (by omega)]
    rw [if_pos ⟨hsz, hcs⟩]
  · intro heven hsz hcs
    simp only [parseOptionsHeader, hfr rest, Section.ContentLen]
    rw [if_neg (by omega)]
    rw [if_neg (by simp [hcs])]
    rw [if_neg (by omega)]
  · intro heven hpos hdg
    have hfr2 := hfr ((applyOptions defaults content).Checksum.Hash content ++ rest)
    simp only [parseOptionsHeader, List.append_assoc] at hfr2 ⊢
    rw [hfr2]
    simp only [Section.ContentLen]
    rw [if_neg (by omega)]
    rw [if_neg (by omega)]
    rw [if_pos hpos]
    rw [takeExact_append_of_eq _ rest (by rw [hash_length]; omega)]
    simp [verify_hash_self]

/-- Witness for C6 at concrete inputs: content `[9, 9]` is a single unknown
pair under V2.0 defaults (SHA-256); the header still parses, to the default
options. -/
theorem parseOptionsHeader_spec_witness :
    parseOptionsHeader (u32Bytes 2 ++ [9, 9] ++
        ((applyOptions (DefaultOptionsForVersion .v2) [9, 9]).Checksum.Hash [9, 9] ++ [5]))
        (DefaultOptionsForVersion .v2) =
      .ok (applyOptions (DefaultOptionsForVersion .v2) [9, 9], [5]) := by
  have h := (parseOptionsHeader_spec (DefaultOptionsForVersion .v2) [9, 9] [5]
    (by decide)).2.2.2.2.2 (by decide) (by decide) (by decide)
  simpa using h

/-- C7: in the modules-header parse loop, a frame whose entry-kind byte is
not 0, 1 or 2 fails with `InvalidV2EntryKind` carrying the byte and the
read offset just past it; an entry-kind 2 when the version does not support
npm fails the same way; and a Module frame whose module-kind byte is not in
0..=4 fails with `InvalidV2ModuleKind` carrying the byte and the offset
just past the module body.  (`read` ranges over arbitrary positions and
`modules`/`nspecs` over arbitrary accumulated state, so this covers every
frame of the header.) -/
theorem parseModulesHeader_badKinds (content : List Nat) (supportsNpm : Bool)
    (fuel read : Nat) (modules : ModuleMap) (nspecs : List (List Nat × Nat))
    (h4 : read + 4 ≤ content.length)
    (hsl : getU32 content read ≤ content.length - (read + 4))
    (hek : read + 4 + getU32 content read + 1 ≤ content.length) :
    (∀ n, content.getD (read + 4 + getU32 content read) 0 = n + 3 →
      parseModulesLoop content supportsNpm (fuel + 1) read modules nspecs =
        .error (.invalidV2EntryKind (n + 3) (read + 4 + getU32 content read + 1))) ∧
    (content.getD (read + 4 + getU32 content read) 0 = 2 → supportsNpm = false →
      parseModulesLoop content supportsNpm (fuel + 1) read modules nspecs =
        .error (.invalidV2EntryKind 2 (read + 4 + getU32 content read + 1))) ∧
    (∀ n, content.getD (read + 4 + getU32 content read) 0 = 0 →
      read + 4 + getU32 content read + 1 + 17 ≤ content.length →
      content.getD (read + 4 + getU32 content read + 1 + 16) 0 = n + 5 →
      parseModulesLoop content supportsNpm (fuel + 1) read modules nspecs =
        .error (.invalidV2ModuleKind (n + 5) (read + 4 + getU32 content read + 1 + 17))) := by
  have hlt : read < content.length := by omega
  refine ⟨?_, ?_, ?_⟩
  · intro n hn
    rw [parseModulesLoop]
    rw [if_pos hlt]
    simp only
    rw [if_neg (by omega)]
    rw [if_neg (by omega)]
    rw [if_neg (by omega)]
    rw [hn]
    rw [if_neg (by omega), if_neg (by omega), if_neg (by omega)]
  · intro h2 hnpm
    rw [parseModulesLoop]
    rw [if_pos hlt]
    simp only
    rw [if_neg (by omega)]
    rw [if_neg (by omega)]
    rw [if_neg (by omega)]
    rw [h2]
    rw [if_neg (by omega), if_neg (by omega), if_pos rfl]
    rw [hnpm]
    simp
  · intro n h0 h17 hkb
    rw [parseModulesLoop]
    rw [if_pos hlt]
    simp only
    rw [if_neg (by omega)]
    rw [if_neg (by omega)]
    rw [if_neg (by omega)]
    rw [h0]
    rw [if_pos rfl]
    rw [if_neg (by omega)]
    rw [hkb]
    have : ModuleKind.fromByte (n + 5) = Option.none := rfl
    rw [this]

/-- Witness for C7: entry-kind 99, a module-kind byte 7, and entry-kind 2
with npm unsupported, at concrete header contents. -/
theorem parseModulesHeader_badKinds_witness :
    parseModulesLoop (u32Bytes 1 ++ [97] ++ [99]) true 7 0 NewModuleMap [] =
      .error (.invalidV2EntryKind 99 6) ∧
    parseModulesLoop
        (u32Bytes 1 ++ [97] ++ [0] ++ u32Bytes 0 ++ u32Bytes 0 ++ u32Bytes 0 ++
          u32Bytes 0 ++ [7]) true 24 0 NewModuleMap [] =
      .error (.invalidV2ModuleKind 7 23) ∧
    parseModulesLoop (u32Bytes 1 ++ [97] ++ [2] ++ u32Bytes 5) false 11 0
        NewModuleMap [] =
      .error (.invalidV2EntryKind 2 6) := by
  refine ⟨?_, ?_, ?_⟩
  · have h := (parseModulesHeader_badKinds (u32Bytes 1 ++ [97] ++ [99]) true 6 0
      NewModuleMap [] (by decide) (by decide) (by decide)).1 96 (by decide)
    simpa using h
  · have h := (parseModulesHeader_badKinds
      (u32Bytes 1 ++ [97] ++ [0] ++ u32Bytes 0 ++ u32Bytes 0 ++ u32Bytes 0 ++
        u32Bytes 0 ++ [7]) true 23 0 NewModuleMap []
      (by decide) (by decide) (by decide)).2.2 2 (by decide) (by decide) (by decide)
    simpa using h
  · have h := (parseModulesHeader_badKinds (u32Bytes 1 ++ [97] ++ [2] ++ u32Bytes 5)
      false 10 0 NewModuleMap [] (by decide) (by decide) (by decide)).2.1
      (by decide) rfl
    simpa using h

theorem skel_setSlotInEntry (isMap : Bool) (d : Option (List Nat)) (v : MapEntry) :
    (setSlotInEntry isMap d v).skel = v.skel := by
  cases v with
  | data md => cases isMap <;> rfl
  | redirect r => rfl
  | npm n => rfl

theorem skel_resolveEntry (v : MapEntry) : (resolveEntry v).skel = v.skel := by
  cases v <;> rfl

theorem map_skel_map {f : (List Nat × MapEntry) → (List Nat × MapEntry)}
    (hf : ∀ p, (f p).1 = p.1 ∧ (f p).2.skel = p.2.skel) (l : ModuleMap) :
    (l.map f).map (fun p => (p.1, p.2.skel)) = l.map (fun p => (p.1, p.2.skel)) := by
  induction l with
  | nil => rfl
  | cons a t ih =>
    simp only [List.map_cons, ih, List.cons.injEq, and_true]
    rw [(hf a).1, (hf a).2]

theorem archiveSkel_setSlotReady (e : EszipV2) (s : List Nat) (isMap : Bool)
    (d : Option (List Nat)) : archiveSkel (e.setSlotReady s isMap d) = archiveSkel e := by
  have hpf : ∀ p : List Nat × MapEntry,
      ((if p.1 = s then (p.1, setSlotInEntry isMap d p.2) else p)).1 = p.1 ∧
      ((if p.1 = s then (p.1, setSlotInEntry isMap d p.2) else p)).2.skel = p.2.skel := by
    intro p
    by_cases h : p.1 = s
    · simp [h, skel_setSlotInEntry]
    · simp [h]
  unfold archiveSkel EszipV2.setSlotReady
  simp only
  rw [map_skel_map hpf]

theorem archiveSkel_resolve (e : EszipV2) :
    archiveSkel e.resolvePendingSlots = archiveSkel e := by
  have hpf : ∀ p : List Nat × MapEntry,
      ((p.1, resolveEntry p.2) : List Nat × MapEntry).1 = p.1 ∧
      ((p.1, resolveEntry p.2) : List Nat × MapEntry).2.skel = p.2.skel := by
    intro p
    exact ⟨rfl, skel_resolveEntry p.2⟩
  unfold archiveSkel EszipV2.resolvePendingSlots
  simp only
  rw [map_skel_map hpf]

theorem loadSectionLoop_skel (ctx : Nat → Option ParseErr) (options : Options)
    (offsets : List (Nat × sourceOffsetEntry)) (isMap : Bool) :
    ∀ fuel input read totalLen e,
    archiveSkel (loadSectionLoop ctx options offsets isMap fuel input read totalLen e).1 =
      archiveSkel e := by
  intro fuel
  induction fuel with
  | zero => intro input read totalLen e; rfl
  | succ n ih =>
    intro input read totalLen e
    rw [loadSectionLoop]
    by_cases h : read < totalLen
    · rw [if_pos h]
      cases hc : ctx read with
      | some err => rfl
      | none =>
        simp only
        cases hf : offsets.find? (fun p => decide (p.1 = read)) with
        | none => rfl
        | some pe =>
          obtain ⟨off, entry⟩ := pe
          simp only
          cases hr : readSectionWithSize input options entry.length with
          | error err => rfl
          | ok se =>
            obtain ⟨sec, rest⟩ := se
            simp only
            by_cases hv : sec.IsChecksumValid
            · rw [if_pos hv, ih]
              exact archiveSkel_setSlotReady e entry.specifier isMap (some sec.content)
            · rw [if_neg hv]
    · rw [if_neg h]

theorem loadSection_skel (ctx : Nat → Option ParseErr) (input : List Nat)
    (options : Options) (offsets : List (Nat × sourceOffsetEntry)) (isMap : Bool)
    (e : EszipV2) :
    archiveSkel (loadSection ctx input options offsets isMap e).1 = archiveSkel e := by
  unfold loadSection
  cases takeExact 4 input with
  | none => rfl
  | some p =>
    obtain ⟨lenBytes, rest⟩ := p
    simp only
    by_cases h : getU32 lenBytes 0 > maxSectionSize
    · rw [if_pos h]
    · rw [if_neg h]
      exact loadSectionLoop_skel ctx options offsets isMap _ rest 0 _ e

/-- C5: the completion task mutates only the source and source-map slots:
the specifier list, every entry's kind / redirect target / npm package id,
the npm snapshot, the options and the version of the archive are identical
before and after `loadSources` runs, for every outcome (success, error or
cancellation). -/
theorem loadSources_frame (ctx : Nat → Option ParseErr) (input : List Nat)
    (e : EszipV2) (options : Options)
    (so smo : List (Nat × sourceOffsetEntry)) :
    archiveSkel (loadSources ctx input e options so smo).1 = archiveSkel e := by
  unfold loadSources
  rcases h1 : loadSection ctx input options so false e with ⟨e1, rest1, err1⟩
  have he1 : archiveSkel e1 = archiveSkel e := by
    have := loadSection_skel ctx input options so false e
    rw [h1] at this
    exact this
  cases err1 with
  | some err => simpa [archiveSkel_resolve] using he1
  | none =>
    simp only
    rcases h2 : loadSection ctx rest1 options smo true e1 with ⟨e2, rest2, err2⟩
    have he2 : archiveSkel e2 = archiveSkel e1 := by
      have := loadSection_skel ctx rest1 options smo true e1
      rw [h2] at this
      exact this
    cases err2 with
    | some err => simp only; rw [archiveSkel_resolve, he2, he1]
    | none => simp only; rw [archiveSkel_resolve, he2, he1]

theorem slotAdv_refl (a : SourceSlot) : SlotAdv a a := Or.inl rfl

theorem entryAdv_refl (v : MapEntry) : EntryAdv v v := by
  cases v with
  | data d => exact ⟨rfl, slotAdv_refl _, slotAdv_refl _⟩
  | redirect r => rfl
  | npm n => rfl

theorem modsAdv_refl (m : ModuleMap) : ModsAdv m m := by
  induction m with
  | nil => exact List.Forall₂.nil
  | cons a t ih => exact List.Forall₂.cons ⟨rfl, entryAdv_refl a.2⟩ ih

theorem slotAdv_trans {a b c : SourceSlot} (h1 : SlotAdv a b) (h2 : SlotAdv b c) :
    SlotAdv a c := by
  rcases h1 with h1 | ⟨hp, d, hd⟩
  · rw [h1] at h2; exact h2
  · rcases h2 with h2 | ⟨hp2, d2, hd2⟩
    · rw [h2]; exact Or.inr ⟨hp, d, hd⟩
    · rw [hd] at hp2
      simp [SourceSlot.state] at hp2

theorem entryAdv_trans {a b c : MapEntry} (h1 : EntryAdv a b) (h2 : EntryAdv b c) :
    EntryAdv a c := by
  cases a with
  | data da =>
    cases b with
    | data db =>
      cases c with
      | data dc =>
        exact ⟨h1.1.trans h2.1, slotAdv_trans h1.2.1 h2.2.1, slotAdv_trans h1.2.2 h2.2.2⟩
      | redirect r => exact MapEntry.noConfusion (h2 : MapEntry.data db = .redirect r)
      | npm n => exact MapEntry.noConfusion (h2 : MapEntry.data db = .npm n)
    | redirect r => exact MapEntry.noConfusion (h1 : MapEntry.data da = .redirect r)
    | npm n => exact MapEntry.noConfusion (h1 : MapEntry.data da = .npm n)
  | redirect ra =>
    have hb : MapEntry.redirect ra = b := h1
    rw [← hb] at h2
    exact h2
  | npm na =>
    have hb : MapEntry.npm na = b := h1
    rw [← hb] at h2
    exact h2

theorem modsAdv_trans {a b c : ModuleMap} (h1 : ModsAdv a b) (h2 : ModsAdv b c) :
    ModsAdv a c := by
  induction h1 generalizing c with
  | nil => cases h2; exact List.Forall₂.nil
  | cons hab t ih =>
    cases h2 with
    | cons hbc t2 =>
      exact List.Forall₂.cons ⟨hab.1.trans hbc.1, entryAdv_trans hab.2 hbc.2⟩ (ih t2)

theorem slotAdv_setReady (a : SourceSlot) (d : Option (List Nat)) :
    SlotAdv a (a.setReady d) := by
  cases a with
  | pending o l => exact Or.inr ⟨rfl, d, rfl⟩
  | ready x => exact Or.inl rfl
  | taken => exact Or.inl rfl

theorem entryAdv_setSlotInEntry (isMap : Bool) (d : Option (List Nat)) (v : MapEntry) :
    EntryAdv v (setSlotInEntry isMap d v) := by
  cases v with
  | data md =>
    cases isMap with
    | false => exact ⟨rfl, slotAdv_setReady _ _, slotAdv_refl _⟩
    | true => exact ⟨rfl, slotAdv_refl _, slotAdv_setReady _ _⟩
  | redirect r => rfl
  | npm n => rfl

theorem entryAdv_resolveEntry (v : MapEntry) : EntryAdv v (resolveEntry v) := by
  cases v with
  | data md => exact ⟨rfl, slotAdv_setReady _ _, slotAdv_setReady _ _⟩
  | redirect r => rfl
  | npm n => rfl

theorem modsAdv_setSlotReady (e : EszipV2) (s : List Nat) (isMap : Bool)
    (d : Option (List Nat)) : ModsAdv e.modules (e.setSlotReady s isMap d).modules := by
  show ModsAdv e.modules (e.modules.map _)
  induction e.modules with
  | nil => exact List.Forall₂.nil
  | cons a t ih =>
    refine List.Forall₂.cons ⟨?_, ?_⟩ ih
    · by_cases h : a.1 = s
      · simp [h]
      · simp [h]
    · by_cases h : a.1 = s
      · simp only [if_pos h]
        exact entryAdv_setSlotInEntry isMap d a.2
      · simp only [if_neg h]
        exact entryAdv_refl a.2

theorem modsAdv_resolve (e : EszipV2) :
    ModsAdv e.modules e.resolvePendingSlots.modules := by
  show ModsAdv e.modules (e.modules.map _)
  induction e.modules with
  | nil => exact List.Forall₂.nil
  | cons a t ih => exact List.Forall₂.cons ⟨rfl, entryAdv_resolveEntry a.2⟩ ih

theorem loadSectionLoop_modsAdv (ctx : Nat → Option ParseErr) (options : Options)
    (offsets : List (Nat × sourceOffsetEntry)) (isMap : Bool) :
    ∀ fuel input read totalLen e,
    ModsAdv e.modules
      (loadSectionLoop ctx options offsets isMap fuel input read totalLen e).1.modules := by
  intro fuel
  induction fuel with
  | zero => intro input read totalLen e; exact modsAdv_refl _
  | succ n ih =>
    intro input read totalLen e
    rw [loadSectionLoop]
    by_cases h : read < totalLen
    · rw [if_pos h]
      cases hc : ctx read with
      | some err => exact modsAdv_refl _
      | none =>
        simp only
        cases hf : offsets.find? (fun p => decide (p.1 = read)) with
        | none => exact modsAdv_refl _
        | some pe =>
          obtain ⟨off, entry⟩ := pe
          simp only
          cases hr : readSectionWithSize input options entry.length with
          | error err => exact modsAdv_refl _
          | ok se =>
            obtain ⟨sec, rest⟩ := se
            simp only
            by_cases hv : sec.IsChecksumValid
            · rw [if_pos hv]
              exact modsAdv_trans
                (modsAdv_setSlotReady e entry.specifier isMap (some sec.content)) (ih _ _ _ _)
            · rw [if_neg hv]; exact modsAdv_refl _
    · rw [if_neg h]; exact modsAdv_refl _

theorem loadSection_modsAdv (ctx : Nat → Option ParseErr) (input : List Nat)
    (options : Options) (offsets : List (Nat × sourceOffsetEntry)) (isMap : Bool)
    (e : EszipV2) :
    ModsAdv e.modules (loadSection ctx input options offsets isMap e).1.modules := by
  unfold loadSection
  cases takeExact 4 input with
  | none => exact modsAdv_refl _
  | some p =>
    obtain ⟨lenBytes, rest⟩ := p
    simp only
    by_cases h : getU32 lenBytes 0 > maxSectionSize
    · rw [if_pos h]; exact modsAdv_refl _
    · rw [if_neg h]
      exact loadSectionLoop_modsAdv ctx options offsets isMap _ rest 0 _ e

theorem noPendingB_resolve (e : EszipV2) : noPendingB e.resolvePendingSlots = true := by
  show (e.modules.map _).all _ = true
  rw [List.all_map, List.all_eq_true]
  intro p _
  show (match (p.1, resolveEntry p.2).2 with
    | MapEntry.data d =>
      decide (d.Source.state ≠ .pending) && decide (d.SourceMap.state ≠ .pending)
    | _ => true) = true
  cases hp : p.2 with
  | data d =>
    simp only [resolveEntry]
    cases d.Source <;> cases d.SourceMap <;> simp [SourceSlot.setReady, SourceSlot.state]
  | redirect r => simp [resolveEntry]
  | npm n => simp [resolveEntry]

/-- C3: whatever the outcome of the completion task (success, a parse error,
cancellation at any point, or even the divergence backstop), when
`loadSources` returns no slot of the archive is still Pending, and every
slot has either kept its value or advanced from Pending to Ready — so a
slot that was Pending and was not filled with payload bytes ends Ready
with nil bytes. -/
theorem loadSources_backstop (ctx : Nat → Option ParseErr) (input : List Nat)
    (e : EszipV2) (options : Options)
    (so smo : List (Nat × sourceOffsetEntry)) :
    noPendingB (loadSources ctx input e options so smo).1 = true ∧
    ModsAdv e.modules (loadSources ctx input e options so smo).1.modules := by
  unfold loadSources
  rcases h1 : loadSection ctx input options so false e with ⟨e1, rest1, err1⟩
  have m1 : ModsAdv e.modules e1.modules := by
    have := loadSection_modsAdv ctx input options so false e
    rw [h1] at this; exact this
  cases err1 with
  | some err =>
    exact ⟨noPendingB_resolve e1, modsAdv_trans m1 (modsAdv_resolve e1)⟩
  | none =>
    simp only
    rcases h2 : loadSection ctx rest1 options smo true e1 with ⟨e2, rest2, err2⟩
    have m2 : ModsAdv e1.modules e2.modules := by
      have := loadSection_modsAdv ctx rest1 options smo true e1
      rw [h2] at this; exact this
    cases err2 with
    | some err =>
      exact ⟨noPendingB_resolve e2, modsAdv_trans (modsAdv_trans m1 m2) (modsAdv_resolve e2)⟩
    | none =>
      exact ⟨noPendingB_resolve e2, modsAdv_trans (modsAdv_trans m1 m2) (modsAdv_resolve e2)⟩

theorem readSectionWithSize_frame (content : List Nat) (options : Options)
    (digest rest : List Nat) (hc : content.length ≤ maxSectionSize)
    (hd : digest.length = options.GetChecksumSize) :
    readSectionWithSize (content ++ (digest ++ rest)) options content.length =
      .ok (⟨content, digest, options.Checksum⟩, rest) := by
  unfold readSectionWithSize
  rw [if_neg (by omega)]
  rw [takeExact_append content (digest ++ rest)]
  simp only
  rw [takeExact_append_of_eq digest rest hd]

theorem loadSectionLoop_walkPrefix (options : Options)
    (offsets : List (Nat × sourceOffsetEntry)) (isMap : Bool)
    (hsz : options.GetChecksumSize = options.Checksum.DigestSize) :
    ∀ (chunks : List (List Nat × List Nat)) (fuel start totalLen : Nat)
      (e : EszipV2) (tail : List Nat),
    walkPrefixOk offsets options.GetChecksumSize totalLen start chunks = true →
    loadSectionLoop noCancel options offsets isMap (chunks.length + fuel)
        (payloadOf options.Checksum chunks ++ tail) start totalLen e =
      loadSectionLoop noCancel options offsets isMap fuel tail
        (endRead options.GetChecksumSize start chunks) totalLen
        (applyChunks isMap chunks e) := by
  intro chunks
  induction chunks with
  | nil =>
    intro fuel start totalLen e tail _
    simp [payloadOf, endRead, applyChunks]
  | cons c rest ih =>
    intro fuel start totalLen e tail hwalk
    obtain ⟨spec, b⟩ := c
    simp only [walkPrefixOk, Bool.and_eq_true, decide_eq_true_eq] at hwalk
    obtain ⟨⟨⟨h1, h2⟩, h3⟩, h4⟩ := hwalk
    have hlen : rest.length + fuel + 1 = ((spec, b) :: rest).length + fuel := by
      simp only [List.length_cons]; omega
    rw [← hlen]
    rw [loadSectionLoop]
    rw [if_pos h1]
    show (match offsets.find? (fun p => decide (p.1 = start)) with
      | Option.none => _
      | some (_, entry) => _) = _
    rw [h3]
    simp only
    have hrs : readSectionWithSize (payloadOf options.Checksum ((spec, b) :: rest) ++ tail)
        options b.length =
        .ok (⟨b, options.Checksum.Hash b, options.Checksum⟩,
          payloadOf options.Checksum rest ++ tail) := by
      have := readSectionWithSize_frame b options (options.Checksum.Hash b)
        (payloadOf options.Checksum rest ++ tail) h2
        (by rw [hash_length, hsz])
      simpa [payloadOf] using this
    rw [hrs]
    simp only
    rw [if_pos (by simpa [Section.IsChecksumValid] using verify_hash_self options.Checksum b)]
    have hadv : b.length + (options.Checksum.Hash b).length =
        b.length + options.GetChecksumSize := by
      rw [hash_length, hsz]
    show loadSectionLoop noCancel options offsets isMap (rest.length + fuel)
        (payloadOf options.Checksum rest ++ tail)
        (start + (b.length + (options.Checksum.Hash b).length)) totalLen
        (e.setSlotReady spec isMap (some b)) = _
    rw [hadv]
    rw [ih fuel (start + (b.length + options.GetChecksumSize)) totalLen
      (e.setSlotReady spec isMap (some b)) tail (by
        have : start + (b.length + options.GetChecksumSize) =
          start + b.length + options.GetChecksumSize := by omega
        rw [this]; exact h4)]
    have harg : start + (b.length + options.GetChecksumSize) =
        start + b.length + options.GetChecksumSize := by omega
    rw [harg]
    rfl

theorem walkPrefix_length_le (offsets : List (Nat × sourceOffsetEntry))
    (csSize : Nat) :
    ∀ (chunks : List (List Nat × List Nat)) (start totalLen : Nat),
    walkPrefixOk offsets csSize totalLen start chunks = true →
    chunks.all (fun c => decide (0 < c.2.length)) = true →
    chunks.length ≤ totalLen - start := by
  intro chunks
  induction chunks with
  | nil => intro start totalLen _ _; simp
  | cons c rest ih =>
    intro start totalLen hwalk hne
    obtain ⟨spec, b⟩ := c
    simp only [walkPrefixOk, Bool.and_eq_true, decide_eq_true_eq] at hwalk
    obtain ⟨⟨⟨h1, _⟩, _⟩, h4⟩ := hwalk
    simp only [List.all_cons, Bool.and_eq_true, decide_eq_true_eq] at hne
    have := ih (start + b.length + csSize) totalLen h4 hne.2
    simp only [List.length_cons]
    omega

theorem loadSection_success (options : Options)
    (offsets : List (Nat × sourceOffsetEntry)) (isMap : Bool) (e : EszipV2)
    (chunks : List (List Nat × List Nat)) (tail : List Nat) (totalLen : Nat)
    (hsz : options.GetChecksumSize = options.Checksum.DigestSize)
    (hlen : totalLen ≤ maxSectionSize)
    (hwalk : walkPrefixOk offsets options.GetChecksumSize totalLen 0 chunks = true)
    (hne : chunks.all (fun c => decide (0 < c.2.length)) = true)
    (hend : totalLen ≤ endRead options.GetChecksumSize 0 chunks) :
    loadSection noCancel (u32Bytes totalLen ++ (payloadOf options.Checksum chunks ++ tail))
        options offsets isMap e =
      (applyChunks isMap chunks e, tail, Option.none) := by
  have hcl : chunks.length ≤ totalLen := by
    have := walkPrefix_length_le offsets options.GetChecksumSize chunks 0 totalLen hwalk hne
    omega
  unfold loadSection
  rw [takeExact_append_of_eq (u32Bytes totalLen) _ (u32Bytes_length _)]
  simp only
  rw [getU32_u32Bytes totalLen (by have := maxSectionSize_lt; omega)]
  rw [if_neg (by omega)]
  have hfuel : totalLen + 1 = chunks.length + (totalLen + 1 - chunks.length) := by omega
  rw [hfuel]
  rw [loadSectionLoop_walkPrefix options offsets isMap hsz chunks
    (totalLen + 1 - chunks.length) 0 totalLen e tail hwalk]
  have hpos : totalLen + 1 - chunks.length = (totalLen - chunks.length) + 1 := by omega
  rw [hpos]
  rw [loadSectionLoop]
  rw [if_neg (by omega)]

/-- C9: the payload-section loader uses the declared section length only as
a loop bound and never checks exact consumption: when the final entry's
content plus digest extends strictly past the declared `totalLen`, the
section is still accepted without error (every entry's offset being in the
index and every digest verifying), and exactly the entries' bytes are
consumed. -/
theorem loadSection_overshoot (options : Options)
    (offsets : List (Nat × sourceOffsetEntry)) (isMap : Bool) (e : EszipV2)
    (chunks : List (List Nat × List Nat)) (tail : List Nat) (totalLen : Nat)
    (hsz : options.GetChecksumSize = options.Checksum.DigestSize)
    (hlen : totalLen ≤ maxSectionSize)
    (hwalk : walkPrefixOk offsets options.GetChecksumSize totalLen 0 chunks = true)
    (hne : chunks.all (fun c => decide (0 < c.2.length)) = true)
    (hover : totalLen < endRead options.GetChecksumSize 0 chunks) :
    loadSection noCancel (u32Bytes totalLen ++ (payloadOf options.Checksum chunks ++ tail))
        options offsets isMap e =
      (applyChunks isMap chunks e, tail, Option.none) :=
  loadSection_success options offsets isMap e chunks tail totalLen hsz hlen hwalk hne
    (Nat.le_of_lt hover)

/-- Witness for C9: one indexed entry of length 10 (plus an 8-byte digest)
under a section that declares only 5 bytes; the walk accepts it. -/
theorem loadSection_overshoot_witness :
    loadSection noCancel
        (u32Bytes 5 ++ (payloadOf ChecksumType.xxh3 [([97], [1,2,3,4,5,6,7,8,9,10])] ++ [7]))
        ⟨.xxh3, 0⟩ [(0, ⟨10, [97]⟩)] false NewV2 =
      (applyChunks false [([97], [1,2,3,4,5,6,7,8,9,10])] NewV2, [7], Option.none) :=
  loadSection_overshoot ⟨.xxh3, 0⟩ [(0, ⟨10, [97]⟩)] false NewV2
    [([97], [1,2,3,4,5,6,7,8,9,10])] [7] 5 (by decide) (by decide) (by decide)
    (by decide) (by decide)

/-- C4: the payload walk of the completion task: after any successfully
processed prefix, (a) a read position absent from the offset index fails
with `InvalidV2SourceOffset` carrying that offset; (b) an entry whose bytes
(read with the length dictated by the index) fail digest verification
fails with `InvalidV2SourceHash` carrying the entry's specifier; and (c) a
walk whose every entry is indexed and verifies sets each matching slot
Ready with its content and advances the read position by content length
plus digest size, ending successfully once the declared length is
reached. -/
theorem loadSection_walk_spec (options : Options)
    (offsets : List (Nat × sourceOffsetEntry)) (isMap : Bool) (e : EszipV2)
    (chunks : List (List Nat × List Nat)) (tail : List Nat) (totalLen : Nat)
    (hsz : options.GetChecksumSize = options.Checksum.DigestSize)
    (hwalk : walkPrefixOk offsets options.GetChecksumSize totalLen 0 chunks = true) :
    (totalLen ≤ endRead options.GetChecksumSize 0 chunks →
      loadSectionLoop noCancel options offsets isMap (chunks.length + 1)
          (payloadOf options.Checksum chunks ++ tail) 0 totalLen e =
        (applyChunks isMap chunks e, tail, Option.none)) ∧
    (endRead options.GetChecksumSize 0 chunks < totalLen →
      offsets.find?
          (fun p => decide (p.1 = endRead options.GetChecksumSize 0 chunks)) =
        Option.none →
      loadSectionLoop noCancel options offsets isMap (chunks.length + 1)
          (payloadOf options.Checksum chunks ++ tail) 0 totalLen e =
        (applyChunks isMap chunks e, tail,
          some (.invalidV2SourceOffset (endRead options.GetChecksumSize 0 chunks)))) ∧
    (∀ spec blen content digest rest2,
      endRead options.GetChecksumSize 0 chunks < totalLen →
      offsets.find?
          (fun p => decide (p.1 = endRead options.GetChecksumSize 0 chunks)) =
        some (endRead options.GetChecksumSize 0 chunks, ⟨blen, spec⟩) →
      tail = content ++ (digest ++ rest2) →
      content.length = blen → blen ≤ maxSectionSize →
      digest.length = options.GetChecksumSize →
      options.Checksum.Verify content digest = false →
      loadSectionLoop noCancel options offsets isMap (chunks.length + 1)
          (payloadOf options.Checksum chunks ++ tail) 0 totalLen e =
        (applyChunks isMap chunks e, tail, some (.invalidV2SourceHash spec))) := by
  have hpre := loadSectionLoop_walkPrefix options offsets isMap hsz chunks 1 0 totalLen e tail hwalk
  refine ⟨?_, ?_, ?_⟩
  · intro hend
    rw [hpre]
    rw [loadSectionLoop]
    rw [if_neg (by omega)]
  · intro hlt hmiss
    rw [hpre]
    rw [loadSectionLoop]
    rw [if_pos hlt]
    show (match offsets.find?
        (fun p => decide (p.1 = endRead options.GetChecksumSize 0 chunks)) with
      | Option.none => _
      | some (_, entry) => _) = _
    rw [hmiss]
  · intro spec blen content digest rest2 hlt hfind htail hcl hbl hdl hbad
    rw [hpre]
    rw [loadSectionLoop]
    rw [if_pos hlt]
    show (match offsets.find?
        (fun p => decide (p.1 = endRead options.GetChecksumSize 0 chunks)) with
      | Option.none => _
      | some (_, entry) => _) = _
    rw [hfind]
    simp only
    have hrs : readSectionWithSize tail options blen =
        .ok (⟨content, digest, options.Checksum⟩, rest2) := by
      rw [htail, ← hcl]
      exact readSectionWithSize_frame content options digest rest2 (by omega) hdl
    rw [hrs]
    simp only [Section.IsChecksumValid]
    rw [if_neg (by simp [hbad])]

/-- Witness for C4 at concrete inputs: a good first entry followed by a
missing offset, and a good first entry followed by a corrupted entry. -/
theorem loadSection_walk_spec_witness :
    loadSectionLoop noCancel ⟨.xxh3, 0⟩ [(0, ⟨2, [97]⟩)] false 2
        (payloadOf ChecksumType.xxh3 [([97], [5, 6])] ++ [9]) 0 20 NewV2 =
      (applyChunks false [([97], [5, 6])] NewV2, [9],
        some (.invalidV2SourceOffset 10)) ∧
    loadSectionLoop noCancel ⟨.xxh3, 0⟩ [(0, ⟨2, [97]⟩), (10, ⟨1, [98]⟩)] false 2
        (payloadOf ChecksumType.xxh3 [([97], [5, 6])] ++
          ([3] ++ ([0, 0, 0, 0, 0, 0, 0, 0] ++ [4]))) 0 20 NewV2 =
      (applyChunks false [([97], [5, 6])] NewV2,
        [3] ++ ([0, 0, 0, 0, 0, 0, 0, 0] ++ [4]),
        some (.invalidV2SourceHash [98])) := by
  constructor
  · exact (loadSection_walk_spec ⟨.xxh3, 0⟩ [(0, ⟨2, [97]⟩)] false NewV2
      [([97], [5, 6])] [9] 20 (by decide) (by decide)).2.1 (by decide) (by decide)
  · exact (loadSection_walk_spec ⟨.xxh3, 0⟩ [(0, ⟨2, [97]⟩), (10, ⟨1, [98]⟩)] false NewV2
      [([97], [5, 6])] ([3] ++ ([0, 0, 0, 0, 0, 0, 0, 0] ++ [4])) 20
      (by decide) (by decide)).2.2 [98] 1 [3] [0, 0, 0, 0, 0, 0, 0, 0] [4]
      (by decide) (by decide) rfl (by decide) (by decide) (by decide) (by decide)

theorem find?_map_key (f : (List Nat × MapEntry) → (List Nat × MapEntry))
    (hf : ∀ p, (f p).1 = p.1) (spec : List Nat) (l : ModuleMap) :
    List.find? (fun p => decide (p.1 = spec)) (l.map f) =
      (List.find? (fun p => decide (p.1 = spec)) l).map f := by
  induction l with
  | nil => rfl
  | cons a t ih =>
    simp only [List.map_cons]
    by_cases h : a.1 = spec
    · rw [List.find?_cons_of_pos _ (by simp [hf a, h]),
        List.find?_cons_of_pos _ (by simp [h])]
      rfl
    · rw [List.find?_cons_of_neg _ (by simp [hf a, h]),
        List.find?_cons_of_neg _ (by simp [h]), ih]

theorem find?_key_spec (spec : List Nat) (l : ModuleMap) (p : List Nat × MapEntry)
    (h : List.find? (fun q => decide (q.1 = spec)) l = some p) : p.1 = spec := by
  have := List.find?_some h
  simpa using this

theorem sourceOf_setSlot (e : EszipV2) (k spec : List Nat) (isMap : Bool)
    (d : Option (List Nat)) (hk : k ≠ spec ∨ isMap = true) :
    sourceOf (e.setSlotReady k isMap d).modules spec = sourceOf e.modules spec := by
  unfold sourceOf EszipV2.setSlotReady ModuleMap.Get
  rw [find?_map_key (fun p => if p.1 = k then (p.1, setSlotInEntry isMap d p.2) else p)
    (by intro p; by_cases h : p.1 = k <;> simp [h]) spec]
  cases hfind : List.find? (fun q => decide (q.1 = spec)) e.modules with
  | none => rfl
  | some p =>
    have hp : p.1 = spec := find?_key_spec spec e.modules p hfind
    simp only [Option.map_some']
    by_cases hks : p.1 = k
    · rw [if_pos hks]
      rcases hk with hk | hk
      · have : k = spec := by rw [← hks]; exact hp
        exact absurd this hk
      · subst hk
        cases hv : p.2 with
        | data md => simp [setSlotInEntry]
        | redirect r => simp [setSlotInEntry]
        | npm n => simp [setSlotInEntry]
    · rw [if_neg hks]

theorem sourceOf_loadSectionLoop_avoid (ctx : Nat → Option ParseErr)
    (options : Options) (offsets : List (Nat × sourceOffsetEntry)) (spec : List Nat)
    (isMap : Bool)
    (havoid : isMap = false → ∀ p ∈ offsets, p.2.specifier ≠ spec) :
    ∀ fuel input read totalLen e,
    sourceOf (loadSectionLoop ctx options offsets isMap fuel input read
        totalLen e).1.modules spec = sourceOf e.modules spec := by
  intro fuel
  induction fuel with
  | zero => intro input read totalLen e; rfl
  | succ n ih =>
    intro input read totalLen e
    rw [loadSectionLoop]
    by_cases h : read < totalLen
    · rw [if_pos h]
      cases hc : ctx read with
      | some err => rfl
      | none =>
        simp only
        cases hf : offsets.find? (fun p => decide (p.1 = read)) with
        | none => rfl
        | some pe =>
          obtain ⟨off, entry⟩ := pe
          simp only
          cases hr : readSectionWithSize input options entry.length with
          | error err => rfl
          | ok se =>
            obtain ⟨sec, rest⟩ := se
            simp only
            by_cases hv : sec.IsChecksumValid
            · rw [if_pos hv, ih]
              apply sourceOf_setSlot
              cases isMap with
              | true => exact Or.inr rfl
              | false =>
                refine Or.inl ?_
                have hmem : (off, entry) ∈ offsets := List.mem_of_find?_eq_some hf
                exact havoid rfl (off, entry) hmem
            · rw [if_neg hv]
    · rw [if_neg h]

theorem sourceOf_loadSection_avoid (ctx : Nat → Option ParseErr) (input : List Nat)
    (options : Options) (offsets : List (Nat × sourceOffsetEntry)) (spec : List Nat)
    (isMap : Bool) (e : EszipV2)
    (havoid : isMap = false → ∀ p ∈ offsets, p.2.specifier ≠ spec) :
    sourceOf (loadSection ctx input options offsets isMap e).1.modules spec =
      sourceOf e.modules spec := by
  unfold loadSection
  cases takeExact 4 input with
  | none => rfl
  | some p =>
    obtain ⟨lenBytes, rest⟩ := p
    simp only
    by_cases h : getU32 lenBytes 0 > maxSectionSize
    · rw [if_pos h]
    · rw [if_neg h]
      exact sourceOf_loadSectionLoop_avoid ctx options offsets spec isMap havoid _ rest 0 _ e

theorem sourceOf_resolve (e : EszipV2) (spec : List Nat) :
    sourceOf e.resolvePendingSlots.modules spec =
      (sourceOf e.modules spec).map (fun s => s.setReady Option.none) := by
  unfold sourceOf EszipV2.resolvePendingSlots ModuleMap.Get
  rw [find?_map_key (fun p => (p.1, resolveEntry p.2)) (fun p => rfl) spec]
  cases hfind : List.find? (fun q => decide (q.1 = spec)) e.modules with
  | none => rfl
  | some p =>
    simp only [Option.map_some']
    cases hv : p.2 with
    | data md => simp [resolveEntry]
    | redirect r => simp [resolveEntry]
    | npm n => simp [resolveEntry]

theorem get_of_mem_nodup {l : ModuleMap} {k : List Nat} {v : MapEntry}
    (hnodup : NodupKeysB l = true) (hmem : (k, v) ∈ l) : l.Get k = some v := by
  induction l with
  | nil => cases hmem
  | cons a t ih =>
    simp only [NodupKeysB, List.map_cons, List.nodup_cons, decide_eq_true_eq] at hnodup
    rcases List.mem_cons.mp hmem with h | h
    · subst h
      show Option.map Prod.snd (List.find? (fun p => decide (p.1 = k)) ((k, v) :: t)) = some v
      rw [List.find?_cons_of_pos _ (by simp)]
      rfl
    · have hk : a.1 ≠ k := by
        intro he
        exact hnodup.1 (he ▸ (List.mem_map.mpr ⟨(k, v), h, rfl⟩))
      show Option.map Prod.snd (List.find? (fun p => decide (p.1 = k)) (a :: t)) = some v
      rw [List.find?_cons_of_neg _ (by simpa using hk)]
      exact ih (by simp [NodupKeysB, hnodup.2]) h

theorem buildOffsets_avoid (spec : List Nat) :
    ∀ (modules : ModuleMap) (so0 smo0 so smo : List (Nat × sourceOffsetEntry)),
    buildOffsets modules so0 smo0 = .ok (so, smo) →
    (∀ v : MapEntry, (spec, v) ∈ modules → ∀ dd : ModuleData, v = .data dd →
      dd.Source.length = 0) →
    (∀ p ∈ so0, p.2.specifier ≠ spec) →
    ∀ p ∈ so, p.2.specifier ≠ spec := by
  intro modules
  induction modules with
  | nil =>
    intro so0 smo0 so smo hbo _ hinv
    simp only [buildOffsets, Except.ok.injEq, Prod.mk.injEq] at hbo
    rw [← hbo.1]
    exact hinv
  | cons a t ih =>
    intro so0 smo0 so smo hbo hzero hinv
    obtain ⟨k, v⟩ := a
    cases hv : v with
    | data d =>
      subst hv
      simp only [buildOffsets] at hbo
      rcases hcase : (if d.Source.state = .pending ∧ d.Source.length > 0 then
          if d.Source.offset > maxSectionSize ∨ d.Source.length > maxSectionSize then
            Except.error (ParseErr.invalidV2Header "source offset/length out of range")
          else if so0.any (fun p => decide (p.1 = d.Source.offset)) then
            Except.error (ParseErr.invalidV2Header "duplicate source offset")
          else Except.ok (so0 ++ [(d.Source.offset, ⟨d.Source.length, k⟩)])
        else Except.ok so0) with heq | so2
      · rw [hcase] at hbo; cases hbo
      · rw [hcase] at hbo
        simp only at hbo
        rcases hcase2 : (if d.SourceMap.state = .pending ∧ d.SourceMap.length > 0 then
            if d.SourceMap.offset > maxSectionSize ∨ d.SourceMap.length > maxSectionSize then
              Except.error (ParseErr.invalidV2Header "source map offset/length out of range")
            else if smo0.any (fun p => decide (p.1 = d.SourceMap.offset)) then
              Except.error (ParseErr.invalidV2Header "duplicate source map offset")
            else Except.ok (smo0 ++ [(d.SourceMap.offset, ⟨d.SourceMap.length, k⟩)])
          else Except.ok smo0) with heq2 | smo2
        · rw [hcase2] at hbo; cases hbo
        · rw [hcase2] at hbo
          simp only at hbo
          refine ih so2 smo2 so smo hbo
            (fun v2 hm dd hdd => hzero v2 (List.mem_cons_of_mem _ hm) dd hdd) ?_
          -- the invariant is preserved by the source step
          intro p hp
          by_cases hpend : d.Source.state = .pending ∧ d.Source.length > 0
          · rw [if_pos hpend] at hcase
            by_cases hrange : d.Source.offset > maxSectionSize ∨
                d.Source.length > maxSectionSize
            · rw [if_pos hrange] at hcase; cases hcase
            · rw [if_neg hrange] at hcase
              by_cases hdup : so0.any (fun p => decide (p.1 = d.Source.offset))
              · rw [if_pos hdup] at hcase; cases hcase
              · rw [if_neg hdup] at hcase
                have hso2 : so2 = so0 ++ [(d.Source.offset, ⟨d.Source.length, k⟩)] := by
                  cases hcase; rfl
                subst hso2
                rcases List.mem_append.mp hp with hh | hh
                · exact hinv p hh
                · have hpk : p = (d.Source.offset, ⟨d.Source.length, k⟩) := by
                    simpa using hh
                  subst hpk
                  intro hks
                  have : k = spec := hks
                  subst this
                  have := hzero (.data d) (List.mem_cons_self _ _) d rfl
                  omega
          · rw [if_neg hpend] at hcase
            have hso2 : so2 = so0 := by cases hcase; rfl
            subst hso2
            exact hinv p hp
    | redirect r =>
      subst hv
      simp only [buildOffsets] at hbo
      exact ih so0 smo0 so smo hbo
        (fun v2 hm dd hdd => hzero v2 (List.mem_cons_of_mem _ hm) dd hdd) hinv
    | npm n =>
      subst hv
      simp only [buildOffsets] at hbo
      exact ih so0 smo0 so smo hbo
        (fun v2 hm dd hdd => hzero v2 (List.mem_cons_of_mem _ hm) dd hdd) hinv

theorem slotOf_setSlot (e : EszipV2) (k spec : List Nat) (isMap sel : Bool)
    (d : Option (List Nat)) (hk : k ≠ spec ∨ isMap ≠ sel) :
    slotOf sel (e.setSlotReady k isMap d).modules spec = slotOf sel e.modules spec := by
  unfold slotOf EszipV2.setSlotReady ModuleMap.Get
  rw [find?_map_key (fun p => if p.1 = k then (p.1, setSlotInEntry isMap d p.2) else p)
    (by intro p; by_cases h : p.1 = k <;> simp [h]) spec]
  cases hfind : List.find? (fun q => decide (q.1 = spec)) e.modules with
  | none => rfl
  | some p =>
    have hp : p.1 = spec := find?_key_spec spec e.modules p hfind
    simp only [Option.map_some']
    by_cases hks : p.1 = k
    · rw [if_pos hks]
      rcases hk with hk | hk
      · have : k = spec := by rw [← hks]; exact hp
        exact absurd this hk
      · cases hv : p.2 with
        | data md =>
          cases isMap with
          | false =>
            cases sel with
            | false => exact absurd rfl hk
            | true => simp [setSlotInEntry]
          | true =>
            cases sel with
            | false => simp [setSlotInEntry]
            | true => exact absurd rfl hk
        | redirect r => simp [setSlotInEntry]
        | npm n => simp [setSlotInEntry]
    · rw [if_neg hks]

theorem slotOf_loadSectionLoop_avoid (ctx : Nat → Option ParseErr)
    (options : Options) (offsets : List (Nat × sourceOffsetEntry)) (spec : List Nat)
    (isMap sel : Bool)
    (havoid : isMap = sel → ∀ p ∈ offsets, p.2.specifier ≠ spec) :
    ∀ fuel input read totalLen e,
    slotOf sel (loadSectionLoop ctx options offsets isMap fuel input read
        totalLen e).1.modules spec = slotOf sel e.modules spec := by
  intro fuel
  induction fuel with
  | zero => intro input read totalLen e; rfl
  | succ n ih =>
    intro input read totalLen e
    rw [loadSectionLoop]
    by_cases h : read < totalLen
    · rw [if_pos h]
      cases hc : ctx read with
      | some err => rfl
      | none =>
        simp only
        cases hf : offsets.find? (fun p => decide (p.1 = read)) with
        | none => rfl
        | some pe =>
          obtain ⟨off, entry⟩ := pe
          simp only
          cases hr : readSectionWithSize input options entry.length with
          | error err => rfl
          | ok se =>
            obtain ⟨sec, rest⟩ := se
            simp only
            by_cases hv : sec.IsChecksumValid
            · rw [if_pos hv, ih]
              apply slotOf_setSlot
              by_cases hms : isMap = sel
              · refine Or.inl ?_
                have hmem : (off, entry) ∈ offsets := List.mem_of_find?_eq_some hf
                exact havoid hms (off, entry) hmem
              · exact Or.inr hms
            · rw [if_neg hv]
    · rw [if_neg h]

theorem slotOf_loadSection_avoid (ctx : Nat → Option ParseErr) (input : List Nat)
    (options : Options) (offsets : List (Nat × sourceOffsetEntry)) (spec : List Nat)
    (isMap sel : Bool) (e : EszipV2)
    (havoid : isMap = sel → ∀ p ∈ offsets, p.2.specifier ≠ spec) :
    slotOf sel (loadSection ctx input options offsets isMap e).1.modules spec =
      slotOf sel e.modules spec := by
  unfold loadSection
  cases takeExact 4 input with
  | none => rfl
  | some p =>
    obtain ⟨lenBytes, rest⟩ := p
    simp only
    by_cases h : getU32 lenBytes 0 > maxSectionSize
    · rw [if_pos h]
    · rw [if_neg h]
      exact slotOf_loadSectionLoop_avoid ctx options offsets spec isMap sel havoid
        _ rest 0 _ e

theorem slotOf_resolve (sel : Bool) (e : EszipV2) (spec : List Nat) :
    slotOf sel e.resolvePendingSlots.modules spec =
      (slotOf sel e.modules spec).map (fun s => s.setReady Option.none) := by
  unfold slotOf EszipV2.resolvePendingSlots ModuleMap.Get
  rw [find?_map_key (fun p => (p.1, resolveEntry p.2)) (fun p => rfl) spec]
  cases hfind : List.find? (fun q => decide (q.1 = spec)) e.modules with
  | none => rfl
  | some p =>
    simp only [Option.map_some']
    cases hv : p.2 with
    | data md => cases sel <;> simp [resolveEntry]
    | redirect r => simp [resolveEntry]
    | npm n => simp [resolveEntry]

theorem buildOffsets_avoid_map (spec : List Nat) :
    ∀ (modules : ModuleMap) (so0 smo0 so smo : List (Nat × sourceOffsetEntry)),
    buildOffsets modules so0 smo0 = .ok (so, smo) →
    (∀ v : MapEntry, (spec, v) ∈ modules → ∀ dd : ModuleData, v = .data dd →
      dd.SourceMap.length = 0) →
    (∀ p ∈ smo0, p.2.specifier ≠ spec) →
    ∀ p ∈ smo, p.2.specifier ≠ spec := by
  intro modules
  induction modules with
  | nil =>
    intro so0 smo0 so smo hbo _ hinv
    simp only [buildOffsets, Except.ok.injEq, Prod.mk.injEq] at hbo
    rw [← hbo.2]
    exact hinv
  | cons a t ih =>
    intro so0 smo0 so smo hbo hzero hinv
    obtain ⟨k, v⟩ := a
    cases hv : v with
    | data d =>
      subst hv
      simp only [buildOffsets] at hbo
      rcases hcase : (if d.Source.state = .pending ∧ d.Source.length > 0 then
          if d.Source.offset > maxSectionSize ∨ d.Source.length > maxSectionSize then
            Except.error (ParseErr.invalidV2Header "source offset/length out of range")
          else if so0.any (fun p => decide (p.1 = d.Source.offset)) then
            Except.error (ParseErr.invalidV2Header "duplicate source offset")
          else Except.ok (so0 ++ [(d.Source.offset, ⟨d.Source.length, k⟩)])
        else Except.ok so0) with heq | so2
      · rw [hcase] at hbo; cases hbo
      · rw [hcase] at hbo
        simp only at hbo
        rcases hcase2 : (if d.SourceMap.state = .pending ∧ d.SourceMap.length > 0 then
            if d.SourceMap.offset > maxSectionSize ∨ d.SourceMap.length > maxSectionSize then
              Except.error (ParseErr.invalidV2Header "source map offset/length out of range")
            else if smo0.any (fun p => decide (p.1 = d.SourceMap.offset)) then
              Except.error (ParseErr.invalidV2Header "duplicate source map offset")
            else Except.ok (smo0 ++ [(d.SourceMap.offset, ⟨d.SourceMap.length, k⟩)])
          else Except.ok smo0) with heq2 | smo2
        · rw [hcase2] at hbo; cases hbo
        · rw [hcase2] at hbo
          simp only at hbo
          refine ih so2 smo2 so smo hbo
            (fun v2 hm dd hdd => hzero v2 (List.mem_cons_of_mem _ hm) dd hdd) ?_
          -- the invariant is preserved by the source-map step
          intro p hp
          by_cases hpend : d.SourceMap.state = .pending ∧ d.SourceMap.length > 0
          · rw [if_pos hpend] at hcase2
            by_cases hrange : d.SourceMap.offset > maxSectionSize ∨
                d.SourceMap.length > maxSectionSize
            · rw [if_pos hrange] at hcase2; cases hcase2
            · rw [if_neg hrange] at hcase2
              by_cases hdup : smo0.any (fun p => decide (p.1 = d.SourceMap.offset))
              · rw [if_pos hdup] at hcase2; cases hcase2
              · rw [if_neg hdup] at hcase2
                have hsmo2 : smo2 = smo0 ++ [(d.SourceMap.offset, ⟨d.SourceMap.length, k⟩)] := by
                  cases hcase2; rfl
                subst hsmo2
                rcases List.mem_append.mp hp with hh | hh
                · exact hinv p hh
                · have hpk : p = (d.SourceMap.offset, ⟨d.SourceMap.length, k⟩) := by
                    simpa using hh
                  subst hpk
                  intro hks
                  have : k = spec := hks
                  subst this
                  have := hzero (.data d) (List.mem_cons_self _ _) d rfl
                  omega
          · rw [if_neg hpend] at hcase2
            have hsmo2 : smo2 = smo0 := by cases hcase2; rfl
            subst hsmo2
            exact hinv p hp
    | redirect r =>
      subst hv
      simp only [buildOffsets] at hbo
      exact ih so0 smo0 so smo hbo
        (fun v2 hm dd hdd => hzero v2 (List.mem_cons_of_mem _ hm) dd hdd) hinv
    | npm n =>
      subst hv
      simp only [buildOffsets] at hbo
      exact ih so0 smo0 so smo hbo
        (fun v2 hm dd hdd => hzero v2 (List.mem_cons_of_mem _ hm) dd hdd) hinv

/-- C10: a Module frame whose source or source-map offset is nonzero but
whose length is zero gives a Pending slot (`pending_or_empty` is Pending
whenever the pair is not `(0,0)`); such a slot — `sel = false` selects the
source slot, `sel = true` the source-map slot — is excluded from the
corresponding offset index built by the parser (only Pending slots of
positive length are indexed); and the completion task therefore never fills
it: whatever the completion task's input and outcome, that slot ends Ready
with nil bytes, and reading the slot yields nil without error. -/
theorem zeroLenPending_resolved (modules : ModuleMap)
    (npmSnapshot : Option NpmResolutionSnapshot) (options0 : Options)
    (version0 : EszipVersion) (spec : List Nat) (d : ModuleData) (off : Nat)
    (sel : Bool)
    (hnodup : NodupKeysB modules = true)
    (hget : modules.Get spec = some (.data d))
    (hslot : (if sel then d.SourceMap else d.Source) = .pending off 0)
    (so smo : List (Nat × sourceOffsetEntry))
    (hbo : buildOffsets modules [] [] = .ok (so, smo))
    (ctx : Nat → Option ParseErr) (input : List Nat) (options : Options) :
    (off ≠ 0 → pendingOrEmpty off 0 = .pending off 0) ∧
    (∀ p ∈ (if sel then smo else so), p.2.specifier ≠ spec) ∧
    slotOf sel (loadSources ctx input
        ⟨modules, npmSnapshot, options0, version0⟩ options so smo).1.modules spec =
      some (.ready Option.none) ∧
    SourceSlot.getNow (.ready Option.none) = some Option.none := by
  have hzero : ∀ v : MapEntry, (spec, v) ∈ modules → ∀ dd : ModuleData,
      v = .data dd → (if sel then dd.SourceMap else dd.Source).length = 0 := by
    intro v hmem dd hdd
    have := get_of_mem_nodup hnodup hmem
    rw [hget] at this
    have hv : v = .data d := by
      injection this with h
      exact h.symm
    rw [hdd] at hv
    injection hv with h
    rw [h, hslot]
    rfl
  have havoidSel : ∀ p ∈ (if sel then smo else so), p.2.specifier ≠ spec := by
    cases sel with
    | false =>
      exact buildOffsets_avoid spec modules [] [] so smo hbo hzero
        (by intro p hp; cases hp)
    | true =>
      exact buildOffsets_avoid_map spec modules [] [] so smo hbo hzero
        (by intro p hp; cases hp)
  have havoidSo : false = sel → ∀ p ∈ so, p.2.specifier ≠ spec := by
    intro hfs
    cases hfs
    exact havoidSel
  have havoidSmo : true = sel → ∀ p ∈ smo, p.2.specifier ≠ spec := by
    intro hts
    cases hts
    exact havoidSel
  refine ⟨?_, havoidSel, ?_, rfl⟩
  · intro hoff
    unfold pendingOrEmpty
    rw [if_neg (by simp [hoff])]
    rfl
  · have hinit : slotOf sel modules spec = some (.pending off 0) := by
      unfold slotOf
      rw [hget]
      show some (if sel then d.SourceMap else d.Source) = some (.pending off 0)
      rw [hslot]
    unfold loadSources
    rcases h1 : loadSection ctx input options so false
        ⟨modules, npmSnapshot, options0, version0⟩ with ⟨e1, rest1, err1⟩
    have hs1 : slotOf sel e1.modules spec = some (.pending off 0) := by
      have := slotOf_loadSection_avoid ctx input options so spec false sel
        ⟨modules, npmSnapshot, options0, version0⟩ havoidSo
      rw [h1] at this
      rw [this]
      exact hinit
    cases err1 with
    | some err =>
      simp only
      rw [slotOf_resolve, hs1]
      rfl
    | none =>
      simp only
      rcases h2 : loadSection ctx rest1 options smo true e1 with ⟨e2, rest2, err2⟩
      have hs2 : slotOf sel e2.modules spec = some (.pending off 0) := by
        have := slotOf_loadSection_avoid ctx rest1 options smo spec true sel e1
          havoidSmo
        rw [h2] at this
        rw [this]
        exact hs1
      cases err2 with
      | some err =>
        simp only
        rw [slotOf_resolve, hs2]
        rfl
      | none =>
        simp only
        rw [slotOf_resolve, hs2]
        rfl

/-- Witness for C10: a one-module map whose source slot is Pending at offset
7 with length 0 and whose source-map slot is Pending at offset 9 with
length 0; both offset indices are empty and the completion task (on a
malformed empty input) leaves both slots Ready(nil): the theorem applied at
`sel = false` settles the source slot and at `sel = true` the source-map
slot. -/
theorem zeroLenPending_resolved_witness :
    ((7 ≠ 0 → pendingOrEmpty 7 0 = .pending 7 0) ∧
      (∀ p ∈ ([] : List (Nat × sourceOffsetEntry)), p.2.specifier ≠ [97]) ∧
      slotOf false (loadSources noCancel []
          ⟨[([97], .data ⟨.javaScript, .pending 7 0, .pending 9 0⟩)],
            Option.none, ⟨.none, 0⟩, .v2_3⟩ ⟨.none, 0⟩ [] []).1.modules [97] =
        some (.ready Option.none) ∧
      SourceSlot.getNow (.ready Option.none) = some Option.none) ∧
    ((9 ≠ 0 → pendingOrEmpty 9 0 = .pending 9 0) ∧
      (∀ p ∈ ([] : List (Nat × sourceOffsetEntry)), p.2.specifier ≠ [97]) ∧
      slotOf true (loadSources noCancel []
          ⟨[([97], .data ⟨.javaScript, .pending 7 0, .pending 9 0⟩)],
            Option.none, ⟨.none, 0⟩, .v2_3⟩ ⟨.none, 0⟩ [] []).1.modules [97] =
        some (.ready Option.none) ∧
      SourceSlot.getNow (.ready Option.none) = some Option.none) :=
  ⟨zeroLenPending_resolved
      [([97], .data ⟨.javaScript, .pending 7 0, .pending 9 0⟩)]
      Option.none ⟨.none, 0⟩ .v2_3 [97]
      ⟨.javaScript, .pending 7 0, .pending 9 0⟩ 7 false
      (by decide) (by decide) rfl [] [] rfl noCancel [] ⟨.none, 0⟩,
    zeroLenPending_resolved
      [([97], .data ⟨.javaScript, .pending 7 0, .pending 9 0⟩)]
      Option.none ⟨.none, 0⟩ .v2_3 [97]
      ⟨.javaScript, .pending 7 0, .pending 9 0⟩ 9 true
      (by decide) (by decide) rfl [] [] rfl noCancel [] ⟨.none, 0⟩⟩

theorem bytesLt_irrefl : ∀ a : List Nat, bytesLt a a = false := by
  intro a
  induction a with
  | nil => rfl
  | cons x xs ih => simp [bytesLt, ih]

theorem bytesLt_total : ∀ a b : List Nat,
    bytesLt a b = true ∨ a = b ∨ bytesLt b a = true := by
  intro a
  induction a with
  | nil =>
    intro b
    cases b with
    | nil => exact Or.inr (Or.inl rfl)
    | cons y ys => exact Or.inl rfl
  | cons x xs ih =>
    intro b
    cases b with
    | nil => exact Or.inr (Or.inr rfl)
    | cons y ys =>
      rcases Nat.lt_trichotomy x y with h | h | h
      · refine Or.inl ?_
        simp [bytesLt, h]
      · subst h
        rcases ih ys with h2 | h2 | h2
        · refine Or.inl ?_
          simp [bytesLt, h2]
        · subst h2
          exact Or.inr (Or.inl rfl)
        · refine Or.inr (Or.inr ?_)
          simp [bytesLt, h2]
      · refine Or.inr (Or.inr ?_)
        simp [bytesLt, h]

theorem insertSorted_perm {α : Type} (key : α → List Nat) (a : α) :
    ∀ l : List α, (insertSorted key a l).Perm (a :: l) := by
  intro l
  induction l with
  | nil => exact List.Perm.refl _
  | cons b bs ih =>
    unfold insertSorted
    by_cases h : bytesLt (key a) (key b)
    · rw [if_pos h]
    · rw [if_neg h]
      exact (List.Perm.cons b ih).trans (List.Perm.swap a b bs)

theorem bytesLt_trans : ∀ a b c : List Nat,
    bytesLt a b = true → bytesLt b c = true → bytesLt a c = true := by
  intro a
  induction a with
  | nil =>
    intro b c hab hbc
    cases b with
    | nil => simpa [bytesLt] using hab
    | cons y ys =>
      cases c with
      | nil => simpa [bytesLt] using hbc
      | cons z zs => rfl
  | cons x xs ih =>
    intro b c hab hbc
    cases b with
    | nil => simpa [bytesLt] using hab
    | cons y ys =>
      cases c with
      | nil => simpa [bytesLt] using hbc
      | cons z zs =>
        simp only [bytesLt, Bool.or_eq_true, Bool.and_eq_true, decide_eq_true_eq]
          at hab hbc ⊢
        rcases hab with hab | ⟨he1, hr1⟩
        · rcases hbc with hbc | ⟨he2, hr2⟩
          · exact Or.inl (by omega)
          · exact Or.inl (by omega)
        · rcases hbc with hbc | ⟨he2, hr2⟩
          · exact Or.inl (by omega)
          · exact Or.inr ⟨by omega, ih ys zs hr1 hr2⟩

theorem bytesLt_asymm (a b : List Nat) (h : bytesLt a b = true) :
    bytesLt b a = false := by
  by_contra hcon
  have h2 : bytesLt b a = true := by
    cases hb : bytesLt b a
    · exact absurd hb hcon
    · rfl
  have h3 := bytesLt_trans a b a h h2
  rw [bytesLt_irrefl] at h3
  cases h3

theorem insertSorted_sorted {α : Type} (key : α → List Nat) (a : α) :
    ∀ l : List α,
    l.Pairwise (fun x y => bytesLt (key x) (key y) = true ∨ key x = key y) →
    (insertSorted key a l).Pairwise
      (fun x y => bytesLt (key x) (key y) = true ∨ key x = key y) := by
  intro l
  induction l with
  | nil =>
    intro _
    exact List.Pairwise.cons (by intro y hy; cases hy) List.Pairwise.nil
  | cons b bs ih =>
    intro hs
    have hbbs := List.pairwise_cons.mp hs
    unfold insertSorted
    by_cases h : bytesLt (key a) (key b)
    · rw [if_pos h]
      refine List.Pairwise.cons ?_ hs
      intro y hy
      rcases List.mem_cons.mp hy with hy | hy
      · subst hy; exact Or.inl h
      · rcases hbbs.1 y hy with h2 | h2
        · exact Or.inl (bytesLt_trans _ _ _ h h2)
        · rw [← h2]; exact Or.inl h
    · rw [if_neg h]
      refine List.Pairwise.cons ?_ (ih hbbs.2)
      intro y hy
      have hmem := (insertSorted_perm key a bs).mem_iff.mp hy
      rcases List.mem_cons.mp hmem with hy2 | hy2
      · subst hy2
        rcases bytesLt_total (key b) (key y) with h3 | h3 | h3
        · exact Or.inl h3
        · exact Or.inr h3
        · exact absurd h3 h
      · exact hbbs.1 y hy2

theorem sortOn_cons {α : Type} (key : α → List Nat) (a : α) (l : List α) :
    sortOn key (a :: l) = insertSorted key a (sortOn key l) := rfl

theorem sortOn_perm {α : Type} (key : α → List Nat) :
    ∀ l : List α, (sortOn key l).Perm l := by
  intro l
  induction l with
  | nil => exact List.Perm.refl _
  | cons a t ih =>
    rw [sortOn_cons]
    exact (insertSorted_perm key a (sortOn key t)).trans (List.Perm.cons a ih)

theorem sortOn_sorted {α : Type} (key : α → List Nat) :
    ∀ l : List α, (sortOn key l).Pairwise
      (fun x y => bytesLt (key x) (key y) = true ∨ key x = key y) := by
  intro l
  induction l with
  | nil => exact List.Pairwise.nil
  | cons a t ih =>
    rw [sortOn_cons]
    exact insertSorted_sorted key a (sortOn key t) ih

theorem sorted_perm_eq {α : Type} (key : α → List Nat) :
    ∀ l₁ l₂ : List α, l₁.Perm l₂ →
    l₁.Pairwise (fun x y => bytesLt (key x) (key y) = true ∨ key x = key y) →
    l₂.Pairwise (fun x y => bytesLt (key x) (key y) = true ∨ key x = key y) →
    (l₁.map key).Nodup → l₁ = l₂ := by
  intro l₁
  induction l₁ with
  | nil =>
    intro l₂ hperm _ _ _
    exact (hperm.symm.eq_nil).symm ▸ rfl
  | cons a as ih =>
    intro l₂ hperm hs1 hs2 hnd
    cases l₂ with
    | nil => exact absurd hperm.eq_nil (by simp)
    | cons b bs =>
      by_cases hab : a = b
      · subst hab
        have htail := hperm.cons_inv
        have h1 := List.pairwise_cons.mp hs1
        have h2 := List.pairwise_cons.mp hs2
        have hnd2 : (as.map key).Nodup := by
          simp only [List.map_cons, List.nodup_cons] at hnd
          exact hnd.2
        rw [ih bs htail h1.2 h2.2 hnd2]
      · have hamem : a ∈ bs := by
          rcases List.mem_cons.mp (hperm.mem_iff.mp (List.mem_cons_self a as)) with h | h
          · exact absurd h hab
          · exact h
        have hbmem : b ∈ as := by
          rcases List.mem_cons.mp (hperm.mem_iff.mpr (List.mem_cons_self b bs)) with h | h
          · exact absurd h.symm hab
          · exact h
        have hkab := (List.pairwise_cons.mp hs1).1 b hbmem
        have hkba := (List.pairwise_cons.mp hs2).1 a hamem
        have hknd : key a ∉ as.map key := by
          simp only [List.map_cons, List.nodup_cons] at hnd
          exact hnd.1
        have hkne : key a ≠ key b := by
          intro he
          exact hknd (he ▸ List.mem_map.mpr ⟨b, hbmem, rfl⟩)
        rcases hkab with hlt | heq
        · rcases hkba with hlt2 | heq2
          · rw [bytesLt_asymm _ _ hlt] at hlt2
            cases hlt2
          · exact absurd heq2.symm hkne
        · exact absurd heq hkne

theorem forall2_insertSorted {α : Type} (R : α → α → Prop) (key : α → List Nat)
    (hkey : ∀ x y, R x y → key x = key y) (a b : α) (hab : R a b) :
    ∀ {l l' : List α}, List.Forall₂ R l l' →
    List.Forall₂ R (insertSorted key a l) (insertSorted key b l') := by
  intro l l' h
  induction h with
  | nil => exact List.Forall₂.cons hab List.Forall₂.nil
  | cons hxy ht ih =>
    rename_i x y t t'
    unfold insertSorted
    rw [hkey a b hab, hkey x y hxy]
    by_cases hc : bytesLt (key b) (key y)
    · rw [if_pos hc, if_pos hc]
      exact List.Forall₂.cons hab (List.Forall₂.cons hxy ht)
    · rw [if_neg hc, if_neg hc]
      exact List.Forall₂.cons hxy ih

theorem forall2_sortOn {α : Type} (R : α → α → Prop) (key : α → List Nat)
    (hkey : ∀ x y, R x y → key x = key y) :
    ∀ {l l' : List α}, List.Forall₂ R l l' →
    List.Forall₂ R (sortOn key l) (sortOn key l') := by
  intro l l' h
  induction h with
  | nil => exact List.Forall₂.nil
  | cons hxy ht ih =>
    rw [sortOn_cons, sortOn_cons]
    exact forall2_insertSorted R key hkey _ _ hxy ih

theorem pkgEquiv_key {p q : NpmPackage} (h : pkgEquiv p q) :
    p.ID.idString = q.ID.idString := by
  rw [h.1]

theorem idIndexLookup_foldl_congr :
    ∀ {P Q : List NpmPackage}, List.Forall₂ pkgEquiv P Q →
    ∀ (n : Nat) (acc : Option Nat) (id : List Nat),
    ((List.enumFrom n P).foldl
      (fun acc p => if p.2.ID.idString = id then some p.1 else acc) acc) =
    ((List.enumFrom n Q).foldl
      (fun acc p => if p.2.ID.idString = id then some p.1 else acc) acc) := by
  intro P Q h
  induction h with
  | nil => intro n acc id; rfl
  | cons hxy ht ih =>
    intro n acc id
    rename_i x y t t'
    simp only [List.enumFrom, List.foldl_cons]
    rw [pkgEquiv_key hxy]
    exact ih (n + 1) _ id

theorem idIndexLookup_congr {P Q : List NpmPackage}
    (h : List.Forall₂ pkgEquiv P Q) : idIndexLookup P = idIndexLookup Q := by
  funext id
  unfold idIndexLookup
  have hq := idIndexLookup_foldl_congr h 0 Option.none id
  simpa [List.enum] using hq

theorem buildPkgBytes_congr (idx : List Nat → Option Nat) :
    ∀ {P Q : List NpmPackage}, List.Forall₂ pkgEquiv P Q →
    (∀ p ∈ P, NodupKeysB p.Dependencies = true) →
    buildPkgBytes idx P = buildPkgBytes idx Q := by
  intro P Q h
  induction h with
  | nil => intro _; rfl
  | cons hxy ht ih =>
    intro hnd
    rename_i p q t t'
    have hdeps : sortOn Prod.fst (p.Dependencies.map (fun r => (r.1, r.2.idString))) =
        sortOn Prod.fst (q.Dependencies.map (fun r => (r.1, r.2.idString))) := by
      apply sorted_perm_eq Prod.fst
      · exact (sortOn_perm _ _).trans ((hxy.2.map _).trans (sortOn_perm _ _).symm)
      · exact sortOn_sorted _ _
      · exact sortOn_sorted _ _
      · have hperm : ((sortOn Prod.fst
            (p.Dependencies.map (fun r => (r.1, r.2.idString)))).map Prod.fst).Perm
            (p.Dependencies.map Prod.fst) := by
          have h1 := (sortOn_perm Prod.fst
            (p.Dependencies.map (fun r => (r.1, r.2.idString)))).map Prod.fst
          have h2 : (p.Dependencies.map (fun r => (r.1, r.2.idString))).map Prod.fst =
              p.Dependencies.map Prod.fst := by
            rw [List.map_map]; rfl
          rw [h2] at h1
          exact h1
        refine hperm.symm.nodup ?_
        have := hnd p (List.mem_cons_self p t)
        simpa [NodupKeysB] using this
    have hlen : p.Dependencies.length = q.Dependencies.length := hxy.2.length_eq
    unfold buildPkgBytes
    rw [← pkgEquiv_key hxy, ← hdeps, ← hlen]
    rw [ih (fun r hr => hnd r (List.mem_cons_of_mem p hr))]

theorem buildNpmPart_congr (s t : NpmResolutionSnapshot) (hequiv : snapEquiv s t)
    (hnd : snapNodupB s = true) : buildNpmPart s = buildNpmPart t := by
  obtain ⟨hpkgs, hroots⟩ := hequiv
  have hsorted : List.Forall₂ pkgEquiv (sortOn (fun p => p.ID.idString) s.Packages)
      (sortOn (fun p => p.ID.idString) t.Packages) :=
    forall2_sortOn pkgEquiv _ (fun x y h => pkgEquiv_key h) hpkgs
  have hidx : idIndexLookup (sortOn (fun p => p.ID.idString) s.Packages) =
      idIndexLookup (sortOn (fun p => p.ID.idString) t.Packages) :=
    idIndexLookup_congr hsorted
  simp only [snapNodupB, Bool.and_eq_true] at hnd
  have hrootsorted : sortOn Prod.fst (s.RootPackages.map (fun p => (p.1, p.2.idString))) =
      sortOn Prod.fst (t.RootPackages.map (fun p => (p.1, p.2.idString))) := by
    apply sorted_perm_eq Prod.fst
    · exact (sortOn_perm _ _).trans ((hroots.map _).trans (sortOn_perm _ _).symm)
    · exact sortOn_sorted _ _
    · exact sortOn_sorted _ _
    · have hperm : ((sortOn Prod.fst
          (s.RootPackages.map (fun p => (p.1, p.2.idString)))).map Prod.fst).Perm
          (s.RootPackages.map Prod.fst) := by
        have h1 := (sortOn_perm Prod.fst
          (s.RootPackages.map (fun p => (p.1, p.2.idString)))).map Prod.fst
        have h2 : (s.RootPackages.map (fun p => (p.1, p.2.idString))).map Prod.fst =
            s.RootPackages.map Prod.fst := by
          rw [List.map_map]; rfl
        rw [h2] at h1
        exact h1
      refine hperm.symm.nodup ?_
      simpa [NodupKeysB] using hnd.1
  have hpkbytes : buildPkgBytes (idIndexLookup (sortOn (fun p => p.ID.idString) s.Packages))
      (sortOn (fun p => p.ID.idString) s.Packages) =
      buildPkgBytes (idIndexLookup (sortOn (fun p => p.ID.idString) s.Packages))
        (sortOn (fun p => p.ID.idString) t.Packages) := by
    apply buildPkgBytes_congr _ hsorted
    intro p hp
    have hmem : p ∈ s.Packages := (sortOn_perm _ _).mem_iff.mp hp
    have := List.all_eq_true.mp hnd.2 p hmem
    simpa using this
  simp only [buildNpmPart]
  rw [← hrootsorted, ← hidx, ← hpkbytes]

theorem slice_at (pre mid post : List Nat) :
    ((pre ++ (mid ++ post)).drop pre.length).take mid.length = mid := by
  rw [List.drop_left, List.take_left]

theorem getD_at_head (P rest : List Nat) (x : Nat) :
    (P ++ ([x] ++ rest)).getD P.length 0 = x := by
  have := getD_concat_at P [x] rest 0 0 (by simp)
  simpa using this

theorem moduleKind_fromByte_toByte (kind : ModuleKind) :
    ModuleKind.fromByte kind.toByte = some kind := by
  cases kind <;> rfl

theorem moduleFrame_length (k : List Nat) (so sl mo ml : Nat) (kind : ModuleKind) :
    (moduleFrame k so sl mo ml kind).length = k.length + 22 := by
  simp only [moduleFrame, List.length_append, u32Bytes_length, List.length_cons,
    List.length_nil]
  omega

theorem redirectFrame_length (k t : List Nat) :
    (redirectFrame k t).length = k.length + t.length + 9 := by
  simp only [redirectFrame, List.length_append, u32Bytes_length, List.length_cons,
    List.length_nil]
  omega

theorem npmFrame_length (k : List Nat) (id : Nat) :
    (npmFrame k id).length = k.length + 9 := by
  simp only [npmFrame, List.length_append, u32Bytes_length, List.length_cons,
    List.length_nil]
  omega

theorem parseLoop_moduleFrame (sn : Bool) (pre post k : List Nat)
    (so sl mo ml : Nat) (kind : ModuleKind) (fuel : Nat)
    (hk : k.length < 4294967296) (hso : so < 4294967296) (hsl : sl < 4294967296)
    (hmo : mo < 4294967296) (hml : ml < 4294967296)
    (M : ModuleMap) (N : List (List Nat × Nat)) :
    parseModulesLoop (pre ++ (moduleFrame k so sl mo ml kind ++ post)) sn (fuel + 1)
        pre.length M N =
      parseModulesLoop (pre ++ (moduleFrame k so sl mo ml kind ++ post)) sn fuel
        (pre.length + (k.length + 22))
        (M.Insert k (.data
          { Kind := kind
            Source := pendingOrEmpty so sl
            SourceMap := pendingOrEmpty mo ml })) N := by
  set C := pre ++ (moduleFrame k so sl mo ml kind ++ post) with hCdef
  have hClen : C.length = pre.length + (k.length + 22) + post.length := by
    simp only [hCdef, List.length_append, moduleFrame_length]
    omega
  have hg1 : getU32 C pre.length = k.length := by
    rw [show C = pre ++ (u32Bytes k.length ++ (k ++ ([0] ++ (u32Bytes so ++
        (u32Bytes sl ++ (u32Bytes mo ++ (u32Bytes ml ++ ([kind.toByte] ++ post))))))))
      by simp [hCdef, moduleFrame]]
    exact getU32_appendAt _ _ _ hk
  have hspec : (C.drop (pre.length + 4)).take k.length = k := by
    rw [show pre.length + 4 = (pre ++ u32Bytes k.length).length
      by simp only [List.length_append, u32Bytes_length]]
    rw [show C = (pre ++ u32Bytes k.length) ++ (k ++ ([0] ++ (u32Bytes so ++
        (u32Bytes sl ++ (u32Bytes mo ++ (u32Bytes ml ++ ([kind.toByte] ++ post)))))))
      by simp [hCdef, moduleFrame]]
    exact slice_at _ _ _
  have hek : C.getD (pre.length + 4 + k.length) 0 = 0 := by
    rw [show pre.length + 4 + k.length = (pre ++ u32Bytes k.length ++ k).length
      by simp only [List.length_append, u32Bytes_length]]
    rw [show C = (pre ++ u32Bytes k.length ++ k) ++ ([0] ++ (u32Bytes so ++
        (u32Bytes sl ++ (u32Bytes mo ++ (u32Bytes ml ++ ([kind.toByte] ++ post))))))
      by simp [hCdef, moduleFrame]]
    exact getD_at_head _ _ _
  have hgso : getU32 C (pre.length + 4 + k.length + 1) = so := by
    rw [show pre.length + 4 + k.length + 1 = (pre ++ u32Bytes k.length ++ k ++ [0]).length
      by simp only [List.length_append, u32Bytes_length, List.length_cons,
        List.length_nil]]
    rw [show C = (pre ++ u32Bytes k.length ++ k ++ [0]) ++ (u32Bytes so ++
        (u32Bytes sl ++ (u32Bytes mo ++ (u32Bytes ml ++ ([kind.toByte] ++ post)))))
      by simp [hCdef, moduleFrame]]
    exact getU32_appendAt _ _ _ hso
  have hgsl : getU32 C (pre.length + 4 + k.length + 1 + 4) = sl := by
    rw [show pre.length + 4 + k.length + 1 + 4 =
        (pre ++ u32Bytes k.length ++ k ++ [0] ++ u32Bytes so).length
      by simp only [List.length_append, u32Bytes_length, List.length_cons,
        List.length_nil]]
    rw [show C = (pre ++ u32Bytes k.length ++ k ++ [0] ++ u32Bytes so) ++
        (u32Bytes sl ++ (u32Bytes mo ++ (u32Bytes ml ++ ([kind.toByte] ++ post))))
      by simp [hCdef, moduleFrame]]
    exact getU32_appendAt _ _ _ hsl
  have hgmo : getU32 C (pre.length + 4 + k.length + 1 + 8) = mo := by
    rw [show pre.length + 4 + k.length + 1 + 8 =
        (pre ++ u32Bytes k.length ++ k ++ [0] ++ u32Bytes so ++ u32Bytes sl).length
      by simp only [List.length_append, u32Bytes_length, List.length_cons,
        List.length_nil]]
    rw [show C = (pre ++ u32Bytes k.length ++ k ++ [0] ++ u32Bytes so ++ u32Bytes sl) ++
        (u32Bytes mo ++ (u32Bytes ml ++ ([kind.toByte] ++ post)))
      by simp [hCdef, moduleFrame]]
    exact getU32_appendAt _ _ _ hmo
  have hgml : getU32 C (pre.length + 4 + k.length + 1 + 12) = ml := by
    rw [show pre.length + 4 + k.length + 1 + 12 =
        (pre ++ u32Bytes k.length ++ k ++ [0] ++ u32Bytes so ++ u32Bytes sl ++
          u32Bytes mo).length
      by simp only [List.length_append, u32Bytes_length, List.length_cons,
        List.length_nil]]
    rw [show C = (pre ++ u32Bytes k.length ++ k ++ [0] ++ u32Bytes so ++ u32Bytes sl ++
        u32Bytes mo) ++ (u32Bytes ml ++ ([kind.toByte] ++ post))
      by simp [hCdef, moduleFrame]]
    exact getU32_appendAt _ _ _ hml
  have hkb : C.getD (pre.length + 4 + k.length + 1 + 16) 0 = kind.toByte := by
    rw [show pre.length + 4 + k.length + 1 + 16 =
        (pre ++ u32Bytes k.length ++ k ++ [0] ++ u32Bytes so ++ u32Bytes sl ++
          u32Bytes mo ++ u32Bytes ml).length
      by simp only [List.length_append, u32Bytes_length, List.length_cons,
        List.length_nil]]
    rw [show C = (pre ++ u32Bytes k.length ++ k ++ [0] ++ u32Bytes so ++ u32Bytes sl ++
        u32Bytes mo ++ u32Bytes ml) ++ ([kind.toByte] ++ post)
      by simp [hCdef, moduleFrame]]
    exact getD_at_head _ _ _
  rw [parseModulesLoop]
  rw [if_pos (by omega)]
  rw [if_neg (by omega)]
  rw [hg1]
  rw [if_neg (by omega)]
  rw [hspec]
  rw [if_neg (by omega)]
  rw [hek]
  rw [if_pos rfl]
  rw [if_neg (by omega)]
  rw [hgso, hgsl, hgmo, hgml, hkb]
  simp only [moduleKind_fromByte_toByte]
  have e2 : pre.length + 4 + k.length + 1 + 17 = pre.length + (k.length + 22) := by omega
  rw [e2]

theorem parseLoop_redirectFrame (sn : Bool) (pre post k t : List Nat) (fuel : Nat)
    (hk : k.length < 4294967296) (ht : t.length < 4294967296)
    (M : ModuleMap) (N : List (List Nat × Nat)) :
    parseModulesLoop (pre ++ (redirectFrame k t ++ post)) sn (fuel + 1)
        pre.length M N =
      parseModulesLoop (pre ++ (redirectFrame k t ++ post)) sn fuel
        (pre.length + (k.length + t.length + 9))
        (M.Insert k (.redirect ⟨t⟩)) N := by
  set C := pre ++ (redirectFrame k t ++ post) with hCdef
  have hClen : C.length = pre.length + (k.length + t.length + 9) + post.length := by
    simp only [hCdef, List.length_append, redirectFrame_length]
    omega
  have hg1 : getU32 C pre.length = k.length := by
    rw [show C = pre ++ (u32Bytes k.length ++ (k ++ ([1] ++ (u32Bytes t.length ++
        (t ++ post))))) by simp [hCdef, redirectFrame]]
    exact getU32_appendAt _ _ _ hk
  have hspec : (C.drop (pre.length + 4)).take k.length = k := by
    rw [show pre.length + 4 = (pre ++ u32Bytes k.length).length
      by simp only [List.length_append, u32Bytes_length]]
    rw [show C = (pre ++ u32Bytes k.length) ++ (k ++ ([1] ++ (u32Bytes t.length ++
        (t ++ post)))) by simp [hCdef, redirectFrame]]
    exact slice_at _ _ _
  have hek : C.getD (pre.length + 4 + k.length) 0 = 1 := by
    rw [show pre.length + 4 + k.length = (pre ++ u32Bytes k.length ++ k).length
      by simp only [List.length_append, u32Bytes_length]]
    rw [show C = (pre ++ u32Bytes k.length ++ k) ++ ([1] ++ (u32Bytes t.length ++
        (t ++ post))) by simp [hCdef, redirectFrame]]
    exact getD_at_head _ _ _
  have hgt : getU32 C (pre.length + 4 + k.length + 1) = t.length := by
    rw [show pre.length + 4 + k.length + 1 = (pre ++ u32Bytes k.length ++ k ++ [1]).length
      by simp only [List.length_append, u32Bytes_length, List.length_cons,
        List.length_nil]]
    rw [show C = (pre ++ u32Bytes k.length ++ k ++ [1]) ++ (u32Bytes t.length ++
        (t ++ post)) by simp [hCdef, redirectFrame]]
    exact getU32_appendAt _ _ _ ht
  have htg : (C.drop (pre.length + 4 + k.length + 1 + 4)).take t.length = t := by
    rw [show pre.length + 4 + k.length + 1 + 4 =
        (pre ++ u32Bytes k.length ++ k ++ [1] ++ u32Bytes t.length).length
      by simp only [List.length_append, u32Bytes_length, List.length_cons,
        List.length_nil]]
    rw [show C = (pre ++ u32Bytes k.length ++ k ++ [1] ++ u32Bytes t.length) ++
        (t ++ post) by simp [hCdef, redirectFrame]]
    exact slice_at _ _ _
  rw [parseModulesLoop]
  rw [if_pos (by omega)]
  rw [if_neg (by omega)]
  rw [hg1]
  rw [if_neg (by omega)]
  rw [hspec]
  rw [if_neg (by omega)]
  rw [hek]
  rw [if_neg (by omega)]
  rw [if_pos rfl]
  rw [if_neg (by omega)]
  rw [hgt]
  rw [if_neg (by omega)]
  rw [htg]
  have e2 : pre.length + 4 + k.length + 1 + 4 + t.length =
      pre.length + (k.length + t.length + 9) := by omega
  rw [e2]

theorem parseLoop_npmFrame (pre post k : List Nat) (id : Nat) (fuel : Nat)
    (hk : k.length < 4294967296) (hid : id < 4294967296)
    (M : ModuleMap) (N : List (List Nat × Nat)) :
    parseModulesLoop (pre ++ (npmFrame k id ++ post)) true (fuel + 1)
        pre.length M N =
      parseModulesLoop (pre ++ (npmFrame k id ++ post)) true fuel
        (pre.length + (k.length + 9)) M (npmSpecInsert N k id) := by
  set C := pre ++ (npmFrame k id ++ post) with hCdef
  have hClen : C.length = pre.length + (k.length + 9) + post.length := by
    simp only [hCdef, List.length_append, npmFrame_length]
    omega
  have hg1 : getU32 C pre.length = k.length := by
    rw [show C = pre ++ (u32Bytes k.length ++ (k ++ ([2] ++ (u32Bytes id ++ post))))
      by simp [hCdef, npmFrame]]
    exact getU32_appendAt _ _ _ hk
  have hspec : (C.drop (pre.length + 4)).take k.length = k := by
    rw [show pre.length + 4 = (pre ++ u32Bytes k.length).length
      by simp only [List.length_append, u32Bytes_length]]
    rw [show C = (pre ++ u32Bytes k.length) ++ (k ++ ([2] ++ (u32Bytes id ++ post)))
      by simp [hCdef, npmFrame]]
    exact slice_at _ _ _
  have hek : C.getD (pre.length + 4 + k.length) 0 = 2 := by
    rw [show pre.length + 4 + k.length = (pre ++ u32Bytes k.length ++ k).length
      by simp only [List.length_append, u32Bytes_length]]
    rw [show C = (pre ++ u32Bytes k.length ++ k) ++ ([2] ++ (u32Bytes id ++ post))
      by simp [hCdef, npmFrame]]
    exact getD_at_head _ _ _
  have hgid : getU32 C (pre.length + 4 + k.length + 1) = id := by
    rw [show pre.length + 4 + k.length + 1 = (pre ++ u32Bytes k.length ++ k ++ [2]).length
      by simp only [List.length_append, u32Bytes_length, List.length_cons,
        List.length_nil]]
    rw [show C = (pre ++ u32Bytes k.length ++ k ++ [2]) ++ (u32Bytes id ++ post)
      by simp [hCdef, npmFrame]]
    exact getU32_appendAt _ _ _ hid
  rw [parseModulesLoop]
  rw [if_pos (by omega)]
  rw [if_neg (by omega)]
  rw [hg1]
  rw [if_neg (by omega)]
  rw [hspec]
  rw [if_neg (by omega)]
  rw [hek]
  rw [if_neg (by omega)]
  rw [if_neg (by omega)]
  rw [if_pos rfl]
  rw [if_neg (by simp)]
  rw [if_neg (by omega)]
  rw [hgid]
  have e2 : pre.length + 4 + k.length + 1 + 4 = pre.length + (k.length + 9) := by omega
  rw [e2]

/-- C2: serialization is a function of the archive state alone: two archive
values denoting the same state — identical module map, options and
version, and the same npm snapshot up to the arbitrary iteration order of
its Go maps (root packages and per-package dependency maps) — serialize to
byte-identical output.  The module-map iteration order is the map's own
deterministic order, and the writer sorts the npm roots, packages and
dependencies, so the emitted bytes do not depend on map iteration order. -/
theorem intoBytes_deterministic (a b : EszipV2) (h : archiveStateEquiv a b)
    (hnd : ∀ s, a.npmSnapshot = some s → snapNodupB s = true) :
    a.IntoBytes = b.IntoBytes := by
  obtain ⟨hm, ho, hv, hsnap⟩ := h
  unfold EszipV2.IntoBytes
  rw [hm, ho, hv]
  cases ha : a.npmSnapshot with
  | none =>
    cases hb : b.npmSnapshot with
    | none => rfl
    | some t => rw [ha, hb] at hsnap; cases hsnap
  | some s =>
    cases hb : b.npmSnapshot with
    | none => rw [ha, hb] at hsnap; cases hsnap
    | some t =>
      rw [ha, hb] at hsnap
      have hnp : buildNpmPart s = buildNpmPart t :=
        buildNpmPart_congr s t hsnap (hnd s ha)
      simp only [hnp]

/-- Witness for C2: the same snapshot with its root map and a dependency map
listed in two different iteration orders serializes identically. -/
theorem intoBytes_deterministic_witness :
    EszipV2.IntoBytes
        ⟨[([109], .data ⟨.javaScript, .ready (some [1]), .ready Option.none⟩)],
          some ⟨[⟨⟨[108], [49]⟩, [([97], ⟨[104], [50]⟩), ([98], ⟨[104], [50]⟩)]⟩,
                 ⟨⟨[104], [50]⟩, []⟩],
                [([114], ⟨[108], [49]⟩), ([115], ⟨[104], [50]⟩)]⟩,
          ⟨.none, 0⟩, .v2_3⟩ =
      EszipV2.IntoBytes
        ⟨[([109], .data ⟨.javaScript, .ready (some [1]), .ready Option.none⟩)],
          some ⟨[⟨⟨[108], [49]⟩, [([98], ⟨[104], [50]⟩), ([97], ⟨[104], [50]⟩)]⟩,
                 ⟨⟨[104], [50]⟩, []⟩],
                [([115], ⟨[104], [50]⟩), ([114], ⟨[108], [49]⟩)]⟩,
          ⟨.none, 0⟩, .v2_3⟩ := by
  apply intoBytes_deterministic
  · refine ⟨rfl, rfl, rfl, ?_⟩
    refine ⟨?_, ?_⟩
    · refine List.Forall₂.cons ⟨rfl, ?_⟩ (List.Forall₂.cons ⟨rfl, List.Perm.refl _⟩
        List.Forall₂.nil)
      exact List.Perm.swap _ _ _
    · exact List.Perm.swap _ _ _
  · intro s hs
    injection hs with hs
    rw [← hs]
    decide


theorem checksumFromU8_toByte (c : ChecksumType) : ChecksumFromU8 c.toByte = some c := by
  cases c <;> rfl

theorem takeExact_zero (l : List Nat) : takeExact 0 l = some ([], l) := by
  simp [takeExact]

theorem insert_fresh (m : ModuleMap) (k : List Nat) (v : MapEntry)
    (h : k ∉ m.map Prod.fst) : m.Insert k v = m ++ [(k, v)] := by
  unfold ModuleMap.Insert
  rw [if_neg]
  intro hc
  rw [List.any_eq_true] at hc
  obtain ⟨p, hp, hpk⟩ := hc
  rw [decide_eq_true_eq] at hpk
  exact h (hpk ▸ List.mem_map_of_mem Prod.fst hp)

theorem getNow_slotBytes {s : SourceSlot} {d : Option (List Nat)}
    (h : s.getNow = some d) : optBytes d = slotBytes s := by
  cases s with
  | pending o l => simp [SourceSlot.getNow] at h
  | ready dd =>
    simp only [SourceSlot.getNow, Option.some.injEq] at h
    subst h
    cases dd <;> rfl
  | taken =>
    simp only [SourceSlot.getNow, Option.some.injEq] at h
    subst h
    rfl

theorem appendPayload_ok {cs : ChecksumType} {hdr buf b hdr2 buf2 : List Nat}
    (h : appendPayload cs hdr buf b = .ok (hdr2, buf2)) :
    hdr2 = hdr ++ u32Bytes (if b.length = 0 then 0 else buf.length) ++ u32Bytes b.length ∧
    buf2 = buf ++ (if b.length = 0 then [] else b ++ cs.Hash b) ∧
    b.length ≤ maxUint32 := by
  unfold appendPayload at h
  by_cases h1 : b.length > maxUint32
  · rw [if_pos h1] at h; cases h
  · rw [if_neg h1] at h
    by_cases h2 : b.length > 0
    · rw [if_pos h2] at h
      by_cases h3 : buf.length > maxUint32
      · rw [if_pos h3] at h; cases h
      · rw [if_neg h3] at h
        injection h with h
        rw [Prod.mk.injEq] at h
        obtain ⟨ha, hb⟩ := h
        refine ⟨?_, ?_, by omega⟩
        · rw [← ha, if_neg (by omega)]
        · rw [← hb, if_neg (by omega)]
          simp [List.append_assoc]
    · rw [if_neg h2] at h
      injection h with h
      rw [Prod.mk.injEq] at h
      obtain ⟨ha, hb⟩ := h
      have hb0 : b.length = 0 := by omega
      refine ⟨?_, ?_, by omega⟩
      · rw [← ha, hb0, if_pos rfl]
      · rw [← hb, hb0]
        simp

theorem payload_srcChunks_cons (cs : ChecksumType) (k : List Nat) (d : ModuleData)
    (rest : List (List Nat × MapEntry)) :
    payloadOf cs (srcChunks ((k, .data d) :: rest)) =
      (if (slotBytes d.Source).length = 0 then []
        else slotBytes d.Source ++ cs.Hash (slotBytes d.Source)) ++
      payloadOf cs (srcChunks rest) := by
  by_cases h : (slotBytes d.Source).length = 0 <;>
    simp [srcChunks, payloadOf, h, List.append_assoc]

theorem payload_mapChunks_cons (cs : ChecksumType) (k : List Nat) (d : ModuleData)
    (rest : List (List Nat × MapEntry)) :
    payloadOf cs (mapChunks ((k, .data d) :: rest)) =
      (if (slotBytes d.SourceMap).length = 0 then []
        else slotBytes d.SourceMap ++ cs.Hash (slotBytes d.SourceMap)) ++
      payloadOf cs (mapChunks rest) := by
  by_cases h : (slotBytes d.SourceMap).length = 0 <;>
    simp [mapChunks, payloadOf, h, List.append_assoc]

theorem payload_block_length (cs : ChecksumType) (b : List Nat) :
    (if b.length = 0 then ([] : List Nat) else b ++ cs.Hash b).length =
      if b.length = 0 then 0 else b.length + (cs.Hash b).length := by
  by_cases h : b.length = 0 <;> simp [h]

theorem buildModulePart_ok (cs : ChecksumType) (L : List (List Nat × MapEntry)) :
    ∀ (hdr s m H S M : List Nat),
    buildModulePart cs L hdr s m = .ok (H, S, M) →
    H = hdr ++ framesOf cs s.length m.length L ∧
    S = s ++ payloadOf cs (srcChunks L) ∧
    M = m ++ payloadOf cs (mapChunks L) ∧
    (∀ p ∈ L, p.1.length ≤ maxUint32) ∧
    (∀ p ∈ L, ∀ r, p.2 = MapEntry.redirect r → r.Target.length ≤ maxUint32) ∧
    (∀ p ∈ L, ∀ d, p.2 = MapEntry.data d →
      (slotBytes d.Source).length ≤ maxUint32 ∧ (slotBytes d.SourceMap).length ≤ maxUint32) := by
  induction L with
  | nil =>
    intro hdr s m H S M h
    unfold buildModulePart at h
    injection h with h
    rw [Prod.mk.injEq] at h
    obtain ⟨h1, h2⟩ := h
    rw [Prod.mk.injEq] at h2
    obtain ⟨h2, h3⟩ := h2
    refine ⟨by simp [framesOf, h1], by simp [srcChunks, payloadOf, h2],
      by simp [mapChunks, payloadOf, h3], by simp, by simp, by simp⟩
  | cons p rest ih =>
    obtain ⟨k, v⟩ := p
    intro hdr s m H S M h
    unfold buildModulePart at h
    by_cases hk : k.length > maxUint32
    · rw [if_pos hk] at h; cases h
    rw [if_neg hk] at h
    simp only [] at h
    cases v with
    | data d =>
      simp only [] at h
      cases hget : d.Source.getNow with
      | none => rw [hget] at h; simp only [] at h; cases h
      | some sd =>
        rw [hget] at h; simp only [] at h
        cases happ : appendPayload cs (hdr ++ u32Bytes k.length ++ k ++ [HeaderFrameModule])
            s (optBytes sd) with
        | error e => rw [happ] at h; simp only [] at h; cases h
        | ok pr =>
          obtain ⟨hdr2, s2⟩ := pr
          rw [happ] at h; simp only [] at h
          cases hgetm : d.SourceMap.getNow with
          | none => rw [hgetm] at h; simp only [] at h; cases h
          | some md =>
            rw [hgetm] at h; simp only [] at h
            cases happm : appendPayload cs hdr2 m (optBytes md) with
            | error e => rw [happm] at h; simp only [] at h; cases h
            | ok prm =>
              obtain ⟨hdr3, m2⟩ := prm
              rw [happm] at h; simp only [] at h
              obtain ⟨hH, hS, hbnd⟩ := appendPayload_ok happ
              obtain ⟨hHm, hSm, hbndm⟩ := appendPayload_ok happm
              have hbs : optBytes sd = slotBytes d.Source := getNow_slotBytes hget
              have hbm : optBytes md = slotBytes d.SourceMap := getNow_slotBytes hgetm
              rw [hbs] at hH hS hbnd
              rw [hbm] at hHm hSm hbndm
              obtain ⟨iH, iS, iM, ik, it, id'⟩ := ih _ _ _ _ _ _ h
              refine ⟨?_, ?_, ?_, ?_, ?_, ?_⟩
              · rw [iH, hHm, hH]
                have hs2 : s2.length = s.length +
                    (if (slotBytes d.Source).length = 0 then 0
                      else (slotBytes d.Source).length +
                        (cs.Hash (slotBytes d.Source)).length) := by
                  rw [hS, List.length_append, payload_block_length]
                have hm2 : m2.length = m.length +
                    (if (slotBytes d.SourceMap).length = 0 then 0
                      else (slotBytes d.SourceMap).length +
                        (cs.Hash (slotBytes d.SourceMap)).length) := by
                  rw [hSm, List.length_append, payload_block_length]
                rw [hs2, hm2]
                simp [framesOf, moduleFrame, HeaderFrameModule, List.append_assoc]
              · rw [iS, hS, payload_srcChunks_cons]
                simp [List.append_assoc]
              · rw [iM, hSm, payload_mapChunks_cons]
                simp [List.append_assoc]
              · intro q hq
                rcases List.mem_cons.mp hq with hq | hq
                · subst hq
                  show k.length ≤ maxUint32
                  omega
                · exact ik q hq
              · intro q hq r hr
                rcases List.mem_cons.mp hq with hq | hq
                · subst hq
                  have hr2 : MapEntry.data d = MapEntry.redirect r := hr
                  cases hr2
                · exact it q hq r hr
              · intro q hq dd hdd
                rcases List.mem_cons.mp hq with hq | hq
                · subst hq
                  have hdd2 : MapEntry.data d = MapEntry.data dd := hdd
                  injection hdd2 with hdd2
                  rw [← hdd2]
                  exact ⟨hbnd, hbndm⟩
                · exact id' q hq dd hdd
    | redirect r =>
      simp only [] at h
      by_cases ht : r.Target.length > maxUint32
      · rw [if_pos ht] at h; cases h
      rw [if_neg ht] at h
      obtain ⟨iH, iS, iM, ik, it, id'⟩ := ih _ _ _ _ _ _ h
      refine ⟨?_, ?_, ?_, ?_, ?_, ?_⟩
      · rw [iH]
        simp [framesOf, redirectFrame, HeaderFrameRedirect, List.append_assoc]
      · rw [iS]; rfl
      · rw [iM]; rfl
      · intro q hq
        rcases List.mem_cons.mp hq with hq | hq
        · subst hq
          show k.length ≤ maxUint32
          omega
        · exact ik q hq
      · intro q hq rr hr
        rcases List.mem_cons.mp hq with hq | hq
        · subst hq
          have hr2 : MapEntry.redirect r = MapEntry.redirect rr := hr
          injection hr2 with hr2
          rw [← hr2]
          omega
        · exact it q hq rr hr
      · intro q hq dd hdd
        rcases List.mem_cons.mp hq with hq | hq
        · subst hq
          have hdd2 : MapEntry.redirect r = MapEntry.data dd := hdd
          cases hdd2
        · exact id' q hq dd hdd
    | npm n =>
      simp only [] at h
      obtain ⟨iH, iS, iM, ik, it, id'⟩ := ih _ _ _ _ _ _ h
      refine ⟨?_, ?_, ?_, ?_, ?_, ?_⟩
      · rw [iH]
        simp [framesOf, npmFrame, HeaderFrameNpmSpecifier, List.append_assoc]
      · rw [iS]; rfl
      · rw [iM]; rfl
      · intro q hq
        rcases List.mem_cons.mp hq with hq | hq
        · subst hq
          show k.length ≤ maxUint32
          omega
        · exact ik q hq
      · intro q hq rr hr
        rcases List.mem_cons.mp hq with hq | hq
        · subst hq
          have hr2 : MapEntry.npm n = MapEntry.redirect rr := hr
          cases hr2
        · exact it q hq rr hr
      · intro q hq dd hdd
        rcases List.mem_cons.mp hq with hq | hq
        · subst hq
          have hdd2 : MapEntry.npm n = MapEntry.data dd := hdd
          cases hdd2
        · exact id' q hq dd hdd



theorem pendingOrEmpty_write (off n : Nat) :
    pendingOrEmpty (if n = 0 then 0 else off) n =
      if n = 0 then NewEmptySourceSlot else NewPendingSourceSlot off n := by
  by_cases h : n = 0
  · rw [if_pos h, if_pos h, h]
    rfl
  · rw [if_neg h, if_neg h]
    unfold pendingOrEmpty
    rw [if_neg (by intro hc; exact h hc.2)]

theorem framesOf_length_ge (cs : ChecksumType) (L : List (List Nat × MapEntry)) :
    ∀ (sOff mOff : Nat), L.length ≤ (framesOf cs sOff mOff L).length := by
  induction L with
  | nil => intro sOff mOff; simp [framesOf]
  | cons p rest ih =>
    intro sOff mOff
    obtain ⟨k, v⟩ := p
    cases v with
    | data d =>
      simp only [framesOf, List.length_cons, List.length_append, moduleFrame_length]
      have h := ih (sOff + (if (slotBytes d.Source).length = 0 then 0 else (slotBytes d.Source).length + (cs.Hash (slotBytes d.Source)).length)) (mOff + (if (slotBytes d.SourceMap).length = 0 then 0 else (slotBytes d.SourceMap).length + (cs.Hash (slotBytes d.SourceMap)).length))
      omega
    | redirect r =>
      simp only [framesOf, List.length_cons, List.length_append, redirectFrame_length]
      have h := ih sOff mOff
      omega
    | npm n =>
      simp only [framesOf, List.length_cons, List.length_append, npmFrame_length]
      have h := ih sOff mOff
      omega

theorem parseLoop_framesOf (cs : ChecksumType) (sn : Bool)
    (L : List (List Nat × MapEntry)) :
    ∀ (pre post : List Nat) (sOff mOff fuel : Nat) (M : ModuleMap)
      (N : List (List Nat × Nat)),
    (∀ p ∈ L, p.1.length ≤ maxUint32) →
    (∀ p ∈ L, ∀ r, p.2 = MapEntry.redirect r → r.Target.length ≤ maxUint32) →
    (∀ p ∈ L, ∀ d, p.2 = MapEntry.data d →
      (slotBytes d.Source).length ≤ maxUint32 ∧ (slotBytes d.SourceMap).length ≤ maxUint32) →
    sOff + (payloadOf cs (srcChunks L)).length ≤ maxUint32 →
    mOff + (payloadOf cs (mapChunks L)).length ≤ maxUint32 →
    noNpmEntriesB L = true →
    (L.map Prod.fst).Nodup →
    (∀ x ∈ L.map Prod.fst, x ∉ M.map Prod.fst) →
    parseModulesLoop (pre ++ (framesOf cs sOff mOff L ++ post)) sn (L.length + fuel)
        pre.length M N =
      parseModulesLoop (pre ++ (framesOf cs sOff mOff L ++ post)) sn fuel
        (pre.length + (framesOf cs sOff mOff L).length)
        (M ++ parsedEntries cs sOff mOff L) N := by
  induction L with
  | nil =>
    intro pre post sOff mOff fuel M N _ _ _ _ _ _ _ _
    simp [framesOf, parsedEntries]
  | cons p rest ih =>
    intro pre post sOff mOff fuel M N h1 h2 h3 h4 h5 h6 h7 h8
    obtain ⟨k, v⟩ := p
    have hkb : k.length < 4294967296 := by
      have hh : k.length ≤ maxUint32 := h1 (k, v) (List.mem_cons_self _ _)
      unfold maxUint32 at hh
      omega
    have hkM : k ∉ M.map Prod.fst := h8 k (by simp)
    have hnd := List.nodup_cons.mp h7
    cases v with
    | data d =>
      have hd := h3 (k, MapEntry.data d) (List.mem_cons_self _ _) d rfl
      have hslb : (slotBytes d.Source).length < 4294967296 := by
        unfold maxUint32 at hd; omega
      have hmlb : (slotBytes d.SourceMap).length < 4294967296 := by
        unfold maxUint32 at hd; omega
      have hsOlt : sOff < 4294967296 := by unfold maxUint32 at h4; omega
      have hmOlt : mOff < 4294967296 := by unfold maxUint32 at h5; omega
      have hso' : (if (slotBytes d.Source).length = 0 then 0 else sOff) < 4294967296 := by
        by_cases hb : (slotBytes d.Source).length = 0
        · rw [if_pos hb]; omega
        · rw [if_neg hb]; omega
      have hmo' : (if (slotBytes d.SourceMap).length = 0 then 0 else mOff) < 4294967296 := by
        by_cases hb : (slotBytes d.SourceMap).length = 0
        · rw [if_pos hb]; omega
        · rw [if_neg hb]; omega
      have hCeq : pre ++ (framesOf cs sOff mOff ((k, MapEntry.data d) :: rest) ++ post) =
          pre ++ ((moduleFrame k (if (slotBytes d.Source).length = 0 then 0 else sOff) (slotBytes d.Source).length (if (slotBytes d.SourceMap).length = 0 then 0 else mOff) (slotBytes d.SourceMap).length d.Kind) ++ ((framesOf cs (sOff + (if (slotBytes d.Source).length = 0 then 0 else (slotBytes d.Source).length + (cs.Hash (slotBytes d.Source)).length)) (mOff + (if (slotBytes d.SourceMap).length = 0 then 0 else (slotBytes d.SourceMap).length + (cs.Hash (slotBytes d.SourceMap)).length)) rest) ++ post)) := by
        simp [framesOf, List.append_assoc]
      rw [hCeq]
      have hfuel : ((k, MapEntry.data d) :: rest).length + fuel = (rest.length + fuel) + 1 := by
        simp only [List.length_cons]
        omega
      rw [hfuel]
      rw [parseLoop_moduleFrame sn pre ((framesOf cs (sOff + (if (slotBytes d.Source).length = 0 then 0 else (slotBytes d.Source).length + (cs.Hash (slotBytes d.Source)).length)) (mOff + (if (slotBytes d.SourceMap).length = 0 then 0 else (slotBytes d.SourceMap).length + (cs.Hash (slotBytes d.SourceMap)).length)) rest) ++ post) k (if (slotBytes d.Source).length = 0 then 0 else sOff) (slotBytes d.Source).length
        (if (slotBytes d.SourceMap).length = 0 then 0 else mOff) (slotBytes d.SourceMap).length d.Kind (rest.length + fuel) hkb hso' hslb
        hmo' hmlb M N]
      rw [pendingOrEmpty_write sOff (slotBytes d.Source).length,
        pendingOrEmpty_write mOff (slotBytes d.SourceMap).length]
      rw [insert_fresh M k _ hkM]
      have h1' : ∀ p ∈ rest, p.1.length ≤ maxUint32 :=
        fun p hp => h1 p (List.mem_cons_of_mem _ hp)
      have h2' : ∀ p ∈ rest, ∀ r, p.2 = MapEntry.redirect r → r.Target.length ≤ maxUint32 :=
        fun p hp => h2 p (List.mem_cons_of_mem _ hp)
      have h3' : ∀ p ∈ rest, ∀ d, p.2 = MapEntry.data d →
          (slotBytes d.Source).length ≤ maxUint32 ∧ (slotBytes d.SourceMap).length ≤ maxUint32 :=
        fun p hp => h3 p (List.mem_cons_of_mem _ hp)
      have h4' : (sOff + (if (slotBytes d.Source).length = 0 then 0 else (slotBytes d.Source).length + (cs.Hash (slotBytes d.Source)).length)) + (payloadOf cs (srcChunks rest)).length ≤ maxUint32 := by
        have hsp : (payloadOf cs (srcChunks ((k, MapEntry.data d) :: rest))).length =
            (if (slotBytes d.Source).length = 0 then 0
              else (slotBytes d.Source).length + (cs.Hash (slotBytes d.Source)).length) +
            (payloadOf cs (srcChunks rest)).length := by
          rw [payload_srcChunks_cons, List.length_append, payload_block_length]
        omega
      have h5' : (mOff + (if (slotBytes d.SourceMap).length = 0 then 0 else (slotBytes d.SourceMap).length + (cs.Hash (slotBytes d.SourceMap)).length)) + (payloadOf cs (mapChunks rest)).length ≤ maxUint32 := by
        have hsp : (payloadOf cs (mapChunks ((k, MapEntry.data d) :: rest))).length =
            (if (slotBytes d.SourceMap).length = 0 then 0
              else (slotBytes d.SourceMap).length + (cs.Hash (slotBytes d.SourceMap)).length) +
            (payloadOf cs (mapChunks rest)).length := by
          rw [payload_mapChunks_cons, List.length_append, payload_block_length]
        omega
      have h6' : noNpmEntriesB rest = true := by
        simp only [noNpmEntriesB, List.all_cons, Bool.and_eq_true] at h6
        exact h6.2
      have h8' : ∀ x ∈ rest.map Prod.fst, x ∉ (M ++ [(k, (MapEntry.data { Kind := d.Kind, Source := if (slotBytes d.Source).length = 0 then NewEmptySourceSlot else NewPendingSourceSlot sOff (slotBytes d.Source).length, SourceMap := if (slotBytes d.SourceMap).length = 0 then NewEmptySourceSlot else NewPendingSourceSlot mOff (slotBytes d.SourceMap).length }))]).map Prod.fst := by
        intro x hx
        have hxM := h8 x (List.mem_cons_of_mem _ hx)
        have hxk : x ≠ k := by
          intro hxy
          exact hnd.1 (hxy ▸ hx)
        intro hmem
        rw [List.map_append] at hmem
        rcases List.mem_append.mp hmem with hA | hB
        · exact hxM hA
        · simp only [List.map_cons, List.map_nil, List.mem_singleton] at hB
          exact hxk hB
      have ihI := ih (pre ++ (moduleFrame k (if (slotBytes d.Source).length = 0 then 0 else sOff) (slotBytes d.Source).length (if (slotBytes d.SourceMap).length = 0 then 0 else mOff) (slotBytes d.SourceMap).length d.Kind)) post (sOff + (if (slotBytes d.Source).length = 0 then 0 else (slotBytes d.Source).length + (cs.Hash (slotBytes d.Source)).length)) (mOff + (if (slotBytes d.SourceMap).length = 0 then 0 else (slotBytes d.SourceMap).length + (cs.Hash (slotBytes d.SourceMap)).length)) fuel
        (M ++ [(k, (MapEntry.data { Kind := d.Kind, Source := if (slotBytes d.Source).length = 0 then NewEmptySourceSlot else NewPendingSourceSlot sOff (slotBytes d.Source).length, SourceMap := if (slotBytes d.SourceMap).length = 0 then NewEmptySourceSlot else NewPendingSourceSlot mOff (slotBytes d.SourceMap).length }))]) N h1' h2' h3' h4' h5' h6' hnd.2 h8'
      have hassoc : (pre ++ (moduleFrame k (if (slotBytes d.Source).length = 0 then 0 else sOff) (slotBytes d.Source).length (if (slotBytes d.SourceMap).length = 0 then 0 else mOff) (slotBytes d.SourceMap).length d.Kind)) ++ ((framesOf cs (sOff + (if (slotBytes d.Source).length = 0 then 0 else (slotBytes d.Source).length + (cs.Hash (slotBytes d.Source)).length)) (mOff + (if (slotBytes d.SourceMap).length = 0 then 0 else (slotBytes d.SourceMap).length + (cs.Hash (slotBytes d.SourceMap)).length)) rest) ++ post) = pre ++ ((moduleFrame k (if (slotBytes d.Source).length = 0 then 0 else sOff) (slotBytes d.Source).length (if (slotBytes d.SourceMap).length = 0 then 0 else mOff) (slotBytes d.SourceMap).length d.Kind) ++ ((framesOf cs (sOff + (if (slotBytes d.Source).length = 0 then 0 else (slotBytes d.Source).length + (cs.Hash (slotBytes d.Source)).length)) (mOff + (if (slotBytes d.SourceMap).length = 0 then 0 else (slotBytes d.SourceMap).length + (cs.Hash (slotBytes d.SourceMap)).length)) rest) ++ post)) := by
        simp [List.append_assoc]
      have hplen : (pre ++ (moduleFrame k (if (slotBytes d.Source).length = 0 then 0 else sOff) (slotBytes d.Source).length (if (slotBytes d.SourceMap).length = 0 then 0 else mOff) (slotBytes d.SourceMap).length d.Kind)).length = pre.length + (k.length + 22) := by
        simp only [List.length_append, moduleFrame_length]
      rw [hassoc, hplen] at ihI
      rw [ihI]
      have hreadeq : pre.length + (k.length + 22) + (framesOf cs (sOff + (if (slotBytes d.Source).length = 0 then 0 else (slotBytes d.Source).length + (cs.Hash (slotBytes d.Source)).length)) (mOff + (if (slotBytes d.SourceMap).length = 0 then 0 else (slotBytes d.SourceMap).length + (cs.Hash (slotBytes d.SourceMap)).length)) rest).length =
          pre.length + (framesOf cs sOff mOff ((k, MapEntry.data d) :: rest)).length := by
        have hfr : framesOf cs sOff mOff ((k, MapEntry.data d) :: rest) = (moduleFrame k (if (slotBytes d.Source).length = 0 then 0 else sOff) (slotBytes d.Source).length (if (slotBytes d.SourceMap).length = 0 then 0 else mOff) (slotBytes d.SourceMap).length d.Kind) ++ (framesOf cs (sOff + (if (slotBytes d.Source).length = 0 then 0 else (slotBytes d.Source).length + (cs.Hash (slotBytes d.Source)).length)) (mOff + (if (slotBytes d.SourceMap).length = 0 then 0 else (slotBytes d.SourceMap).length + (cs.Hash (slotBytes d.SourceMap)).length)) rest) := by
          simp [framesOf]
        rw [hfr, List.length_append, moduleFrame_length]
        omega
      have hmodeq : (M ++ [(k, (MapEntry.data { Kind := d.Kind, Source := if (slotBytes d.Source).length = 0 then NewEmptySourceSlot else NewPendingSourceSlot sOff (slotBytes d.Source).length, SourceMap := if (slotBytes d.SourceMap).length = 0 then NewEmptySourceSlot else NewPendingSourceSlot mOff (slotBytes d.SourceMap).length }))]) ++ parsedEntries cs (sOff + (if (slotBytes d.Source).length = 0 then 0 else (slotBytes d.Source).length + (cs.Hash (slotBytes d.Source)).length)) (mOff + (if (slotBytes d.SourceMap).length = 0 then 0 else (slotBytes d.SourceMap).length + (cs.Hash (slotBytes d.SourceMap)).length)) rest =
          M ++ parsedEntries cs sOff mOff ((k, MapEntry.data d) :: rest) := by
        rw [List.append_assoc]
        congr 1
      rw [hreadeq, hmodeq]
    | redirect r =>
      have htb : r.Target.length < 4294967296 := by
        have := h2 (k, MapEntry.redirect r) (List.mem_cons_self _ _) r rfl
        unfold maxUint32 at this
        omega
      have hCeq : pre ++ (framesOf cs sOff mOff ((k, MapEntry.redirect r) :: rest) ++ post) =
          pre ++ (redirectFrame k r.Target ++ ((framesOf cs sOff mOff rest) ++ post)) := by
        simp [framesOf, List.append_assoc]
      rw [hCeq]
      have hfuel : ((k, MapEntry.redirect r) :: rest).length + fuel =
          (rest.length + fuel) + 1 := by
        simp only [List.length_cons]
        omega
      rw [hfuel]
      rw [parseLoop_redirectFrame sn pre ((framesOf cs sOff mOff rest) ++ post) k r.Target (rest.length + fuel)
        hkb htb M N]
      rw [insert_fresh M k _ hkM]
      have h1' : ∀ p ∈ rest, p.1.length ≤ maxUint32 :=
        fun p hp => h1 p (List.mem_cons_of_mem _ hp)
      have h2' : ∀ p ∈ rest, ∀ r, p.2 = MapEntry.redirect r → r.Target.length ≤ maxUint32 :=
        fun p hp => h2 p (List.mem_cons_of_mem _ hp)
      have h3' : ∀ p ∈ rest, ∀ d, p.2 = MapEntry.data d →
          (slotBytes d.Source).length ≤ maxUint32 ∧ (slotBytes d.SourceMap).length ≤ maxUint32 :=
        fun p hp => h3 p (List.mem_cons_of_mem _ hp)
      have h4' : sOff + (payloadOf cs (srcChunks rest)).length ≤ maxUint32 := by
        have : srcChunks ((k, MapEntry.redirect r) :: rest) = srcChunks rest := rfl
        rw [this] at h4
        exact h4
      have h5' : mOff + (payloadOf cs (mapChunks rest)).length ≤ maxUint32 := by
        have : mapChunks ((k, MapEntry.redirect r) :: rest) = mapChunks rest := rfl
        rw [this] at h5
        exact h5
      have h6' : noNpmEntriesB rest = true := by
        simp only [noNpmEntriesB, List.all_cons, Bool.and_eq_true] at h6
        exact h6.2
      have h8' : ∀ x ∈ rest.map Prod.fst,
          x ∉ (M ++ [(k, MapEntry.redirect { Target := r.Target })]).map Prod.fst := by
        intro x hx
        have hxM := h8 x (List.mem_cons_of_mem _ hx)
        have hxk : x ≠ k := by
          intro hxy
          exact hnd.1 (hxy ▸ hx)
        intro hmem
        rw [List.map_append] at hmem
        rcases List.mem_append.mp hmem with hA | hB
        · exact hxM hA
        · simp only [List.map_cons, List.map_nil, List.mem_singleton] at hB
          exact hxk hB
      have ihI := ih (pre ++ redirectFrame k r.Target) post sOff mOff fuel
        (M ++ [(k, MapEntry.redirect { Target := r.Target })]) N h1' h2' h3' h4' h5' h6'
        hnd.2 h8'
      have hassoc : (pre ++ redirectFrame k r.Target) ++ ((framesOf cs sOff mOff rest) ++ post) =
          pre ++ (redirectFrame k r.Target ++ ((framesOf cs sOff mOff rest) ++ post)) := by
        simp [List.append_assoc]
      have hplen : (pre ++ redirectFrame k r.Target).length =
          pre.length + (k.length + r.Target.length + 9) := by
        simp only [List.length_append, redirectFrame_length]
      rw [hassoc, hplen] at ihI
      rw [ihI]
      have hreadeq : pre.length + (k.length + r.Target.length + 9) + (framesOf cs sOff mOff rest).length =
          pre.length + (framesOf cs sOff mOff ((k, MapEntry.redirect r) :: rest)).length := by
        have hfr : framesOf cs sOff mOff ((k, MapEntry.redirect r) :: rest) =
            redirectFrame k r.Target ++ (framesOf cs sOff mOff rest) := by
          simp [framesOf]
        rw [hfr, List.length_append, redirectFrame_length]
        omega
      have hmodeq : (M ++ [(k, MapEntry.redirect { Target := r.Target })]) ++
            parsedEntries cs sOff mOff rest =
          M ++ parsedEntries cs sOff mOff ((k, MapEntry.redirect r) :: rest) := by
        rw [List.append_assoc]
        congr 1
      rw [hreadeq, hmodeq]
    | npm n =>
      simp [noNpmEntriesB] at h6

theorem parseModulesLoop_done (content : List Nat) (sn : Bool) (fuel read : Nat)
    (M : ModuleMap) (N : List (List Nat × Nat)) (h : content.length ≤ read) :
    parseModulesLoop content sn fuel read M N = .ok (M, N) := by
  cases fuel with
  | zero =>
    rw [parseModulesLoop]
    rw [if_neg (by omega)]
  | succ f =>
    rw [parseModulesLoop]
    rw [if_neg (by omega)]

theorem parseModulesHeader_framesOf (cs : ChecksumType) (L : List (List Nat × MapEntry))
    (h1 : ∀ p ∈ L, p.1.length ≤ maxUint32)
    (h2 : ∀ p ∈ L, ∀ r, p.2 = MapEntry.redirect r → r.Target.length ≤ maxUint32)
    (h3 : ∀ p ∈ L, ∀ d, p.2 = MapEntry.data d →
      (slotBytes d.Source).length ≤ maxUint32 ∧ (slotBytes d.SourceMap).length ≤ maxUint32)
    (h4 : (payloadOf cs (srcChunks L)).length ≤ maxUint32)
    (h5 : (payloadOf cs (mapChunks L)).length ≤ maxUint32)
    (h6 : noNpmEntriesB L = true)
    (h7 : (L.map Prod.fst).Nodup) :
    parseModulesHeader (framesOf cs 0 0 L) true = .ok (parsedEntries cs 0 0 L, []) := by
  unfold parseModulesHeader
  have hlen : L.length ≤ (framesOf cs 0 0 L).length := framesOf_length_ge cs L 0 0
  have hfuel : (framesOf cs 0 0 L).length + 1 =
      L.length + ((framesOf cs 0 0 L).length + 1 - L.length) := by omega
  rw [hfuel]
  have hmain := parseLoop_framesOf cs true L [] [] 0 0
    ((framesOf cs 0 0 L).length + 1 - L.length) NewModuleMap []
    h1 h2 h3 (by simpa using h4) (by simpa using h5) h6 h7
    (by intro x hx; simp [NewModuleMap])
  simp only [List.nil_append, List.append_nil, List.length_nil, Nat.zero_add] at hmain
  rw [show NewModuleMap ++ parsedEntries cs 0 0 L = parsedEntries cs 0 0 L by
    simp [NewModuleMap]] at hmain
  rw [hmain]
  exact parseModulesLoop_done _ _ _ _ _ _ (Nat.le_refl _)



theorem pendingSlot_state (o l : Nat) : (NewPendingSourceSlot o l).state = .pending := rfl

theorem pendingSlot_offset (o l : Nat) : (NewPendingSourceSlot o l).offset = o := rfl

theorem pendingSlot_length (o l : Nat) : (NewPendingSourceSlot o l).length = l := rfl

theorem emptySlot_state : NewEmptySourceSlot.state = .ready := rfl

theorem any_key_eq_false {β : Type} (l : List (Nat × β)) (n : Nat)
    (h : ∀ q ∈ l, q.1 < n) : l.any (fun p => decide (p.1 = n)) = false := by
  rw [Bool.eq_false_iff]
  intro hc
  rw [List.any_eq_true] at hc
  obtain ⟨q, hq, hq2⟩ := hc
  rw [decide_eq_true_eq] at hq2
  have := h q hq
  omega

theorem srcChunks_nonempty (L : List (List Nat × MapEntry)) :
    ∀ c ∈ srcChunks L, 0 < c.2.length := by
  induction L with
  | nil => intro c hc; simp [srcChunks] at hc
  | cons p rest ih =>
    intro c hc
    obtain ⟨k, v⟩ := p
    cases v with
    | data d =>
      simp only [srcChunks] at hc
      by_cases hb : (slotBytes d.Source).length = 0
      · rw [if_pos hb] at hc
        exact ih c hc
      · rw [if_neg hb] at hc
        rcases List.mem_cons.mp hc with hcq | hcq
        · subst hcq
          show 0 < (slotBytes d.Source).length
          omega
        · exact ih c hcq
    | redirect r =>
      simp only [srcChunks] at hc
      exact ih c hc
    | npm n =>
      simp only [srcChunks] at hc
      exact ih c hc

theorem mapChunks_nonempty (L : List (List Nat × MapEntry)) :
    ∀ c ∈ mapChunks L, 0 < c.2.length := by
  induction L with
  | nil => intro c hc; simp [mapChunks] at hc
  | cons p rest ih =>
    intro c hc
    obtain ⟨k, v⟩ := p
    cases v with
    | data d =>
      simp only [mapChunks] at hc
      by_cases hb : (slotBytes d.SourceMap).length = 0
      · rw [if_pos hb] at hc
        exact ih c hc
      · rw [if_neg hb] at hc
        rcases List.mem_cons.mp hc with hcq | hcq
        · subst hcq
          show 0 < (slotBytes d.SourceMap).length
          omega
        · exact ih c hcq
    | redirect r =>
      simp only [mapChunks] at hc
      exact ih c hc
    | npm n =>
      simp only [mapChunks] at hc
      exact ih c hc

theorem chunk_le_payload (cs : ChecksumType) (chunks : List (List Nat × List Nat)) :
    ∀ c ∈ chunks, c.2.length ≤ (payloadOf cs chunks).length := by
  induction chunks with
  | nil => intro c hc; simp at hc
  | cons q rest ih =>
    intro c hc
    obtain ⟨s, b⟩ := q
    rcases List.mem_cons.mp hc with h | h
    · subst h
      show b.length ≤ (payloadOf cs ((s, b) :: rest)).length
      simp only [payloadOf, List.length_append]
      omega
    · have := ih c h
      simp only [payloadOf, List.length_append]
      omega

theorem endRead_ge (csSize : Nat) (chunks : List (List Nat × List Nat)) :
    ∀ start : Nat, start ≤ endRead csSize start chunks := by
  induction chunks with
  | nil => intro start; simp [endRead]
  | cons q rest ih =>
    intro start
    obtain ⟨s, b⟩ := q
    simp only [endRead]
    have := ih (start + b.length + csSize)
    omega

theorem endRead_payload (cs : ChecksumType) (csSize : Nat)
    (h : ∀ b : List Nat, (cs.Hash b).length = csSize)
    (chunks : List (List Nat × List Nat)) :
    ∀ start : Nat, endRead csSize start chunks = start + (payloadOf cs chunks).length := by
  induction chunks with
  | nil => intro start; simp [endRead, payloadOf]
  | cons q rest ih =>
    intro start
    obtain ⟨s, b⟩ := q
    simp only [endRead, payloadOf, List.length_append]
    rw [ih (start + b.length + csSize)]
    rw [h b]
    omega

theorem find?_append_none {α : Type} (p : α → Bool) (A B : List α)
    (h : ∀ a ∈ A, p a = false) : (A ++ B).find? p = B.find? p := by
  induction A with
  | nil => rfl
  | cons a rest ih =>
    rw [List.cons_append, List.find?_cons_of_neg]
    · exact ih (fun x hx => h x (List.mem_cons_of_mem _ hx))
    · rw [h a (List.mem_cons_self _ _)]
      intro hc
      cases hc

theorem walkPrefix_offsetsOf (cs : ChecksumType) (csSize : Nat)
    (hh : ∀ b : List Nat, (cs.Hash b).length = csSize) (totalLen : Nat)
    (chunks : List (List Nat × List Nat)) :
    ∀ (Opre : List (Nat × sourceOffsetEntry)) (start : Nat),
    (∀ q ∈ Opre, q.1 < start) →
    (∀ c ∈ chunks, 0 < c.2.length) →
    (∀ c ∈ chunks, c.2.length ≤ maxSectionSize) →
    endRead csSize start chunks ≤ totalLen →
    walkPrefixOk (Opre ++ offsetsOf cs start chunks) csSize totalLen start chunks = true := by
  induction chunks with
  | nil => intro Opre start _ _ _ _; rfl
  | cons c rest ih =>
    intro Opre start hOp hne hmax hend
    obtain ⟨spec, b⟩ := c
    have hb0 : 0 < b.length := hne (spec, b) (List.mem_cons_self _ _)
    have hstep : endRead csSize start ((spec, b) :: rest) =
        endRead csSize (start + b.length + csSize) rest := rfl
    have hge := endRead_ge csSize rest (start + b.length + csSize)
    have hOeq : Opre ++ offsetsOf cs start ((spec, b) :: rest) =
        (Opre ++ [(start, ⟨b.length, spec⟩)]) ++
          offsetsOf cs (start + b.length + csSize) rest := by
      simp only [offsetsOf, hh b, List.append_assoc, List.singleton_append]
    simp only [walkPrefixOk, Bool.and_eq_true, decide_eq_true_eq]
    refine ⟨⟨⟨?_, ?_⟩, ?_⟩, ?_⟩
    · omega
    · exact hmax (spec, b) (List.mem_cons_self _ _)
    · rw [hOeq, List.append_assoc]
      rw [find?_append_none _ Opre _ (fun q hq => by
        rw [decide_eq_false]
        intro he
        have := hOp q hq
        omega)]
      rw [List.singleton_append, List.find?_cons_of_pos _ (by simp)]
    · rw [hOeq]
      exact ih (Opre ++ [(start, ⟨b.length, spec⟩)]) (start + b.length + csSize)
        (by
          intro q hq
          rcases List.mem_append.mp hq with hA | hB
          · have := hOp q hA
            omega
          · rw [List.mem_singleton] at hB
            subst hB
            show start < start + b.length + csSize
            omega)
        (fun c hc => hne c (List.mem_cons_of_mem _ hc))
        (fun c hc => hmax c (List.mem_cons_of_mem _ hc))
        (by omega)

theorem buildOffsets_parsedEntries (cs : ChecksumType) (L : List (List Nat × MapEntry)) :
    ∀ (sOff mOff : Nat) (so smo : List (Nat × sourceOffsetEntry)),
    (∀ q ∈ so, q.1 < sOff) →
    (∀ q ∈ smo, q.1 < mOff) →
    sOff + (payloadOf cs (srcChunks L)).length ≤ maxSectionSize →
    mOff + (payloadOf cs (mapChunks L)).length ≤ maxSectionSize →
    buildOffsets (parsedEntries cs sOff mOff L) so smo =
      .ok (so ++ offsetsOf cs sOff (srcChunks L), smo ++ offsetsOf cs mOff (mapChunks L)) := by
  induction L with
  | nil =>
    intro sOff mOff so smo _ _ _ _
    simp [parsedEntries, buildOffsets, srcChunks, mapChunks, offsetsOf]
  | cons p rest ih =>
    intro sOff mOff so smo hso hsmo h4 h5
    obtain ⟨k, v⟩ := p
    cases v with
    | data d =>
      have hps : (payloadOf cs (srcChunks ((k, MapEntry.data d) :: rest))).length =
          (if (slotBytes d.Source).length = 0 then 0 else (slotBytes d.Source).length + (cs.Hash (slotBytes d.Source)).length) + (payloadOf cs (srcChunks rest)).length := by
        rw [payload_srcChunks_cons, List.length_append, payload_block_length]
      have hpm : (payloadOf cs (mapChunks ((k, MapEntry.data d) :: rest))).length =
          (if (slotBytes d.SourceMap).length = 0 then 0 else (slotBytes d.SourceMap).length + (cs.Hash (slotBytes d.SourceMap)).length) + (payloadOf cs (mapChunks rest)).length := by
        rw [payload_mapChunks_cons, List.length_append, payload_block_length]
      simp only [parsedEntries]
      rw [buildOffsets]
      simp only []
      by_cases hb : (slotBytes d.Source).length = 0
      ·
        rw [if_pos hb]
        rw [if_neg (by
          rintro ⟨hc1, _⟩
          rw [emptySlot_state] at hc1
          cases hc1)]
        simp only []
        by_cases hmb : (slotBytes d.SourceMap).length = 0
        ·
          rw [if_pos hmb]
          rw [if_neg (by
            rintro ⟨hc1, _⟩
            rw [emptySlot_state] at hc1
            cases hc1)]
          simp only []
          rw [show srcChunks ((k, MapEntry.data d) :: rest) = srcChunks rest from by
            simp [srcChunks, hb]]
          rw [show mapChunks ((k, MapEntry.data d) :: rest) = mapChunks rest from by
            simp [mapChunks, hmb]]
          rw [show sOff + (if (slotBytes d.Source).length = 0 then 0 else (slotBytes d.Source).length + (cs.Hash (slotBytes d.Source)).length) = sOff from by rw [if_pos hb]; omega]
          rw [show mOff + (if (slotBytes d.SourceMap).length = 0 then 0 else (slotBytes d.SourceMap).length + (cs.Hash (slotBytes d.SourceMap)).length) = mOff from by rw [if_pos hmb]; omega]
          exact ih sOff mOff so smo
            hso
            hsmo
            (by rw [hps, if_pos hb] at h4; omega) (by rw [hpm, if_pos hmb] at h5; omega)
        ·
          rw [if_neg hmb]
          rw [if_pos ⟨pendingSlot_state _ _, by rw [pendingSlot_length]; omega⟩]
          rw [pendingSlot_offset, pendingSlot_length]
          rw [if_neg (by
            rw [hpm, if_neg hmb] at h5
            rintro (hc | hc) <;> omega)]
          rw [any_key_eq_false smo mOff hsmo]
          rw [if_neg (by intro hc; cases hc)]
          simp only []
          rw [show srcChunks ((k, MapEntry.data d) :: rest) = srcChunks rest from by
            simp [srcChunks, hb]]
          rw [show mapChunks ((k, MapEntry.data d) :: rest) =
              (k, slotBytes d.SourceMap) :: mapChunks rest from by simp [mapChunks, hmb]]
          rw [show sOff + (if (slotBytes d.Source).length = 0 then 0 else (slotBytes d.Source).length + (cs.Hash (slotBytes d.Source)).length) = sOff from by rw [if_pos hb]; omega]
          rw [show mOff + (if (slotBytes d.SourceMap).length = 0 then 0 else (slotBytes d.SourceMap).length + (cs.Hash (slotBytes d.SourceMap)).length) = mOff + (slotBytes d.SourceMap).length + (cs.Hash (slotBytes d.SourceMap)).length from by rw [if_neg hmb]; omega]
          rw [show smo ++ offsetsOf cs mOff ((k, slotBytes d.SourceMap) :: mapChunks rest) =
              (smo ++ [(mOff, ⟨(slotBytes d.SourceMap).length, k⟩)]) ++
                offsetsOf cs (mOff + (slotBytes d.SourceMap).length + (cs.Hash (slotBytes d.SourceMap)).length) (mapChunks rest) from by
            simp [offsetsOf, List.append_assoc]]
          exact ih sOff (mOff + (slotBytes d.SourceMap).length + (cs.Hash (slotBytes d.SourceMap)).length) so (smo ++ [(mOff, ⟨(slotBytes d.SourceMap).length, k⟩)])
            hso
            (by
              intro q hq
              rcases List.mem_append.mp hq with hA | hB
              · have := hsmo q hA
                omega
              · rw [List.mem_singleton] at hB
                subst hB
                show mOff < mOff + (slotBytes d.SourceMap).length + (cs.Hash (slotBytes d.SourceMap)).length
                omega)
            (by rw [hps, if_pos hb] at h4; omega) (by rw [hpm, if_neg hmb] at h5; omega)
      ·
        rw [if_neg hb]
        rw [if_pos ⟨pendingSlot_state _ _, by rw [pendingSlot_length]; omega⟩]
        rw [pendingSlot_offset, pendingSlot_length]
        rw [if_neg (by
          rw [hps, if_neg hb] at h4
          rintro (hc | hc) <;> omega)]
        rw [any_key_eq_false so sOff hso]
        rw [if_neg (by intro hc; cases hc)]
        simp only []
        by_cases hmb : (slotBytes d.SourceMap).length = 0
        ·
          rw [if_pos hmb]
          rw [if_neg (by
            rintro ⟨hc1, _⟩
            rw [emptySlot_state] at hc1
            cases hc1)]
          simp only []
          rw [show srcChunks ((k, MapEntry.data d) :: rest) =
              (k, slotBytes d.Source) :: srcChunks rest from by simp [srcChunks, hb]]
          rw [show mapChunks ((k, MapEntry.data d) :: rest) = mapChunks rest from by
            simp [mapChunks, hmb]]
          rw [show sOff + (if (slotBytes d.Source).length = 0 then 0 else (slotBytes d.Source).length + (cs.Hash (slotBytes d.Source)).length) = sOff + (slotBytes d.Source).length + (cs.Hash (slotBytes d.Source)).length from by rw [if_neg hb]; omega]
          rw [show mOff + (if (slotBytes d.SourceMap).length = 0 then 0 else (slotBytes d.SourceMap).length + (cs.Hash (slotBytes d.SourceMap)).length) = mOff from by rw [if_pos hmb]; omega]
          rw [show so ++ offsetsOf cs sOff ((k, slotBytes d.Source) :: srcChunks rest) =
              (so ++ [(sOff, ⟨(slotBytes d.Source).length, k⟩)]) ++
                offsetsOf cs (sOff + (slotBytes d.Source).length + (cs.Hash (slotBytes d.Source)).length) (srcChunks rest) from by
            simp [offsetsOf, List.append_assoc]]
          exact ih (sOff + (slotBytes d.Source).length + (cs.Hash (slotBytes d.Source)).length) mOff (so ++ [(sOff, ⟨(slotBytes d.Source).length, k⟩)]) smo
            (by
              intro q hq
              rcases List.mem_append.mp hq with hA | hB
              · have := hso q hA
                omega
              · rw [List.mem_singleton] at hB
                subst hB
                show sOff < sOff + (slotBytes d.Source).length + (cs.Hash (slotBytes d.Source)).length
                omega)
            hsmo
            (by rw [hps, if_neg hb] at h4; omega) (by rw [hpm, if_pos hmb] at h5; omega)
        ·
          rw [if_neg hmb]
          rw [if_pos ⟨pendingSlot_state _ _, by rw [pendingSlot_length]; omega⟩]
          rw [pendingSlot_offset, pendingSlot_length]
          rw [if_neg (by
            rw [hpm, if_neg hmb] at h5
            rintro (hc | hc) <;> omega)]
          rw [any_key_eq_false smo mOff hsmo]
          rw [if_neg (by intro hc; cases hc)]
          simp only []
          rw [show srcChunks ((k, MapEntry.data d) :: rest) =
              (k, slotBytes d.Source) :: srcChunks rest from by simp [srcChunks, hb]]
          rw [show mapChunks ((k, MapEntry.data d) :: rest) =
              (k, slotBytes d.SourceMap) :: mapChunks rest from by simp [mapChunks, hmb]]
          rw [show sOff + (if (slotBytes d.Source).length = 0 then 0 else (slotBytes d.Source).length + (cs.Hash (slotBytes d.Source)).length) = sOff + (slotBytes d.Source).length + (cs.Hash (slotBytes d.Source)).length from by rw [if_neg hb]; omega]
          rw [show mOff + (if (slotBytes d.SourceMap).length = 0 then 0 else (slotBytes d.SourceMap).length + (cs.Hash (slotBytes d.SourceMap)).length) = mOff + (slotBytes d.SourceMap).length + (cs.Hash (slotBytes d.SourceMap)).length from by rw [if_neg hmb]; omega]
          rw [show so ++ offsetsOf cs sOff ((k, slotBytes d.Source) :: srcChunks rest) =
              (so ++ [(sOff, ⟨(slotBytes d.Source).length, k⟩)]) ++
                offsetsOf cs (sOff + (slotBytes d.Source).length + (cs.Hash (slotBytes d.Source)).length) (srcChunks rest) from by
            simp [offsetsOf, List.append_assoc]]
          rw [show smo ++ offsetsOf cs mOff ((k, slotBytes d.SourceMap) :: mapChunks rest) =
              (smo ++ [(mOff, ⟨(slotBytes d.SourceMap).length, k⟩)]) ++
                offsetsOf cs (mOff + (slotBytes d.SourceMap).length + (cs.Hash (slotBytes d.SourceMap)).length) (mapChunks rest) from by
            simp [offsetsOf, List.append_assoc]]
          exact ih (sOff + (slotBytes d.Source).length + (cs.Hash (slotBytes d.Source)).length) (mOff + (slotBytes d.SourceMap).length + (cs.Hash (slotBytes d.SourceMap)).length) (so ++ [(sOff, ⟨(slotBytes d.Source).length, k⟩)]) (smo ++ [(mOff, ⟨(slotBytes d.SourceMap).length, k⟩)])
            (by
              intro q hq
              rcases List.mem_append.mp hq with hA | hB
              · have := hso q hA
                omega
              · rw [List.mem_singleton] at hB
                subst hB
                show sOff < sOff + (slotBytes d.Source).length + (cs.Hash (slotBytes d.Source)).length
                omega)
            (by
              intro q hq
              rcases List.mem_append.mp hq with hA | hB
              · have := hsmo q hA
                omega
              · rw [List.mem_singleton] at hB
                subst hB
                show mOff < mOff + (slotBytes d.SourceMap).length + (cs.Hash (slotBytes d.SourceMap)).length
                omega)
            (by rw [hps, if_neg hb] at h4; omega) (by rw [hpm, if_neg hmb] at h5; omega)
    | redirect r =>
      simp only [parsedEntries]
      have hstep : buildOffsets ((k, MapEntry.redirect r) :: parsedEntries cs sOff mOff rest)
          so smo = buildOffsets (parsedEntries cs sOff mOff rest) so smo := rfl
      rw [hstep, ih sOff mOff so smo hso hsmo (by exact h4) (by exact h5)]
      rfl
    | npm n =>
      simp only [parsedEntries]
      exact ih sOff mOff so smo hso hsmo (by exact h4) (by exact h5)


theorem setSlotReady_fields (e : EszipV2) (k : List Nat) (isMap : Bool)
    (d : Option (List Nat)) :
    (e.setSlotReady k isMap d).modules =
      e.modules.map (fun p => if p.1 = k then (p.1, setSlotInEntry isMap d p.2) else p) ∧
    (e.setSlotReady k isMap d).npmSnapshot = e.npmSnapshot ∧
    (e.setSlotReady k isMap d).options = e.options ∧
    (e.setSlotReady k isMap d).version = e.version :=
  ⟨rfl, rfl, rfl, rfl⟩

theorem applyChunks_fields (isMap : Bool) (chunks : List (List Nat × List Nat)) :
    ∀ e : EszipV2,
    (applyChunks isMap chunks e).modules =
      e.modules.map (fun p => (p.1, applyEntryChunks isMap chunks p.1 p.2)) ∧
    (applyChunks isMap chunks e).npmSnapshot = e.npmSnapshot ∧
    (applyChunks isMap chunks e).options = e.options ∧
    (applyChunks isMap chunks e).version = e.version := by
  induction chunks with
  | nil =>
    intro e
    refine ⟨?_, rfl, rfl, rfl⟩
    show e.modules = _
    rw [show (fun (p : List Nat × MapEntry) => (p.1, applyEntryChunks isMap [] p.1 p.2)) =
      id from by funext p; rfl]
    rw [List.map_id]
  | cons c rest ih =>
    intro e
    have hstep : applyChunks isMap (c :: rest) e =
        applyChunks isMap rest (e.setSlotReady c.1 isMap (some c.2)) := rfl
    rw [hstep]
    obtain ⟨hm, hs, ho, hv⟩ := ih (e.setSlotReady c.1 isMap (some c.2))
    refine ⟨?_, by rw [hs]; rfl, by rw [ho]; rfl, by rw [hv]; rfl⟩
    rw [hm]
    rw [show (EszipV2.setSlotReady e c.1 isMap (some c.2)).modules =
      e.modules.map (fun p => if p.1 = c.1 then (p.1, setSlotInEntry isMap (some c.2) p.2)
        else p) from rfl]
    rw [List.map_map]
    have hfg : ((fun (p : List Nat × MapEntry) => (p.1, applyEntryChunks isMap rest p.1 p.2)) ∘
        (fun (p : List Nat × MapEntry) =>
          if p.1 = c.1 then (p.1, setSlotInEntry isMap (some c.2) p.2) else p)) =
        (fun (p : List Nat × MapEntry) => (p.1, applyEntryChunks isMap (c :: rest) p.1 p.2)) := by
      funext p
      have hunf : applyEntryChunks isMap (c :: rest) p.1 p.2 =
          applyEntryChunks isMap rest p.1
            (if c.1 = p.1 then setSlotInEntry isMap (some c.2) p.2 else p.2) := rfl
      by_cases hpc : p.1 = c.1
      · simp only [Function.comp, if_pos hpc]
        rw [hunf, if_pos hpc.symm]
      · simp only [Function.comp, if_neg hpc]
        rw [hunf, if_neg (fun hc => hpc hc.symm)]
    rw [hfg]

theorem applyEntryChunks_not_mem (isMap : Bool) (chunks : List (List Nat × List Nat))
    (k : List Nat) :
    ∀ v : MapEntry, k ∉ chunks.map Prod.fst → applyEntryChunks isMap chunks k v = v := by
  induction chunks with
  | nil => intro v _; rfl
  | cons c rest ih =>
    intro v h
    have hck : c.1 ≠ k := by
      intro hc
      exact h (by rw [List.map_cons]; exact hc ▸ List.mem_cons_self _ _)
    have hstep : applyEntryChunks isMap (c :: rest) k v =
        applyEntryChunks isMap rest k
          (if c.1 = k then setSlotInEntry isMap (some c.2) v else v) := rfl
    rw [hstep, if_neg hck]
    exact ih v (fun hc => h (by rw [List.map_cons]; exact List.mem_cons_of_mem _ hc))

theorem applyEntryChunks_find (isMap : Bool) (chunks : List (List Nat × List Nat))
    (k : List Nat) :
    ∀ v : MapEntry, (chunks.map Prod.fst).Nodup →
    applyEntryChunks isMap chunks k v =
      (match chunks.find? (fun c => decide (c.1 = k)) with
        | some c => setSlotInEntry isMap (some c.2) v
        | Option.none => v) := by
  induction chunks with
  | nil => intro v _; rfl
  | cons c rest ih =>
    intro v hnd
    have hstep : applyEntryChunks isMap (c :: rest) k v =
        applyEntryChunks isMap rest k
          (if c.1 = k then setSlotInEntry isMap (some c.2) v else v) := rfl
    rw [hstep]
    by_cases hck : c.1 = k
    · rw [if_pos hck]
      rw [List.find?_cons_of_pos _ (by rw [decide_eq_true_eq]; exact hck)]
      have hknotin : k ∉ rest.map Prod.fst := by
        have hh := (List.nodup_cons.mp (by rw [List.map_cons] at hnd; exact hnd)).1
        rw [hck] at hh
        exact hh
      exact applyEntryChunks_not_mem isMap rest k _ hknotin
    · rw [if_neg hck]
      rw [List.find?_cons_of_neg _ (by simp [hck])]
      exact ih v (List.nodup_cons.mp (by rw [List.map_cons] at hnd; exact hnd)).2

theorem applyEntryChunks_redirect (isMap : Bool) (chunks : List (List Nat × List Nat))
    (k : List Nat) (r : ModuleRedirect) :
    applyEntryChunks isMap chunks k (MapEntry.redirect r) = MapEntry.redirect r := by
  induction chunks with
  | nil => rfl
  | cons c rest ih =>
    have hstep : applyEntryChunks isMap (c :: rest) k (MapEntry.redirect r) =
        applyEntryChunks isMap rest k
          (if c.1 = k then setSlotInEntry isMap (some c.2) (MapEntry.redirect r)
            else MapEntry.redirect r) := rfl
    rw [hstep]
    rw [show (if c.1 = k then setSlotInEntry isMap (some c.2) (MapEntry.redirect r)
        else MapEntry.redirect r) = MapEntry.redirect r from by
      by_cases h : c.1 = k <;> simp [h, setSlotInEntry]]
    exact ih

theorem find?_none_of_not_mem {β : Type} (l : List (List Nat × β)) (k : List Nat)
    (h : k ∉ l.map Prod.fst) : l.find? (fun c => decide (c.1 = k)) = Option.none := by
  induction l with
  | nil => rfl
  | cons c rest ih =>
    rw [List.find?_cons_of_neg _ (by
      rw [decide_eq_true_eq]
      intro hc
      exact h (by rw [List.map_cons]; exact hc ▸ List.mem_cons_self _ _))]
    exact ih (fun hc => h (by rw [List.map_cons]; exact List.mem_cons_of_mem _ hc))

theorem srcChunks_keys_sublist (L : List (List Nat × MapEntry)) :
    ((srcChunks L).map Prod.fst).Sublist (L.map Prod.fst) := by
  induction L with
  | nil => simp [srcChunks]
  | cons p rest ih =>
    obtain ⟨k, v⟩ := p
    cases v with
    | data d =>
      simp only [srcChunks, List.map_cons]
      by_cases hb : (slotBytes d.Source).length = 0
      · rw [if_pos hb]
        exact ih.cons _
      · rw [if_neg hb]
        simp only [List.map_cons]
        exact ih.cons₂ _
    | redirect r =>
      simp only [srcChunks, List.map_cons]
      exact ih.cons _
    | npm n =>
      simp only [srcChunks, List.map_cons]
      exact ih.cons _

theorem mapChunks_keys_sublist (L : List (List Nat × MapEntry)) :
    ((mapChunks L).map Prod.fst).Sublist (L.map Prod.fst) := by
  induction L with
  | nil => simp [mapChunks]
  | cons p rest ih =>
    obtain ⟨k, v⟩ := p
    cases v with
    | data d =>
      simp only [mapChunks, List.map_cons]
      by_cases hb : (slotBytes d.SourceMap).length = 0
      · rw [if_pos hb]
        exact ih.cons _
      · rw [if_neg hb]
        simp only [List.map_cons]
        exact ih.cons₂ _
    | redirect r =>
      simp only [mapChunks, List.map_cons]
      exact ih.cons _
    | npm n =>
      simp only [mapChunks, List.map_cons]
      exact ih.cons _

theorem srcChunks_find_some (L : List (List Nat × MapEntry)) :
    ∀ (k : List Nat) (d : ModuleData), (L.map Prod.fst).Nodup →
    (k, MapEntry.data d) ∈ L → (slotBytes d.Source).length ≠ 0 →
    (srcChunks L).find? (fun c => decide (c.1 = k)) = some (k, slotBytes d.Source) := by
  induction L with
  | nil => intro k d _ hmem _; simp at hmem
  | cons p rest ih =>
    intro k d hnd hmem hne
    obtain ⟨k0, v0⟩ := p
    rw [List.map_cons] at hnd
    have hnd2 := List.nodup_cons.mp hnd
    rcases List.mem_cons.mp hmem with hh | ht
    · injection hh with hk hv
      subst hk
      subst hv
      simp only [srcChunks]
      rw [if_neg hne]
      rw [List.find?_cons_of_pos _ (by rw [decide_eq_true_eq])]
    · have hkrest : k ∈ rest.map Prod.fst := List.mem_map_of_mem Prod.fst ht
      have hk0 : k0 ≠ k := by
        intro hc
        exact hnd2.1 (hc ▸ hkrest)
      cases v0 with
      | data d0 =>
        simp only [srcChunks]
        by_cases hb : (slotBytes d0.Source).length = 0
        · rw [if_pos hb]
          exact ih k d hnd2.2 ht hne
        · rw [if_neg hb]
          rw [List.find?_cons_of_neg _ (by rw [decide_eq_true_eq]; exact hk0)]
          exact ih k d hnd2.2 ht hne
      | redirect r =>
        simp only [srcChunks]
        exact ih k d hnd2.2 ht hne
      | npm n =>
        simp only [srcChunks]
        exact ih k d hnd2.2 ht hne

theorem srcChunks_find_none (L : List (List Nat × MapEntry)) :
    ∀ (k : List Nat) (d : ModuleData), (L.map Prod.fst).Nodup →
    (k, MapEntry.data d) ∈ L → (slotBytes d.Source).length = 0 →
    (srcChunks L).find? (fun c => decide (c.1 = k)) = Option.none := by
  induction L with
  | nil => intro k d _ hmem _; simp at hmem
  | cons p rest ih =>
    intro k d hnd hmem h0
    obtain ⟨k0, v0⟩ := p
    rw [List.map_cons] at hnd
    have hnd2 := List.nodup_cons.mp hnd
    rcases List.mem_cons.mp hmem with hh | ht
    · injection hh with hk hv
      subst hk
      subst hv
      simp only [srcChunks]
      rw [if_pos h0]
      apply find?_none_of_not_mem
      intro hc
      exact hnd2.1 ((srcChunks_keys_sublist rest).mem hc)
    · have hkrest : k ∈ rest.map Prod.fst := List.mem_map_of_mem Prod.fst ht
      have hk0 : k0 ≠ k := by
        intro hc
        exact hnd2.1 (hc ▸ hkrest)
      cases v0 with
      | data d0 =>
        simp only [srcChunks]
        by_cases hb : (slotBytes d0.Source).length = 0
        · rw [if_pos hb]
          exact ih k d hnd2.2 ht h0
        · rw [if_neg hb]
          rw [List.find?_cons_of_neg _ (by rw [decide_eq_true_eq]; exact hk0)]
          exact ih k d hnd2.2 ht h0
      | redirect r =>
        simp only [srcChunks]
        exact ih k d hnd2.2 ht h0
      | npm n =>
        simp only [srcChunks]
        exact ih k d hnd2.2 ht h0

theorem mapChunks_find_some (L : List (List Nat × MapEntry)) :
    ∀ (k : List Nat) (d : ModuleData), (L.map Prod.fst).Nodup →
    (k, MapEntry.data d) ∈ L → (slotBytes d.SourceMap).length ≠ 0 →
    (mapChunks L).find? (fun c => decide (c.1 = k)) = some (k, slotBytes d.SourceMap) := by
  induction L with
  | nil => intro k d _ hmem _; simp at hmem
  | cons p rest ih =>
    intro k d hnd hmem hne
    obtain ⟨k0, v0⟩ := p
    rw [List.map_cons] at hnd
    have hnd2 := List.nodup_cons.mp hnd
    rcases List.mem_cons.mp hmem with hh | ht
    · injection hh with hk hv
      subst hk
      subst hv
      simp only [mapChunks]
      rw [if_neg hne]
      rw [List.find?_cons_of_pos _ (by rw [decide_eq_true_eq])]
    · have hkrest : k ∈ rest.map Prod.fst := List.mem_map_of_mem Prod.fst ht
      have hk0 : k0 ≠ k := by
        intro hc
        exact hnd2.1 (hc ▸ hkrest)
      cases v0 with
      | data d0 =>
        simp only [mapChunks]
        by_cases hb : (slotBytes d0.SourceMap).length = 0
        · rw [if_pos hb]
          exact ih k d hnd2.2 ht hne
        · rw [if_neg hb]
          rw [List.find?_cons_of_neg _ (by rw [decide_eq_true_eq]; exact hk0)]
          exact ih k d hnd2.2 ht hne
      | redirect r =>
        simp only [mapChunks]
        exact ih k d hnd2.2 ht hne
      | npm n =>
        simp only [mapChunks]
        exact ih k d hnd2.2 ht hne

theorem mapChunks_find_none (L : List (List Nat × MapEntry)) :
    ∀ (k : List Nat) (d : ModuleData), (L.map Prod.fst).Nodup →
    (k, MapEntry.data d) ∈ L → (slotBytes d.SourceMap).length = 0 →
    (mapChunks L).find? (fun c => decide (c.1 = k)) = Option.none := by
  induction L with
  | nil => intro k d _ hmem _; simp at hmem
  | cons p rest ih =>
    intro k d hnd hmem h0
    obtain ⟨k0, v0⟩ := p
    rw [List.map_cons] at hnd
    have hnd2 := List.nodup_cons.mp hnd
    rcases List.mem_cons.mp hmem with hh | ht
    · injection hh with hk hv
      subst hk
      subst hv
      simp only [mapChunks]
      rw [if_pos h0]
      apply find?_none_of_not_mem
      intro hc
      exact hnd2.1 ((mapChunks_keys_sublist rest).mem hc)
    · have hkrest : k ∈ rest.map Prod.fst := List.mem_map_of_mem Prod.fst ht
      have hk0 : k0 ≠ k := by
        intro hc
        exact hnd2.1 (hc ▸ hkrest)
      cases v0 with
      | data d0 =>
        simp only [mapChunks]
        by_cases hb : (slotBytes d0.SourceMap).length = 0
        · rw [if_pos hb]
          exact ih k d hnd2.2 ht h0
        · rw [if_neg hb]
          rw [List.find?_cons_of_neg _ (by rw [decide_eq_true_eq]; exact hk0)]
          exact ih k d hnd2.2 ht h0
      | redirect r =>
        simp only [mapChunks]
        exact ih k d hnd2.2 ht h0
      | npm n =>
        simp only [mapChunks]
        exact ih k d hnd2.2 ht h0



theorem slotBytes_ready_none : slotBytes (SourceSlot.ready Option.none) = [] := rfl

theorem slotBytes_ready_some (b : List Nat) :
    slotBytes (SourceSlot.ready (some b)) = b := rfl

theorem entry_roundtrip (schunks mchunks : List (List Nat × List Nat))
    (hnds : (schunks.map Prod.fst).Nodup) (hndm : (mchunks.map Prod.fst).Nodup)
    (k : List Nat) (d : ModuleData) (sOff mOff : Nat)
    (hs_some : (slotBytes d.Source).length ≠ 0 →
      schunks.find? (fun c => decide (c.1 = k)) = some (k, slotBytes d.Source))
    (hs_none : (slotBytes d.Source).length = 0 →
      schunks.find? (fun c => decide (c.1 = k)) = Option.none)
    (hm_some : (slotBytes d.SourceMap).length ≠ 0 →
      mchunks.find? (fun c => decide (c.1 = k)) = some (k, slotBytes d.SourceMap))
    (hm_none : (slotBytes d.SourceMap).length = 0 →
      mchunks.find? (fun c => decide (c.1 = k)) = Option.none) :
    entryEquivB
      (resolveEntry (applyEntryChunks true mchunks k (applyEntryChunks false schunks k
        (MapEntry.data
          { Kind := d.Kind
            Source := if (slotBytes d.Source).length = 0 then NewEmptySourceSlot
              else NewPendingSourceSlot sOff (slotBytes d.Source).length
            SourceMap := if (slotBytes d.SourceMap).length = 0 then NewEmptySourceSlot
              else NewPendingSourceSlot mOff (slotBytes d.SourceMap).length }))))
      (MapEntry.data d) = true := by
  rw [applyEntryChunks_find false schunks k _ hnds]
  by_cases hb : (slotBytes d.Source).length = 0
  · have hsb : slotBytes d.Source = [] := List.length_eq_zero.mp hb
    rw [hs_none hb, if_pos hb]
    simp only []
    rw [applyEntryChunks_find true mchunks k _ hndm]
    by_cases hmb : (slotBytes d.SourceMap).length = 0
    · have hmbb : slotBytes d.SourceMap = [] := List.length_eq_zero.mp hmb
      rw [hm_none hmb, if_pos hmb]
      simp [entryEquivB, resolveEntry, setSlotInEntry, SourceSlot.setReady,
        NewEmptySourceSlot, slotBytes_ready_none, slotBytes_ready_some, hsb, hmbb]
    · rw [hm_some hmb, if_neg hmb]
      simp [entryEquivB, resolveEntry, setSlotInEntry, SourceSlot.setReady,
        NewEmptySourceSlot, NewPendingSourceSlot, slotBytes_ready_none,
        slotBytes_ready_some, hsb]
  · rw [hs_some hb, if_neg hb]
    simp only []
    rw [applyEntryChunks_find true mchunks k _ hndm]
    by_cases hmb : (slotBytes d.SourceMap).length = 0
    · have hmbb : slotBytes d.SourceMap = [] := List.length_eq_zero.mp hmb
      rw [hm_none hmb, if_pos hmb]
      simp [entryEquivB, resolveEntry, setSlotInEntry, SourceSlot.setReady,
        NewEmptySourceSlot, NewPendingSourceSlot, slotBytes_ready_none,
        slotBytes_ready_some, hmbb]
    · rw [hm_some hmb, if_neg hmb]
      simp [entryEquivB, resolveEntry, setSlotInEntry, SourceSlot.setReady,
        NewPendingSourceSlot, slotBytes_ready_none, slotBytes_ready_some]

theorem modules_roundtrip_zip (cs : ChecksumType)
    (schunks mchunks : List (List Nat × List Nat))
    (hnds : (schunks.map Prod.fst).Nodup) (hndm : (mchunks.map Prod.fst).Nodup)
    (L : List (List Nat × MapEntry)) :
    ∀ (sOff mOff : Nat),
    (∀ kk dd, (kk, MapEntry.data dd) ∈ L →
      ((slotBytes dd.Source).length ≠ 0 →
        schunks.find? (fun c => decide (c.1 = kk)) = some (kk, slotBytes dd.Source)) ∧
      ((slotBytes dd.Source).length = 0 →
        schunks.find? (fun c => decide (c.1 = kk)) = Option.none)) →
    (∀ kk dd, (kk, MapEntry.data dd) ∈ L →
      ((slotBytes dd.SourceMap).length ≠ 0 →
        mchunks.find? (fun c => decide (c.1 = kk)) = some (kk, slotBytes dd.SourceMap)) ∧
      ((slotBytes dd.SourceMap).length = 0 →
        mchunks.find? (fun c => decide (c.1 = kk)) = Option.none)) →
    noNpmEntriesB L = true →
    ((parsedEntries cs sOff mOff L).map
      (fun p => (p.1, resolveEntry (applyEntryChunks true mchunks p.1
        (applyEntryChunks false schunks p.1 p.2))))).length = L.length ∧
    (((parsedEntries cs sOff mOff L).map
      (fun p => (p.1, resolveEntry (applyEntryChunks true mchunks p.1
        (applyEntryChunks false schunks p.1 p.2))))).zip L).all
      (fun pq => decide (pq.1.1 = pq.2.1) && entryEquivB pq.1.2 pq.2.2) = true := by
  induction L with
  | nil => intro sOff mOff _ _ _; exact ⟨rfl, rfl⟩
  | cons p rest ih =>
    intro sOff mOff hfs hfm hnpm
    obtain ⟨k, v⟩ := p
    have hfs' : ∀ kk dd, (kk, MapEntry.data dd) ∈ rest →
        ((slotBytes dd.Source).length ≠ 0 →
          schunks.find? (fun c => decide (c.1 = kk)) = some (kk, slotBytes dd.Source)) ∧
        ((slotBytes dd.Source).length = 0 →
          schunks.find? (fun c => decide (c.1 = kk)) = Option.none) :=
      fun kk dd hm => hfs kk dd (List.mem_cons_of_mem _ hm)
    have hfm' : ∀ kk dd, (kk, MapEntry.data dd) ∈ rest →
        ((slotBytes dd.SourceMap).length ≠ 0 →
          mchunks.find? (fun c => decide (c.1 = kk)) = some (kk, slotBytes dd.SourceMap)) ∧
        ((slotBytes dd.SourceMap).length = 0 →
          mchunks.find? (fun c => decide (c.1 = kk)) = Option.none) :=
      fun kk dd hm => hfm kk dd (List.mem_cons_of_mem _ hm)
    have hnpm' : noNpmEntriesB rest = true := by
      simp only [noNpmEntriesB, List.all_cons, Bool.and_eq_true] at hnpm
      exact hnpm.2
    cases v with
    | data d =>
      obtain ⟨ihl, iha⟩ := ih (sOff + (if (slotBytes d.Source).length = 0 then 0 else (slotBytes d.Source).length + (cs.Hash (slotBytes d.Source)).length)) (mOff + (if (slotBytes d.SourceMap).length = 0 then 0 else (slotBytes d.SourceMap).length + (cs.Hash (slotBytes d.SourceMap)).length)) hfs' hfm' hnpm'
      have hhead := entry_roundtrip schunks mchunks hnds hndm k d sOff mOff
        (hfs k d (List.mem_cons_self _ _)).1 (hfs k d (List.mem_cons_self _ _)).2
        (hfm k d (List.mem_cons_self _ _)).1 (hfm k d (List.mem_cons_self _ _)).2
      simp only [parsedEntries, List.map_cons, List.zip_cons_cons, List.all_cons,
        List.length_cons, Bool.and_eq_true]
      refine ⟨by rw [ihl], ⟨?_, ?_⟩, iha⟩
      · simp
      · exact hhead
    | redirect r =>
      obtain ⟨ihl, iha⟩ := ih sOff mOff hfs' hfm' hnpm'
      simp only [parsedEntries, List.map_cons, List.zip_cons_cons, List.all_cons,
        List.length_cons, Bool.and_eq_true]
      refine ⟨by rw [ihl], ⟨?_, ?_⟩, iha⟩
      · simp
      · rw [applyEntryChunks_redirect, applyEntryChunks_redirect]
        simp [entryEquivB, resolveEntry]
    | npm n =>
      simp [noNpmEntriesB] at hnpm



theorem not_mem_keys_of_not_any {m : ModuleMap} {k : List Nat}
    (hc : ¬ m.any (fun p => decide (p.1 = k)) = true) : k ∉ m.map Prod.fst := by
  intro hmem
  apply hc
  rw [List.any_eq_true]
  obtain ⟨p, hp, hpk⟩ := List.mem_map.mp hmem
  exact ⟨p, hp, by rw [decide_eq_true_eq]; exact hpk⟩

theorem insert_keys_nodup (m : ModuleMap) (k : List Nat) (v : MapEntry)
    (h : (m.map Prod.fst).Nodup) : ((m.Insert k v).map Prod.fst).Nodup := by
  unfold ModuleMap.Insert
  by_cases hc : m.any (fun p => decide (p.1 = k)) = true
  · rw [if_pos hc]
    rw [List.map_map]
    rw [show (Prod.fst ∘ fun (p : List Nat × MapEntry) => if p.1 = k then (k, v) else p) =
        Prod.fst from by
      funext p
      by_cases hp : p.1 = k
      · simp [Function.comp, hp]
      · simp [Function.comp, hp]]
    exact h
  · rw [if_neg hc]
    rw [List.map_append]
    rw [List.nodup_append]
    refine ⟨h, by simp, ?_⟩
    intro a ha hb
    simp only [List.map_cons, List.map_nil, List.mem_singleton] at hb
    subst hb
    exact not_mem_keys_of_not_any hc ha

theorem insert_noNpm (m : ModuleMap) (k : List Nat) (v : MapEntry)
    (hm : noNpmEntriesB m = true)
    (hv : (match v with | MapEntry.npm _ => false | _ => true) = true) :
    noNpmEntriesB (m.Insert k v) = true := by
  unfold ModuleMap.Insert
  unfold noNpmEntriesB at hm ⊢
  by_cases hc : m.any (fun p => decide (p.1 = k)) = true
  · rw [if_pos hc]
    rw [List.all_eq_true] at hm ⊢
    intro p hp
    obtain ⟨q, hq, hfq⟩ := List.mem_map.mp hp
    by_cases hq1 : q.1 = k
    · rw [if_pos hq1] at hfq
      rw [← hfq]
      exact hv
    · rw [if_neg hq1] at hfq
      rw [← hfq]
      exact hm q hq
  · rw [if_neg hc]
    rw [List.all_append]
    rw [hm]
    simp [hv]

theorem insertFront_keys_nodup (m : ModuleMap) (k : List Nat) (v : MapEntry)
    (h : (m.map Prod.fst).Nodup) : ((m.InsertFront k v).map Prod.fst).Nodup := by
  unfold ModuleMap.InsertFront
  rw [List.map_cons, List.nodup_cons]
  constructor
  · intro hmem
    obtain ⟨p, hp, hpk⟩ := List.mem_map.mp hmem
    have hf := List.of_mem_filter hp
    rw [decide_eq_true_eq] at hf
    exact hf hpk
  · exact List.Nodup.sublist ((List.filter_sublist _).map Prod.fst) h

theorem insertFront_noNpm (m : ModuleMap) (k : List Nat) (v : MapEntry)
    (hm : noNpmEntriesB m = true)
    (hv : (match v with | MapEntry.npm _ => false | _ => true) = true) :
    noNpmEntriesB (m.InsertFront k v) = true := by
  unfold ModuleMap.InsertFront
  unfold noNpmEntriesB at hm ⊢
  rw [List.all_cons]
  rw [List.all_eq_true] at hm
  have ht : (m.filter (fun p => decide (p.1 ≠ k))).all
      (fun p => match p.2 with | MapEntry.npm _ => false | _ => true) = true := by
    rw [List.all_eq_true]
    intro p hp
    exact hm p (List.mem_of_mem_filter hp)
  rw [ht]
  simp [hv]

theorem applyOp_inv (e : EszipV2) (op : BuildOp)
    (h1 : e.version = EszipVersion.v2_3) (h2 : e.npmSnapshot = Option.none)
    (h3 : e.options.ChecksumSize = 0) (h4 : noNpmEntriesB e.modules = true)
    (h5 : (e.modules.map Prod.fst).Nodup) :
    (applyOp e op).version = EszipVersion.v2_3 ∧
    (applyOp e op).npmSnapshot = Option.none ∧
    (applyOp e op).options.ChecksumSize = 0 ∧
    noNpmEntriesB (applyOp e op).modules = true ∧
    ((applyOp e op).modules.map Prod.fst).Nodup := by
  cases op with
  | addModule s kind src mmap =>
    exact ⟨h1, h2, h3, insert_noNpm _ _ _ h4 rfl, insert_keys_nodup _ _ _ h5⟩
  | addRedirect s t =>
    exact ⟨h1, h2, h3, insert_noNpm _ _ _ h4 rfl, insert_keys_nodup _ _ _ h5⟩
  | addImportMap kind s src =>
    exact ⟨h1, h2, h3, insertFront_noNpm _ _ _ h4 rfl, insertFront_keys_nodup _ _ _ h5⟩
  | addOpaqueData s dd =>
    exact ⟨h1, h2, h3, insert_noNpm _ _ _ h4 rfl, insert_keys_nodup _ _ _ h5⟩
  | setChecksum c =>
    exact ⟨h1, h2, h3, h4, h5⟩

theorem buildArchive_inv (ops : List BuildOp) :
    (buildArchive ops).version = EszipVersion.v2_3 ∧
    (buildArchive ops).npmSnapshot = Option.none ∧
    (buildArchive ops).options.ChecksumSize = 0 ∧
    noNpmEntriesB (buildArchive ops).modules = true ∧
    ((buildArchive ops).modules.map Prod.fst).Nodup := by
  unfold buildArchive
  have hrec : ∀ (l : List BuildOp) (e : EszipV2),
      e.version = EszipVersion.v2_3 → e.npmSnapshot = Option.none →
      e.options.ChecksumSize = 0 → noNpmEntriesB e.modules = true →
      (e.modules.map Prod.fst).Nodup →
      (l.foldl applyOp e).version = EszipVersion.v2_3 ∧
      (l.foldl applyOp e).npmSnapshot = Option.none ∧
      (l.foldl applyOp e).options.ChecksumSize = 0 ∧
      noNpmEntriesB (l.foldl applyOp e).modules = true ∧
      ((l.foldl applyOp e).modules.map Prod.fst).Nodup := by
    intro l
    induction l with
    | nil => intro e h1 h2 h3 h4 h5; exact ⟨h1, h2, h3, h4, h5⟩
    | cons op rest ih =>
      intro e h1 h2 h3 h4 h5
      rw [List.foldl_cons]
      obtain ⟨g1, g2, g3, g4, g5⟩ := applyOp_inv e op h1 h2 h3 h4 h5
      exact ih (applyOp e op) g1 g2 g3 g4 g5
  exact hrec ops NewV2 rfl rfl rfl rfl (by simp [NewV2, NewModuleMap])

theorem getChecksumSize_zero (o : Options) (h : o.ChecksumSize = 0) :
    o.GetChecksumSize = o.Checksum.DigestSize := by
  unfold Options.GetChecksumSize
  rw [if_neg (by simp [h])]

theorem getChecksumSize_digest (cs : ChecksumType) :
    (Options.mk cs cs.DigestSize).GetChecksumSize = cs.DigestSize := by
  by_cases h : cs.DigestSize = 0
  · simp [Options.GetChecksumSize, h]
  · simp [Options.GetChecksumSize, h]

theorem digestSize_lt (cs : ChecksumType) : cs.DigestSize < 256 := by
  cases cs <;> decide

theorem parseOptionsHeader_writer (cs : ChecksumType) (tail : List Nat) :
    parseOptionsHeader
      ((u32Bytes 4 ++ ([0, cs.toByte, 1, cs.DigestSize % 256] ++
        cs.Hash [0, cs.toByte, 1, cs.DigestSize % 256])) ++ tail)
      (DefaultOptionsForVersion .v2_3) =
      .ok (⟨cs, cs.DigestSize⟩, tail) := by
  cases cs with
  | none =>
    have hfr := readSection_frame [0, 0, 1, 0] ⟨.none, 0⟩ []
      (ChecksumType.none.Hash [0, 0, 1, 0] ++ tail) rfl (by decide)
    have hfr2 : readSection (u32Bytes 4 ++ ([0, 0, 1, 0] ++
        (ChecksumType.none.Hash [0, 0, 1, 0] ++ tail))) ⟨.none, 0⟩ =
        .ok (⟨[0, 0, 1, 0], [], .none⟩, ChecksumType.none.Hash [0, 0, 1, 0] ++ tail) := by
      simpa using hfr
    rw [show ((u32Bytes 4 ++ ([0, ChecksumType.none.toByte, 1,
          ChecksumType.none.DigestSize % 256] ++
        ChecksumType.none.Hash [0, ChecksumType.none.toByte, 1,
          ChecksumType.none.DigestSize % 256])) ++ tail : List Nat) =
      u32Bytes 4 ++ ([0, 0, 1, 0] ++ (ChecksumType.none.Hash [0, 0, 1, 0] ++ tail)) from by
        simp [ChecksumType.toByte, ChecksumType.DigestSize, List.append_assoc]]
    simp only [parseOptionsHeader, hfr2, Section.ContentLen]
    rw [if_neg (by decide)]
    rw [show applyOptions (DefaultOptionsForVersion .v2_3) [0, 0, 1, 0] =
      (⟨.none, 0⟩ : Options) from rfl]
    rw [if_neg (by decide)]
    rw [if_neg (by decide)]
    rfl
  | sha256 =>
    have hfr := readSection_frame [0, 1, 1, 32] ⟨.none, 0⟩ []
      (ChecksumType.sha256.Hash [0, 1, 1, 32] ++ tail) rfl (by decide)
    have hfr2 : readSection (u32Bytes 4 ++ ([0, 1, 1, 32] ++
        (ChecksumType.sha256.Hash [0, 1, 1, 32] ++ tail))) ⟨.none, 0⟩ =
        .ok (⟨[0, 1, 1, 32], [], .none⟩, ChecksumType.sha256.Hash [0, 1, 1, 32] ++ tail) := by
      simpa using hfr
    rw [show ((u32Bytes 4 ++ ([0, ChecksumType.sha256.toByte, 1,
          ChecksumType.sha256.DigestSize % 256] ++
        ChecksumType.sha256.Hash [0, ChecksumType.sha256.toByte, 1,
          ChecksumType.sha256.DigestSize % 256])) ++ tail : List Nat) =
      u32Bytes 4 ++ ([0, 1, 1, 32] ++ (ChecksumType.sha256.Hash [0, 1, 1, 32] ++ tail)) from by
        simp [ChecksumType.toByte, ChecksumType.DigestSize, List.append_assoc]]
    simp only [parseOptionsHeader, hfr2, Section.ContentLen]
    rw [if_neg (by decide)]
    rw [show applyOptions (DefaultOptionsForVersion .v2_3) [0, 1, 1, 32] =
      (⟨.sha256, 32⟩ : Options) from rfl]
    rw [if_neg (by decide)]
    rw [if_pos (by decide)]
    rw [takeExact_append_of_eq _ tail (by rw [hash_length]; decide)]
    simp [verify_hash_self, ChecksumType.DigestSize]
  | xxh3 =>
    have hfr := readSection_frame [0, 2, 1, 8] ⟨.none, 0⟩ []
      (ChecksumType.xxh3.Hash [0, 2, 1, 8] ++ tail) rfl (by decide)
    have hfr2 : readSection (u32Bytes 4 ++ ([0, 2, 1, 8] ++
        (ChecksumType.xxh3.Hash [0, 2, 1, 8] ++ tail))) ⟨.none, 0⟩ =
        .ok (⟨[0, 2, 1, 8], [], .none⟩, ChecksumType.xxh3.Hash [0, 2, 1, 8] ++ tail) := by
      simpa using hfr
    rw [show ((u32Bytes 4 ++ ([0, ChecksumType.xxh3.toByte, 1,
          ChecksumType.xxh3.DigestSize % 256] ++
        ChecksumType.xxh3.Hash [0, ChecksumType.xxh3.toByte, 1,
          ChecksumType.xxh3.DigestSize % 256])) ++ tail : List Nat) =
      u32Bytes 4 ++ ([0, 2, 1, 8] ++ (ChecksumType.xxh3.Hash [0, 2, 1, 8] ++ tail)) from by
        simp [ChecksumType.toByte, ChecksumType.DigestSize, List.append_assoc]]
    simp only [parseOptionsHeader, hfr2, Section.ContentLen]
    rw [if_neg (by decide)]
    rw [show applyOptions (DefaultOptionsForVersion .v2_3) [0, 2, 1, 8] =
      (⟨.xxh3, 8⟩ : Options) from rfl]
    rw [if_neg (by decide)]
    rw [if_pos (by decide)]
    rw [takeExact_append_of_eq _ tail (by rw [hash_length]; decide)]
    simp [verify_hash_self, ChecksumType.DigestSize]



theorem parseNpmSection_writer (cs : ChecksumType) (tail : List Nat) :
    parseNpmSection (u32Bytes 0 ++ (cs.Hash [] ++ tail)) ⟨cs, cs.DigestSize⟩ [] =
      .ok (Option.none, tail) := by
  unfold parseNpmSection
  have hrs := readSection_frame [] ⟨cs, cs.DigestSize⟩ (cs.Hash []) tail
    (by rw [hash_length, getChecksumSize_digest]) (Nat.zero_le _)
  have hrs2 : readSection (u32Bytes 0 ++ (cs.Hash [] ++ tail)) ⟨cs, cs.DigestSize⟩ =
      .ok (⟨[], cs.Hash [], cs⟩, tail) := by simpa using hrs
  rw [hrs2]
  simp only []
  rw [if_neg (by simp [Section.IsChecksumValid, verify_hash_self])]
  rfl

theorem intoBytes_inv (e : EszipV2) (bs : List Nat)
    (hv : e.version = EszipVersion.v2_3) (hsnap : e.npmSnapshot = Option.none)
    (hser : e.IntoBytes = Except.ok bs) :
    ∃ hdr0 S M : List Nat,
      buildModulePart e.options.Checksum e.modules [] [] [] = .ok (hdr0, S, M) ∧
      hdr0.length ≤ maxUint32 ∧ S.length ≤ maxUint32 ∧ M.length ≤ maxUint32 ∧
      bs = EszipVersion.v2_3.ToMagic ++
        (u32Bytes 4 ++ [0, e.options.Checksum.toByte, 1, e.options.GetChecksumSize % 256] ++
          e.options.Checksum.Hash [0, e.options.Checksum.toByte, 1,
            e.options.GetChecksumSize % 256]) ++
        u32Bytes hdr0.length ++ hdr0 ++ e.options.Checksum.Hash hdr0 ++
        (u32Bytes 0 ++ e.options.Checksum.Hash []) ++
        u32Bytes S.length ++ S ++ u32Bytes M.length ++ M := by
  unfold EszipV2.IntoBytes at hser
  simp only [] at hser
  rw [hv, hsnap] at hser
  simp only [EszipVersion.SupportsOptions, EszipVersion.SupportsNpm, reduceIte] at hser
  cases hbm : buildModulePart e.options.Checksum e.modules [] [] [] with
  | error err => rw [hbm] at hser; simp only [] at hser; cases hser
  | ok tri =>
    obtain ⟨hdr0, S, M⟩ := tri
    rw [hbm] at hser
    simp only [] at hser
    by_cases hc1 : hdr0.length > maxUint32
    · rw [if_pos hc1] at hser; cases hser
    rw [if_neg hc1] at hser
    rw [if_neg (by
      rintro ⟨_, hc⟩
      simp only [List.length_nil] at hc
      unfold maxUint32 at hc
      omega)] at hser
    by_cases hc2 : S.length > maxUint32
    · rw [if_pos hc2] at hser; cases hser
    rw [if_neg hc2] at hser
    by_cases hc3 : M.length > maxUint32
    · rw [if_pos hc3] at hser; cases hser
    rw [if_neg hc3] at hser
    injection hser with hser
    refine ⟨hdr0, S, M, rfl, by omega, by omega, by omega, ?_⟩
    rw [← hser]
    simp [List.append_assoc]


/-- C1 (amended): round-trip for mutator-built archives within the parser
section limits: if serialization succeeds and the modules header, the
sources payload and the source-maps payload each fit in `maxSectionSize`,
then parsing the serialized bytes succeeds and the result is equivalent to
the original archive in its specifiers, each module kind, source bytes,
source-map bytes, redirect targets and the npm snapshot.  The size
hypotheses cannot be dropped: the writer checks its buffers only against
`maxUint32` while the parser rejects sections beyond `maxSectionSize`
(256 MiB), so the unamended round-trip claim fails; see the
counterexample theorem. -/
theorem roundtrip_amended (ops : List BuildOp) (bs : List Nat)
    (hser : (buildArchive ops).IntoBytes = Except.ok bs)
    (hhdr : (framesOf (buildArchive ops).options.Checksum 0 0
      (buildArchive ops).modules).length ≤ maxSectionSize)
    (hsrc : (payloadOf (buildArchive ops).options.Checksum
      (srcChunks (buildArchive ops).modules)).length ≤ maxSectionSize)
    (hmap : (payloadOf (buildArchive ops).options.Checksum
      (mapChunks (buildArchive ops).modules)).length ≤ maxSectionSize) :
    parseMatches bs (buildArchive ops) = true := by
  obtain ⟨hv, hsnap, hcs0, hnpm, hnd⟩ := buildArchive_inv ops
  set A := buildArchive ops with hA
  obtain ⟨hdr0, S, M, hbm, hb1, hb2, hb3, hbseq⟩ := intoBytes_inv A bs hv hsnap hser
  obtain ⟨hH, hS, hM, hk, ht, hd⟩ :=
    buildModulePart_ok (A.options.Checksum) A.modules [] [] [] hdr0 S M hbm
  simp only [List.nil_append, List.length_nil] at hH hS hM
  subst hH
  subst hS
  subst hM
  have hopt : A.options.GetChecksumSize = (A.options.Checksum).DigestSize :=
    getChecksumSize_zero _ hcs0
  have hbs : bs = EszipVersion.v2_3.ToMagic ++ ((u32Bytes 4 ++ ([0, (A.options.Checksum).toByte, 1, (A.options.Checksum).DigestSize % 256] ++ (A.options.Checksum).Hash [0, (A.options.Checksum).toByte, 1, (A.options.Checksum).DigestSize % 256])) ++ (u32Bytes (framesOf (A.options.Checksum) 0 0 A.modules).length ++ ((framesOf (A.options.Checksum) 0 0 A.modules) ++ ((A.options.Checksum).Hash (framesOf (A.options.Checksum) 0 0 A.modules) ++ (u32Bytes 0 ++ ((A.options.Checksum).Hash [] ++ (u32Bytes (payloadOf (A.options.Checksum) (srcChunks A.modules)).length ++ ((payloadOf (A.options.Checksum) (srcChunks A.modules)) ++ (u32Bytes (payloadOf (A.options.Checksum) (mapChunks A.modules)).length ++ (payloadOf (A.options.Checksum) (mapChunks A.modules))))))))))) := by
    rw [hbseq, hopt]
    simp [List.append_assoc]
  have h1 : parseV2 bs = Except.ok (({ modules := parsedEntries (A.options.Checksum) 0 0 A.modules, npmSnapshot := Option.none, options := ⟨A.options.Checksum, (A.options.Checksum).DigestSize⟩, version := EszipVersion.v2_3 } : EszipV2), (⟨A.options.Checksum, (A.options.Checksum).DigestSize⟩ : Options),
      offsetsOf (A.options.Checksum) 0 (srcChunks A.modules),
      offsetsOf (A.options.Checksum) 0 (mapChunks A.modules), (u32Bytes (payloadOf (A.options.Checksum) (srcChunks A.modules)).length ++ ((payloadOf (A.options.Checksum) (srcChunks A.modules)) ++ (u32Bytes (payloadOf (A.options.Checksum) (mapChunks A.modules)).length ++ (payloadOf (A.options.Checksum) (mapChunks A.modules)))))) := by
    rw [hbs]
    unfold parseV2
    rw [takeExact_append_of_eq EszipVersion.v2_3.ToMagic _ (show EszipVersion.v2_3.ToMagic.length = 8 from rfl)]
    simp only []
    rw [show VersionFromMagic EszipVersion.v2_3.ToMagic = some EszipVersion.v2_3 from by decide]
    simp only []
    unfold parseV2WithVersion
    simp only [EszipVersion.SupportsNpm, EszipVersion.SupportsOptions, reduceIte]
    rw [parseOptionsHeader_writer (A.options.Checksum) (u32Bytes (framesOf (A.options.Checksum) 0 0 A.modules).length ++ ((framesOf (A.options.Checksum) 0 0 A.modules) ++ ((A.options.Checksum).Hash (framesOf (A.options.Checksum) 0 0 A.modules) ++ (u32Bytes 0 ++ ((A.options.Checksum).Hash [] ++ (u32Bytes (payloadOf (A.options.Checksum) (srcChunks A.modules)).length ++ ((payloadOf (A.options.Checksum) (srcChunks A.modules)) ++ (u32Bytes (payloadOf (A.options.Checksum) (mapChunks A.modules)).length ++ (payloadOf (A.options.Checksum) (mapChunks A.modules))))))))))]
    simp only []
    rw [readSection_frame (framesOf (A.options.Checksum) 0 0 A.modules) (⟨A.options.Checksum, (A.options.Checksum).DigestSize⟩ : Options) ((A.options.Checksum).Hash (framesOf (A.options.Checksum) 0 0 A.modules)) (u32Bytes 0 ++ ((A.options.Checksum).Hash [] ++ (u32Bytes (payloadOf (A.options.Checksum) (srcChunks A.modules)).length ++ ((payloadOf (A.options.Checksum) (srcChunks A.modules)) ++ (u32Bytes (payloadOf (A.options.Checksum) (mapChunks A.modules)).length ++ (payloadOf (A.options.Checksum) (mapChunks A.modules)))))))
      (by rw [hash_length, getChecksumSize_digest]) hhdr]
    simp only []
    rw [if_neg (by simp [Section.IsChecksumValid, verify_hash_self])]
    rw [parseModulesHeader_framesOf (A.options.Checksum) A.modules hk ht hd hb2 hb3 hnpm hnd]
    simp only []
    rw [parseNpmSection_writer (A.options.Checksum) (u32Bytes (payloadOf (A.options.Checksum) (srcChunks A.modules)).length ++ ((payloadOf (A.options.Checksum) (srcChunks A.modules)) ++ (u32Bytes (payloadOf (A.options.Checksum) (mapChunks A.modules)).length ++ (payloadOf (A.options.Checksum) (mapChunks A.modules)))))]
    simp only []
    rw [buildOffsets_parsedEntries (A.options.Checksum) A.modules 0 0 [] []
      (by intro q hq; cases hq) (by intro q hq; cases hq)
      (by have hx := hsrc; omega) (by have hx := hmap; omega)]
    simp only [List.nil_append]
  have hsz2 : ((⟨A.options.Checksum, (A.options.Checksum).DigestSize⟩ : Options)).GetChecksumSize = ((⟨A.options.Checksum, (A.options.Checksum).DigestSize⟩ : Options)).Checksum.DigestSize :=
    getChecksumSize_digest _
  have hh : ∀ b : List Nat, ((A.options.Checksum).Hash b).length = ((⟨A.options.Checksum, (A.options.Checksum).DigestSize⟩ : Options)).GetChecksumSize := by
    intro b
    rw [hash_length, getChecksumSize_digest]
  have hne1 : (srcChunks A.modules).all (fun c => decide (0 < c.2.length)) = true := by
    rw [List.all_eq_true]
    intro c hc
    rw [decide_eq_true_eq]
    exact srcChunks_nonempty A.modules c hc
  have hne2 : (mapChunks A.modules).all (fun c => decide (0 < c.2.length)) = true := by
    rw [List.all_eq_true]
    intro c hc
    rw [decide_eq_true_eq]
    exact mapChunks_nonempty A.modules c hc
  have hwalk1 : walkPrefixOk (offsetsOf (A.options.Checksum) 0 (srcChunks A.modules))
      ((⟨A.options.Checksum, (A.options.Checksum).DigestSize⟩ : Options)).GetChecksumSize (payloadOf (A.options.Checksum) (srcChunks A.modules)).length 0 (srcChunks A.modules) = true := by
    have hw := walkPrefix_offsetsOf (A.options.Checksum) _ hh ((payloadOf (A.options.Checksum) (srcChunks A.modules)).length) (srcChunks A.modules) [] 0
      (by intro q hq; cases hq) (srcChunks_nonempty A.modules)
      (fun c hc => le_trans (chunk_le_payload (A.options.Checksum) _ c hc) hsrc)
      (by rw [endRead_payload (A.options.Checksum) _ hh _ 0]; omega)
    simpa using hw
  have hwalk2 : walkPrefixOk (offsetsOf (A.options.Checksum) 0 (mapChunks A.modules))
      ((⟨A.options.Checksum, (A.options.Checksum).DigestSize⟩ : Options)).GetChecksumSize (payloadOf (A.options.Checksum) (mapChunks A.modules)).length 0 (mapChunks A.modules) = true := by
    have hw := walkPrefix_offsetsOf (A.options.Checksum) _ hh ((payloadOf (A.options.Checksum) (mapChunks A.modules)).length) (mapChunks A.modules) [] 0
      (by intro q hq; cases hq) (mapChunks_nonempty A.modules)
      (fun c hc => le_trans (chunk_le_payload (A.options.Checksum) _ c hc) hmap)
      (by rw [endRead_payload (A.options.Checksum) _ hh _ 0]; omega)
    simpa using hw
  have hend1 : (payloadOf (A.options.Checksum) (srcChunks A.modules)).length ≤
      endRead ((⟨A.options.Checksum, (A.options.Checksum).DigestSize⟩ : Options)).GetChecksumSize 0 (srcChunks A.modules) := by
    rw [endRead_payload (A.options.Checksum) _ hh _ 0]
    omega
  have hend2 : (payloadOf (A.options.Checksum) (mapChunks A.modules)).length ≤
      endRead ((⟨A.options.Checksum, (A.options.Checksum).DigestSize⟩ : Options)).GetChecksumSize 0 (mapChunks A.modules) := by
    rw [endRead_payload (A.options.Checksum) _ hh _ 0]
    omega
  have hls1 := loadSection_success (⟨A.options.Checksum, (A.options.Checksum).DigestSize⟩ : Options)
    (offsetsOf (A.options.Checksum) 0 (srcChunks A.modules)) false ({ modules := parsedEntries (A.options.Checksum) 0 0 A.modules, npmSnapshot := Option.none, options := ⟨A.options.Checksum, (A.options.Checksum).DigestSize⟩, version := EszipVersion.v2_3 } : EszipV2) (srcChunks A.modules)
    (u32Bytes (payloadOf (A.options.Checksum) (mapChunks A.modules)).length ++ (payloadOf (A.options.Checksum) (mapChunks A.modules))) ((payloadOf (A.options.Checksum) (srcChunks A.modules)).length) hsz2 hsrc hwalk1 hne1 hend1
  simp only [] at hls1
  have hls2 := loadSection_success (⟨A.options.Checksum, (A.options.Checksum).DigestSize⟩ : Options)
    (offsetsOf (A.options.Checksum) 0 (mapChunks A.modules)) true (applyChunks false (srcChunks A.modules) ({ modules := parsedEntries (A.options.Checksum) 0 0 A.modules, npmSnapshot := Option.none, options := ⟨A.options.Checksum, (A.options.Checksum).DigestSize⟩, version := EszipVersion.v2_3 } : EszipV2)) (mapChunks A.modules)
    [] ((payloadOf (A.options.Checksum) (mapChunks A.modules)).length) hsz2 hmap hwalk2 hne2 hend2
  simp only [] at hls2
  rw [List.append_nil] at hls2
  have h2 : loadSources noCancel (u32Bytes (payloadOf (A.options.Checksum) (srcChunks A.modules)).length ++ ((payloadOf (A.options.Checksum) (srcChunks A.modules)) ++ (u32Bytes (payloadOf (A.options.Checksum) (mapChunks A.modules)).length ++ (payloadOf (A.options.Checksum) (mapChunks A.modules))))) ({ modules := parsedEntries (A.options.Checksum) 0 0 A.modules, npmSnapshot := Option.none, options := ⟨A.options.Checksum, (A.options.Checksum).DigestSize⟩, version := EszipVersion.v2_3 } : EszipV2) (⟨A.options.Checksum, (A.options.Checksum).DigestSize⟩ : Options)
      (offsetsOf (A.options.Checksum) 0 (srcChunks A.modules))
      (offsetsOf (A.options.Checksum) 0 (mapChunks A.modules)) =
      (((applyChunks true (mapChunks A.modules) (applyChunks false (srcChunks A.modules) ({ modules := parsedEntries (A.options.Checksum) 0 0 A.modules, npmSnapshot := Option.none, options := ⟨A.options.Checksum, (A.options.Checksum).DigestSize⟩, version := EszipVersion.v2_3 } : EszipV2))).resolvePendingSlots), [], Option.none) := by
    unfold loadSources
    rw [hls1]
    simp only []
    rw [hls2]
  have hsync : parseV2SyncNoCancel bs = Except.ok ((applyChunks true (mapChunks A.modules) (applyChunks false (srcChunks A.modules) ({ modules := parsedEntries (A.options.Checksum) 0 0 A.modules, npmSnapshot := Option.none, options := ⟨A.options.Checksum, (A.options.Checksum).DigestSize⟩, version := EszipVersion.v2_3 } : EszipV2))).resolvePendingSlots) := by
    unfold parseV2SyncNoCancel
    rw [h1]
    simp only []
    rw [h2]
  have hmods : (((applyChunks true (mapChunks A.modules) (applyChunks false (srcChunks A.modules) ({ modules := parsedEntries (A.options.Checksum) 0 0 A.modules, npmSnapshot := Option.none, options := ⟨A.options.Checksum, (A.options.Checksum).DigestSize⟩, version := EszipVersion.v2_3 } : EszipV2))).resolvePendingSlots)).modules = (parsedEntries (A.options.Checksum) 0 0 A.modules).map
      (fun p => (p.1, resolveEntry (applyEntryChunks true (mapChunks A.modules) p.1
        (applyEntryChunks false (srcChunks A.modules) p.1 p.2)))) := by
    rw [show (((applyChunks true (mapChunks A.modules) (applyChunks false (srcChunks A.modules) ({ modules := parsedEntries (A.options.Checksum) 0 0 A.modules, npmSnapshot := Option.none, options := ⟨A.options.Checksum, (A.options.Checksum).DigestSize⟩, version := EszipVersion.v2_3 } : EszipV2))).resolvePendingSlots)).modules = ((applyChunks true (mapChunks A.modules) (applyChunks false (srcChunks A.modules) ({ modules := parsedEntries (A.options.Checksum) 0 0 A.modules, npmSnapshot := Option.none, options := ⟨A.options.Checksum, (A.options.Checksum).DigestSize⟩, version := EszipVersion.v2_3 } : EszipV2))).modules).map
      (fun p => (p.1, resolveEntry p.2)) from rfl]
    rw [(applyChunks_fields true (mapChunks A.modules) (applyChunks false (srcChunks A.modules) ({ modules := parsedEntries (A.options.Checksum) 0 0 A.modules, npmSnapshot := Option.none, options := ⟨A.options.Checksum, (A.options.Checksum).DigestSize⟩, version := EszipVersion.v2_3 } : EszipV2))).1]
    rw [(applyChunks_fields false (srcChunks A.modules) ({ modules := parsedEntries (A.options.Checksum) 0 0 A.modules, npmSnapshot := Option.none, options := ⟨A.options.Checksum, (A.options.Checksum).DigestSize⟩, version := EszipVersion.v2_3 } : EszipV2)).1]
    rw [show (({ modules := parsedEntries (A.options.Checksum) 0 0 A.modules, npmSnapshot := Option.none, options := ⟨A.options.Checksum, (A.options.Checksum).DigestSize⟩, version := EszipVersion.v2_3 } : EszipV2)).modules = parsedEntries (A.options.Checksum) 0 0 A.modules from rfl]
    rw [List.map_map, List.map_map]
    congr 1
  have hsnap2 : (((applyChunks true (mapChunks A.modules) (applyChunks false (srcChunks A.modules) ({ modules := parsedEntries (A.options.Checksum) 0 0 A.modules, npmSnapshot := Option.none, options := ⟨A.options.Checksum, (A.options.Checksum).DigestSize⟩, version := EszipVersion.v2_3 } : EszipV2))).resolvePendingSlots)).npmSnapshot = Option.none := by
    rw [show (((applyChunks true (mapChunks A.modules) (applyChunks false (srcChunks A.modules) ({ modules := parsedEntries (A.options.Checksum) 0 0 A.modules, npmSnapshot := Option.none, options := ⟨A.options.Checksum, (A.options.Checksum).DigestSize⟩, version := EszipVersion.v2_3 } : EszipV2))).resolvePendingSlots)).npmSnapshot = ((applyChunks true (mapChunks A.modules) (applyChunks false (srcChunks A.modules) ({ modules := parsedEntries (A.options.Checksum) 0 0 A.modules, npmSnapshot := Option.none, options := ⟨A.options.Checksum, (A.options.Checksum).DigestSize⟩, version := EszipVersion.v2_3 } : EszipV2)))).npmSnapshot from rfl]
    rw [(applyChunks_fields true (mapChunks A.modules) (applyChunks false (srcChunks A.modules) ({ modules := parsedEntries (A.options.Checksum) 0 0 A.modules, npmSnapshot := Option.none, options := ⟨A.options.Checksum, (A.options.Checksum).DigestSize⟩, version := EszipVersion.v2_3 } : EszipV2))).2.1]
    rw [(applyChunks_fields false (srcChunks A.modules) ({ modules := parsedEntries (A.options.Checksum) 0 0 A.modules, npmSnapshot := Option.none, options := ⟨A.options.Checksum, (A.options.Checksum).DigestSize⟩, version := EszipVersion.v2_3 } : EszipV2)).2.1]
  have hnds : ((srcChunks A.modules).map Prod.fst).Nodup :=
    List.Nodup.sublist (srcChunks_keys_sublist A.modules) hnd
  have hndm : ((mapChunks A.modules).map Prod.fst).Nodup :=
    List.Nodup.sublist (mapChunks_keys_sublist A.modules) hnd
  have hzip := modules_roundtrip_zip (A.options.Checksum) (srcChunks A.modules) (mapChunks A.modules)
    hnds hndm A.modules 0 0
    (fun kk dd hm => ⟨fun hne => srcChunks_find_some A.modules kk dd hnd hm hne,
      fun h0 => srcChunks_find_none A.modules kk dd hnd hm h0⟩)
    (fun kk dd hm => ⟨fun hne => mapChunks_find_some A.modules kk dd hnd hm hne,
      fun h0 => mapChunks_find_none A.modules kk dd hnd hm h0⟩)
    hnpm
  unfold parseMatches
  rw [hsync]
  simp only []
  unfold archiveEquivB
  rw [Bool.and_eq_true, Bool.and_eq_true]
  refine ⟨⟨?_, ?_⟩, ?_⟩
  · rw [decide_eq_true_eq]
    rw [hmods]
    exact hzip.1
  · rw [hmods]
    exact hzip.2
  · rw [decide_eq_true_eq, hsnap2, hsnap]


theorem appendPayload_big (cs : ChecksumType) (hdr buf b : List Nat)
    (h1 : b.length ≤ maxUint32) (h2 : 0 < b.length) (h3 : buf.length ≤ maxUint32) :
    appendPayload cs hdr buf b = .ok (hdr ++ u32Bytes buf.length ++ u32Bytes b.length,
      buf ++ b ++ cs.Hash b) := by
  unfold appendPayload
  rw [if_neg (by omega), if_pos (by omega), if_neg (by omega)]

theorem appendPayload_empty (cs : ChecksumType) (hdr buf : List Nat) :
    appendPayload cs hdr buf [] = .ok (hdr ++ u32Bytes 0 ++ u32Bytes 0, buf) := by
  unfold appendPayload
  rw [if_neg (by decide), if_neg (by decide)]

/-- Witness for the amended C1 round trip at a concrete archive: an
XXH3-checksummed archive with a module (source and source map), a redirect,
an import map, opaque data and an empty-source wasm module round-trips. -/
theorem roundtrip_amended_witness :
    parseMatches c1WitnessBytes (buildArchive c1WitnessOps) = true :=
  roundtrip_amended c1WitnessOps c1WitnessBytes (by rfl) (by decide) (by decide) (by decide)


theorem cex_buildModulePart (b : List Nat) (hb : b.length = 268435457) :
    buildModulePart ChecksumType.none
      [([97], MapEntry.data { Kind := ModuleKind.javaScript, Source := SourceSlot.ready (some b), SourceMap := SourceSlot.ready Option.none })]
      [] [] [] = .ok ((u32Bytes 1 ++ [97] ++ [0] ++ u32Bytes 0 ++ u32Bytes 268435457 ++ u32Bytes 0 ++ u32Bytes 0 ++ [0] : List Nat), b, []) := by
  unfold buildModulePart
  rw [if_neg (by decide)]
  simp only [SourceSlot.getNow]
  rw [show optBytes (some b) = b from rfl]
  rw [appendPayload_big ChecksumType.none _ [] b (by rw [hb]; decide)
    (by rw [hb]; decide) (by decide)]
  simp only []
  rw [show optBytes (Option.none : Option (List Nat)) = ([] : List Nat) from rfl]
  rw [appendPayload_empty ChecksumType.none _ []]
  simp only []
  rw [show (∀ X Y Z : List Nat,
    buildModulePart ChecksumType.none [] X Y Z = Except.ok (X, Y, Z)) from
    fun X Y Z => rfl]
  rw [hb]
  rw [show ChecksumType.none.Hash b = [] from rfl]
  rw [show (([] : List Nat) ++ b) ++ [] = b from by
    rw [List.nil_append, List.append_nil]]
  rfl

theorem cex_intoBytes (b : List Nat) (hb : b.length = 268435457) :
    EszipV2.IntoBytes { modules := [([97], MapEntry.data { Kind := ModuleKind.javaScript, Source := SourceSlot.ready (some b), SourceMap := SourceSlot.ready Option.none })], npmSnapshot := Option.none, options := ⟨ChecksumType.none, 0⟩, version := EszipVersion.v2_3 } = Except.ok (EszipVersion.v2_3.ToMagic ++ ((u32Bytes 4 ++ ([0, ChecksumType.none.toByte, 1, ChecksumType.none.DigestSize % 256] ++ ChecksumType.none.Hash [0, ChecksumType.none.toByte, 1, ChecksumType.none.DigestSize % 256])) ++ (u32Bytes ((u32Bytes 1 ++ [97] ++ [0] ++ u32Bytes 0 ++ u32Bytes 268435457 ++ u32Bytes 0 ++ u32Bytes 0 ++ [0] : List Nat)).length ++ ((u32Bytes 1 ++ [97] ++ [0] ++ u32Bytes 0 ++ u32Bytes 268435457 ++ u32Bytes 0 ++ u32Bytes 0 ++ [0] : List Nat) ++ (ChecksumType.none.Hash (u32Bytes 1 ++ [97] ++ [0] ++ u32Bytes 0 ++ u32Bytes 268435457 ++ u32Bytes 0 ++ u32Bytes 0 ++ [0] : List Nat) ++ (u32Bytes 0 ++ (ChecksumType.none.Hash [] ++ (u32Bytes 268435457 ++ (b ++ (u32Bytes 0 ++ ([] : List Nat))))))))))) := by
  unfold EszipV2.IntoBytes
  simp only [EszipVersion.SupportsOptions, EszipVersion.SupportsNpm, reduceIte]
  rw [cex_buildModulePart b hb]
  simp only []
  rw [if_neg (by decide)]
  rw [if_neg (by decide)]
  rw [if_neg (by rw [hb]; decide)]
  rw [if_neg (by decide)]
  rw [hb]
  simp only [List.append_assoc]
  rfl

set_option maxRecDepth 8000 in
theorem cex_parseV2 (hdr b : List Nat) (hlen : hdr.length ≤ maxSectionSize)
    (hph : parseModulesHeader hdr true =
      Except.ok (([([97], MapEntry.data { Kind := ModuleKind.javaScript, Source := SourceSlot.pending 0 268435457, SourceMap := SourceSlot.ready Option.none })] : ModuleMap), ([] : List (List Nat × Nat)))) :
    parseV2 (EszipVersion.v2_3.ToMagic ++ ((u32Bytes 4 ++ ([0, ChecksumType.none.toByte, 1, ChecksumType.none.DigestSize % 256] ++ ChecksumType.none.Hash [0, ChecksumType.none.toByte, 1, ChecksumType.none.DigestSize % 256])) ++ (u32Bytes hdr.length ++ (hdr ++ (ChecksumType.none.Hash hdr ++ (u32Bytes 0 ++ (ChecksumType.none.Hash [] ++ (u32Bytes 268435457 ++ (b ++ (u32Bytes 0 ++ ([] : List Nat))))))))))) =
      .error (.invalidV2Header "source offset/length out of range") := by
  unfold parseV2
  rw [takeExact_append_of_eq EszipVersion.v2_3.ToMagic _
    (show EszipVersion.v2_3.ToMagic.length = 8 from rfl)]
  simp only []
  rw [show VersionFromMagic EszipVersion.v2_3.ToMagic = some EszipVersion.v2_3 from by decide]
  simp only []
  unfold parseV2WithVersion
  simp only [EszipVersion.SupportsNpm, EszipVersion.SupportsOptions, reduceIte]
  rw [parseOptionsHeader_writer ChecksumType.none (u32Bytes hdr.length ++ (hdr ++ (ChecksumType.none.Hash hdr ++ (u32Bytes 0 ++ (ChecksumType.none.Hash [] ++ (u32Bytes 268435457 ++ (b ++ (u32Bytes 0 ++ ([] : List Nat)))))))))]
  simp only []
  rw [readSection_frame hdr
    (⟨ChecksumType.none, ChecksumType.none.DigestSize⟩ : Options)
    (ChecksumType.none.Hash hdr) (u32Bytes 0 ++ (ChecksumType.none.Hash [] ++ (u32Bytes 268435457 ++ (b ++ (u32Bytes 0 ++ ([] : List Nat))))))
    (by rw [hash_length, getChecksumSize_digest]) hlen]
  simp only []
  rw [if_neg (by simp [Section.IsChecksumValid, verify_hash_self])]
  rw [hph]
  simp only []
  rw [parseNpmSection_writer ChecksumType.none (u32Bytes 268435457 ++ (b ++ (u32Bytes 0 ++ ([] : List Nat))))]
  simp only []
  rw [show buildOffsets ([([97], MapEntry.data { Kind := ModuleKind.javaScript, Source := SourceSlot.pending 0 268435457, SourceMap := SourceSlot.ready Option.none })] : ModuleMap) [] [] =
    Except.error (ParseErr.invalidV2Header "source offset/length out of range") from rfl]

theorem serializeThenParse_eq (e : EszipV2) (bs : List Nat)
    (h : e.IntoBytes = Except.ok bs) :
    serializeThenParse e = parseV2SyncNoCancel bs := by
  unfold serializeThenParse
  rw [h]

theorem parseV2SyncNoCancel_error (bs : List Nat) (err : ParseErr)
    (h : parseV2 bs = Except.error err) :
    parseV2SyncNoCancel bs = Except.error err := by
  unfold parseV2SyncNoCancel
  rw [h]

/-- Counterexample to the unamended C1 round-trip claim: a mutator-built
archive whose single module source is `maxSectionSize + 1` bytes long
serializes successfully (the writer bounds its buffers only by `maxUint32`),
but parsing the serialized bytes fails when the parser builds its source
offset index, because the source length exceeds the 256 MiB parser limit. -/
theorem c1_oversize_counterexample :
    serializeThenParse (buildArchive c1CexOps) =
      .error (.invalidV2Header "source offset/length out of range") := by
  have hb : ((List.replicate 268435457 (0 : Nat))).length = 268435457 := by
    rw [List.length_replicate]
  exact Eq.trans
    (serializeThenParse_eq _ _
      ((congrArg EszipV2.IntoBytes
        (show buildArchive c1CexOps = ({ modules := [([97], MapEntry.data { Kind := ModuleKind.javaScript, Source := SourceSlot.ready (some (List.replicate 268435457 (0 : Nat))), SourceMap := SourceSlot.ready Option.none })], npmSnapshot := Option.none, options := ⟨ChecksumType.none, 0⟩, version := EszipVersion.v2_3 } : EszipV2) from rfl)).trans
        (cex_intoBytes (List.replicate 268435457 (0 : Nat)) hb)))
    (parseV2SyncNoCancel_error _ _
      (cex_parseV2 (u32Bytes 1 ++ [97] ++ [0] ++ u32Bytes 0 ++ u32Bytes 268435457 ++ u32Bytes 0 ++ u32Bytes 0 ++ [0] : List Nat)
        (List.replicate 268435457 (0 : Nat)) (by decide) (by rfl)))

end Eszip
